import Mathlib

/-!
# Unions of piecewise expressions over different domain spaces

A shallow embedding of `isl_union_templ.c`: the generic container `UNION` that
stores one piecewise expression (`PART`) per domain space in a hash table keyed
on the domain space, under a common parameter space.

Conventions of the embedding.

* A pointer that may be `NULL` is an `Except Err α`: `.error e` is the `NULL`
  pointer together with the error kind left in the context by the failing call.
* The hash table is the list of its occupied slots in traversal order; a slot
  keeps the hash it was stored under.
* The collaborators that the template only uses through their interface (the
  space descriptor, the payload algebra, the hash table engine) are modelled
  from their contracts; the payload algebra is a parameter (`Env`).
* The template is recursive (`add_part_generic` aligns and copies through
  `align_params` and `cow`, which reinsert through `add_PARTS`); the embedding
  passes the nested inserter as an argument and closes the knot with a
  recursion budget.
* A union is a value, reference count included.  An operation returns its
  argument itself when the result is the argument with the count unchanged;
  where the source compares two pointers (`plain_is_equal`), the outcome of the
  comparison is an argument.  Where an operation works in place or only
  keeps its operands, a second function gives the operand objects as the call
  leaves them (`UNION.coalesce_object`, `UNION.plain_is_equal_objects`), with
  `UNION.free` for a released reference.
-/

set_option autoImplicit false

/-- Error kinds (`enum isl_error`); `fuel` is not an error of the library but
the embedding's marker for an exhausted recursion budget. -/
inductive Err where
  | abort
  | alloc
  | unknown
  | internal
  | invalid
  | quota
  | unsupported
  | fuel
deriving DecidableEq, Repr

deriving instance DecidableEq for Except

/-- The fold direction carried by families with `HAS_TYPE` (`enum isl_fold`). -/
inductive Fold where
  | min
  | max
  | list
deriving DecidableEq, Repr

/-- Dimension kinds (`enum isl_dim_type`). -/
inductive isl_dim_type where
  | cst
  | param
  | in_
  | out
  | div
  | all
deriving DecidableEq, Repr

/-- Status of a callback or traversal (`isl_stat`): `.ok ()` is `isl_stat_ok`,
`.error e` is `isl_stat_error` with the error kind left in the context. -/
abbrev isl_stat := Except Err Unit

/-- Modelled from the spec: the Parameter Space descriptor (`isl_space`), which is
not part of the template.  A space has a list of parameter identifiers and two
tuple positions; a tuple position holds the code of a tuple shape (identifier,
dimension count and nesting), or is absent: a set space has no input tuple and a
parameter space has neither. -/
structure Space where
  params : List Nat
  tin : Option Nat
  tout : Option Nat
deriving DecidableEq, Repr

/-- The tuple of a space at a dimension kind. -/
def Space.tuple (s : Space) : isl_dim_type → Option Nat
  | .in_ => s.tin
  | .out => s.tout
  | _ => none

/-- Modelled from the spec: `parameters_only(space)` (`isl_space_params`). -/
def isl_space_params (s : Space) : Space :=
  { params := s.params, tin := none, tout := none }

/-- Modelled from the spec: `dims_match(a, type, b, type)` at the parameter kind
(`isl_space_match(a, isl_dim_param, b, isl_dim_param)`): the same parameters in
the same order. -/
def isl_space_match (a b : Space) : Bool :=
  a.params == b.params

/-- Modelled from the spec: `is_set(space)` (`isl_space_is_set`): the space has no
input tuple. -/
def isl_space_is_set (s : Space) : Bool :=
  s.tin.isNone

/-- Modelled from the spec: `tuple_shapes_equal(a, side, b, side)`
(`isl_space_tuple_is_equal`). -/
def isl_space_tuple_is_equal (a : Space) (t1 : isl_dim_type) (b : Space)
    (t2 : isl_dim_type) : Bool :=
  a.tuple t1 == b.tuple t2

/-- Modelled from the spec: the space obtained by dropping all parameters of
`space` and aligning it to the parameters of `model`
(`isl_space_drop_dims` followed by `isl_space_align_params`). -/
def isl_space_align_params (space model : Space) : Space :=
  { space with params := model.params }

/-- Modelled from the spec: the number of dimensions of a kind (`isl_space_dim`).
The template only asks for the parameters; the dimensions inside a tuple are not
part of the model. -/
def isl_space_dim (s : Space) : isl_dim_type → Nat
  | .param => s.params.length
  | _ => 0

/-- Modelled from the spec: `drop_dims` of the Parameter Space
(`isl_space_drop_dims`) at the parameter kind, the only kind the template
reaches it with: the parameters at the positions `first`, ..., `first + n - 1`
are removed; a range that is not within the parameters is an invalid-argument
error. -/
def isl_space_drop_dims (s : Space) (type : isl_dim_type) (first n : Nat) : Except Err Space :=
  match type with
  | .param =>
    if first + n ≤ s.params.length then
      .ok { s with params := s.params.take first ++ s.params.drop (first + n) }
    else .error .invalid
  | _ => .error .unsupported

/-- Modelled from the spec: `set_dim_name` of the Parameter Space
(`isl_space_set_dim_name`) at the parameter kind, the only kind the template
reaches it with: the parameter at position `pos` is renamed to `name`; a
position that is not a parameter is an invalid-argument error. -/
def isl_space_set_dim_name (s : Space) (type : isl_dim_type) (pos : Nat) (name : Nat) :
    Except Err Space :=
  match type with
  | .param =>
    if pos < s.params.length then .ok { s with params := s.params.set pos name }
    else .error .invalid
  | _ => .error .unsupported

/-- Modelled from the spec: a Reordering (`isl_reordering`), of which the template
only reads the target space `dim`. -/
structure isl_reordering where
  dim : Space
deriving DecidableEq, Repr

/-- Modelled from the spec: `compute_alignment(from_space, to_space)`
(`isl_parameter_alignment_reordering`): the target has the parameters of the
aligner followed by the parameters of the alignee that the aligner lacks ("the
union of both parameter lists"). -/
def isl_parameter_alignment_reordering (alignee aligner : Space) : isl_reordering :=
  { dim := { alignee with
      params := aligner.params ++ alignee.params.filter (fun p => !aligner.params.contains p) } }

/-- Modelled from the spec: `extend_to(reordering, fuller_space)`
(`isl_reordering_extend_space`): the reordering over the tuples of `space`. -/
def isl_reordering_extend_space (exp : isl_reordering) (space : Space) : isl_reordering :=
  { dim := { space with params := exp.dim.params } }

/-- A piecewise expression (`PART`, `PW`): the space it lives in (`part->dim`) and
its opaque content. -/
structure PART (V : Type) where
  dim : Space
  val : V
deriving DecidableEq, Repr

/-- A set (`isl_set`): its space and its opaque content. -/
structure ISet (S : Type) where
  dim : Space
  val : S
deriving DecidableEq, Repr

/-- An occupied slot of a hash table (`struct isl_hash_table_entry`). -/
structure Entry (α : Type) where
  hash : Nat
  data : α
deriving DecidableEq, Repr

/-- A union of sets (`isl_union_set`): its parameter space and its table of sets
keyed on their space. -/
structure USet (S : Type) where
  dim : Space
  table : List (Entry (ISet S))
deriving DecidableEq, Repr

/-- Modelled from the spec: a value of the arbitrary-precision numeric type
(`isl_val`): a rational number, or one of the special values NaN, infinity and
negative infinity. -/
inductive isl_val where
  | rat (q : ℚ)
  | nan
  | infty
  | neginfty
deriving DecidableEq

/-- Modelled from the spec: is the value one? (`isl_val_is_one`). -/
def isl_val_is_one : isl_val → Bool
  | .rat q => decide (q = 1)
  | _ => false

/-- Modelled from the spec: is the value zero? (`isl_val_is_zero`). -/
def isl_val_is_zero : isl_val → Bool
  | .rat q => decide (q = 0)
  | _ => false

/-- Modelled from the spec: is the value a rational number? (`isl_val_is_rat`). -/
def isl_val_is_rat : isl_val → Bool
  | .rat _ => true
  | _ => false

/-- Modelled from the spec: is the value negative? (`isl_val_is_neg`). -/
def isl_val_is_neg : isl_val → Bool
  | .rat q => decide (q < 0)
  | .neginfty => true
  | _ => false

/-- Modelled from the spec: the opposite fold direction (`isl_fold_type_negate`):
minimum and maximum are swapped. -/
def isl_fold_type_negate : Fold → Fold
  | .min => .max
  | .max => .min
  | .list => .list

/-- The payload family the template is instantiated with: the compile-time
configuration and the operations of the Piecewise Payload on the opaque content.
`hash` is the hash of a parameter list and one tuple.  `isl_int_deref v` is what
`*(isl_int *) user` reads when `user` is the address `&v` of a by-value
parameter `v` of type `isl_int`: the type is defined outside the template; for a
scalar or pointer type the read gives `v`, for an array type the parameter is
itself a pointer and the read does not give `v`. -/
structure Env (V S : Type) where
  HAS_TYPE : Bool
  DEFAULT_IS_ZERO : Bool
  hash : List Nat → Option Nat → Nat
  zero : Space → Option Fold → V
  is_zero : PART V → Except Err Bool
  union_add : PART V → PART V → Except Err V
  add : PART V → PART V → Except Err V
  sub : PART V → PART V → Except Err V
  realign : PART V → List Nat → Except Err V
  empty_set : Space → S
  subtract_domain : PART V → ISet S → Except Err V
  plain_is_equal : PART V → PART V → Except Err Bool
  mul_isl_int : PART V → Int → Except Err V
  scale_val : PART V → isl_val → Except Err V
  scale_down_val : PART V → isl_val → Except Err V
  coalesce : PART V → Except Err V
  drop_dims : PART V → Nat → Nat → Except Err V
  set_dim_name : PART V → Nat → Nat → Except Err V
  intersect_params : PART V → ISet S → Except Err V
  gist_params : PART V → ISet S → Except Err V
  intersect_domain : PART V → ISet S → Except Err V
  gist : PART V → ISet S → Except Err V
  set_realign : ISet S → List Nat → S
  isl_int_deref : Int → Int

/-- A union of expressions defined over different domain spaces (`struct UNION`).
`space` describes the parameters; the entries of `table` are keyed on the domain
space of the entry.  `type` is absent in families without `HAS_TYPE`. -/
structure UNION (V : Type) where
  ref : Nat
  type : Option Fold
  space : Space
  table : List (Entry (PART V))
deriving DecidableEq, Repr

/-- What `isl_hash_table_find` returns when it is not `NULL`: an occupied slot
(its position and content) or, under `reserve`, a newly reserved slot whose
`data` is still `NULL`. -/
inductive EntryRef (α : Type) where
  | slot (i : Nat) (e : Entry α)
  | fresh (hash : Nat)
deriving DecidableEq, Repr

variable {V S : Type}

/-- Modelled from the spec: `domain_hash(space)` (`isl_space_get_domain_hash`), a
hash of the parameters and the input tuple. -/
def isl_space_get_domain_hash (E : Env V S) (space : Space) : Nat :=
  E.hash space.params space.tin

/-- Modelled from the spec: `full_hash(space)` (`isl_space_get_hash`) of a set
space, a hash of its parameters and its tuple; it is the domain hash of the
spaces over that set space. -/
def isl_space_get_hash (E : Env V S) (space : Space) : Nat :=
  E.hash space.params space.tout

/-- The first occupied slot with the given hash whose content satisfies `eq`. -/
def isl_hash_table_lookup {α : Type} : List (Entry α) → Nat → (α → Bool) → Option (Nat × Entry α)
  | [], _, _ => none
  | e :: es, key_hash, eq =>
    if e.hash = key_hash ∧ eq e.data = true then some (0, e)
    else (isl_hash_table_lookup es key_hash eq).map (fun r => (r.1 + 1, r.2))

/-- Modelled from the spec: `find(hash, equality_predicate, key, reserve)` of the
Hash Table: the slot with this hash whose content satisfies the predicate; when
there is none, `NULL` (`none`) without `reserve` and a newly reserved empty slot
with `reserve`. -/
def isl_hash_table_find {α : Type} (table : List (Entry α)) (key_hash : Nat)
    (eq : α → Bool) (reserve : Bool) : Option (EntryRef α) :=
  match isl_hash_table_lookup table key_hash eq with
  | some (i, e) => some (.slot i e)
  | none => if reserve then some (.fresh key_hash) else none

/-- Modelled from the spec: `traverse(read_only_or_mutating, visitor)` of the Hash
Table (`isl_hash_table_foreach`): the visitor is called on every occupied slot in
turn with the user data, may replace the content of the slot, and aborts the
traversal by returning an error.  Returns the status, the table and the user
data after the traversal. -/
def isl_hash_table_foreach {α σ : Type} (fn : α → σ → isl_stat × α × σ) :
    List (Entry α) → σ → isl_stat × List (Entry α) × σ
  | [], user => (.ok (), [], user)
  | e :: es, user =>
    match fn e.data user with
    | (.error err, d, user1) => (.error err, { e with data := d } :: es, user1)
    | (.ok _, d, user1) =>
      match isl_hash_table_foreach fn es user1 with
      | (st, es1, user2) => (st, { e with data := d } :: es1, user2)

namespace PART

/-- The copy of a payload (`FN(PART,copy)`): payloads are values. -/
def copy (part : PART V) : Except Err (PART V) :=
  .ok part

/-- The space of a payload (`FN(PART,get_space)`). -/
def get_space (part : Except Err (PART V)) : Except Err Space :=
  part.map (fun p => p.dim)

/-- Modelled from the spec: `domain_space(payload)` (`FN(PART,get_domain_space)`):
the set space whose tuple is the input tuple of the payload. -/
def get_domain_space (part : PART V) : Space :=
  { params := part.dim.params, tin := none, tout := part.dim.tin }

/-- Modelled from the spec: `is_zero(payload)` (`FN(PART,IS_ZERO)`). -/
def IS_ZERO (E : Env V S) (part : PART V) : Except Err Bool :=
  E.is_zero part

/-- Modelled from the spec: `zero(space[,tag])` (`FN(PART,ZERO)`). -/
def ZERO (E : Env V S) (space : Space) (type : Option Fold) : PART V :=
  { dim := space, val := E.zero space type }

/-- Modelled from the spec: `union_sum(a,b)` (`FN(PART,union_add_)`); the result
lives in the space of the first operand. -/
def union_add_ (E : Env V S) (a b : Except Err (PART V)) : Except Err (PART V) :=
  match a, b with
  | .error e, _ => .error e
  | _, .error e => .error e
  | .ok a, .ok b => (E.union_add a b).map (fun v => { dim := a.dim, val := v })

/-- Modelled from the spec: `add(a,b)`, the pointwise sum (`FN(PART,add)`). -/
def add (E : Env V S) (a b : Except Err (PART V)) : Except Err (PART V) :=
  match a, b with
  | .error e, _ => .error e
  | _, .error e => .error e
  | .ok a, .ok b => (E.add a b).map (fun v => { dim := a.dim, val := v })

/-- Modelled from the spec: `sub(a,b)`, the pointwise difference (`FN(PART,sub)`). -/
def sub (E : Env V S) (a b : Except Err (PART V)) : Except Err (PART V) :=
  match a, b with
  | .error e, _ => .error e
  | _, .error e => .error e
  | .ok a, .ok b => (E.sub a b).map (fun v => { dim := a.dim, val := v })

/-- Modelled from the spec: the payload with a set subtracted from its domain
(`FN(PW,subtract_domain)`); the space is unchanged. -/
def subtract_domain (E : Env V S) (pw : PART V) (set : ISet S) : Except Err (PART V) :=
  (E.subtract_domain pw set).map (fun v => { dim := pw.dim, val := v })

/-- Modelled from the spec: `realign_domain(payload, reordering)`
(`FN(PART,realign_domain)`): the payload re-expressed over the parameters of the
reordering, its tuples unchanged. -/
def realign_domain (E : Env V S) (part : PART V) (exp : isl_reordering) : Except Err (PART V) :=
  (E.realign part exp.dim.params).map
    (fun v => { dim := { part.dim with params := exp.dim.params }, val := v })

/-- Modelled from the spec: the alignment of a payload to a model space
(`FN(PART,align_params)`): nothing to do when the parameters match, otherwise the
payload is realigned to the alignment of its space with the model. -/
def align_params (E : Env V S) (part : Except Err (PART V)) (model : Except Err Space) :
    Except Err (PART V) :=
  match part, model with
  | .error e, _ => .error e
  | _, .error e => .error e
  | .ok part, .ok model =>
    if isl_space_match part.dim model then .ok part
    else
      let exp := isl_parameter_alignment_reordering part.dim (isl_space_params model)
      realign_domain E part (isl_reordering_extend_space exp (get_domain_space part))

end PART

namespace UNION

/-- The space of a union (`FN(UNION,get_space)`). -/
def get_space (u : Except Err (UNION V)) : Except Err Space :=
  u.map (fun u => u.space)

/-- An empty union over the parameters of `dim` (`FN(UNION,alloc)`); `size` is the
initial capacity of the table. -/
def alloc (E : Env V S) (dim : Space) (type : Option Fold) (_size : Nat) :
    Except Err (UNION V) :=
  .ok { ref := 1, type := if E.HAS_TYPE then type else none,
        space := isl_space_params dim, table := [] }

/-- The zero union (`FN(UNION,ZERO)`). -/
def ZERO (E : Env V S) (dim : Space) (type : Option Fold) : Except Err (UNION V) :=
  alloc E dim type 16

/-- A new reference to `u` (`FN(UNION,copy)`). -/
def copy (u : Except Err (UNION V)) : Except Err (UNION V) :=
  u.map (fun u => { u with ref := u.ref + 1 })

/-- The number of base expressions in `u` (`FN(FN(UNION,n),PARTS)`). -/
def n_PARTS (u : Except Err (UNION V)) : Nat :=
  match u with
  | .ok u => u.table.length
  | .error _ => 0

/-- Call `fn` on a copy of the entry and leave the entry as it is
(`FN(UNION,call_on_copy)`). -/
def call_on_copy {σ : Type} (fn : Except Err (PART V) → σ → isl_stat × σ) :
    PART V → σ → isl_stat × PART V × σ :=
  fun part user =>
    match fn (PART.copy part) user with
    | (st, user1) => (st, part, user1)

/-- Call `fn` on a copy of every entry (`FN(FN(UNION,foreach),PARTS)`). -/
def foreach_PARTS {σ : Type} (u : Except Err (UNION V))
    (fn : Except Err (PART V) → σ → isl_stat × σ) (user : σ) : isl_stat × σ :=
  match u with
  | .error e => (.error e, user)
  | .ok u =>
    match isl_hash_table_foreach (call_on_copy fn) u.table user with
    | (st, _, user1) => (st, user1)

/-- Is the domain space of `entry` equal to the domain of `space`?
(`FN(UNION,has_same_domain_space)`). -/
def has_same_domain_space (entry : PART V) (space : Space) : Bool :=
  if isl_space_is_set space then isl_space_is_set entry.dim
  else isl_space_tuple_is_equal entry.dim .in_ space .in_

/-- The entry, if any, in `u` that lives in `space` (`FN(UNION,find_part_entry)`).
`.error _` is `NULL`, `.ok none` is `isl_hash_table_entry_none`. -/
def find_part_entry (E : Env V S) (u : Except Err (UNION V)) (space : Space)
    (reserve : Bool) : Except Err (Option (EntryRef (PART V))) :=
  match u with
  | .error e => .error e
  | .ok u =>
    let hash := isl_space_get_domain_hash E space
    match isl_hash_table_find u.table hash (fun p => has_same_domain_space p space) reserve with
    | none => if reserve then .error .alloc else .ok none
    | some (.fresh h) => .ok (some (.fresh h))
    | some (.slot i e) =>
      if isl_space_tuple_is_equal e.data.dim .out space .out then .ok (some (.slot i e))
      else if !reserve then .ok none
      else .error .invalid

/-- Remove the entry at position `i` from the hash table of `u`
(`FN(UNION,remove_part_entry)`). -/
def remove_part_entry (u : Except Err (UNION V)) (i : Nat) : Except Err (UNION V) :=
  match u with
  | .error e => .error e
  | .ok u => .ok { u with table := u.table.eraseIdx i }

/-- Extract the element of `u` living in `space`, ignoring parameters; the zero
element if there is none (`FN(FN(UNION,extract),PARTS)`). -/
def extract_PARTS (E : Env V S) (u : Except Err (UNION V)) (space : Space) :
    Except Err (PART V) :=
  match u with
  | .error e => .error e
  | .ok u =>
    let space :=
      if !isl_space_match u.space space then isl_space_align_params space u.space else space
    match find_part_entry E (.ok u) space false with
    | .error e => .error e
    | .ok none => .ok (PART.ZERO E space (if E.HAS_TYPE then u.type else none))
    | .ok (some (.slot _ e)) => PART.copy e.data
    | .ok (some (.fresh _)) => .error .internal

/-- An empty union with the type and size of `u` over `space`
(`FN(UNION,alloc_same_size_on_space)`). -/
def alloc_same_size_on_space (E : Env V S) (u : UNION V) (space : Space) :
    Except Err (UNION V) :=
  alloc E space u.type u.table.length

/-- An empty union with the space, type and size of `u`
(`FN(UNION,alloc_same_size)`). -/
def alloc_same_size (E : Env V S) (u : UNION V) : Except Err (UNION V) :=
  alloc_same_size_on_space E u u.space

/-- The inserter that the nested traversals call (`FN(FN(UNION,add),PARTS)`). -/
abbrev Inserter (V : Type) :=
  Except Err (UNION V) → Except Err (PART V) → Except Err (UNION V)

/-- Callback of `dup`: add the entry to the union being built (`FN(UNION,add_part)`). -/
def add_part (add : Inserter V) : Except Err (PART V) → Except Err (UNION V) →
    isl_stat × Except Err (UNION V) :=
  fun part u => (.ok (), add u part)

/-- A union with the entries of `u`, each reinserted (`FN(UNION,dup)`). -/
def dup_with (E : Env V S) (add : Inserter V) (u : Except Err (UNION V)) :
    Except Err (UNION V) :=
  match u with
  | .error e => .error e
  | .ok u =>
    match foreach_PARTS (.ok u) (add_part add) (alloc_same_size E u) with
    | (.error e, _) => .error e
    | (.ok _, dup) => dup

/-- An exclusively owned version of `u` (`FN(UNION,cow)`). -/
def cow_with (E : Env V S) (add : Inserter V) (u : Except Err (UNION V)) :
    Except Err (UNION V) :=
  match u with
  | .error e => .error e
  | .ok u =>
    if u.ref = 1 then .ok u
    else dup_with E add (.ok { u with ref := u.ref - 1 })

/-- Callback of `realign_domain`: realign the entry and add it to the result
(`FN(UNION,align_entry)`). -/
def align_entry (E : Env V S) (add : Inserter V) (exp : isl_reordering) :
    Except Err (PART V) → Except Err (UNION V) → isl_stat × Except Err (UNION V) :=
  fun part res =>
    match part with
    | .error e => (.ok (), add res (.error e))
    | .ok part =>
      let exp1 := isl_reordering_extend_space exp (PART.get_domain_space part)
      (.ok (), add res (PART.realign_domain E part exp1))

/-- Reorder the parameters of `u` according to `r` (`FN(UNION,realign_domain)`). -/
def realign_domain_with (E : Env V S) (add : Inserter V) (u : Except Err (UNION V))
    (r : isl_reordering) : Except Err (UNION V) :=
  match u with
  | .error e => .error e
  | .ok u =>
    match foreach_PARTS (.ok u) (align_entry E add r) (alloc_same_size_on_space E u r.dim) with
    | (.error e, _) => .error e
    | (.ok _, res) => res

/-- Align the parameters of `u` to those of `model` (`FN(UNION,align_params)`). -/
def align_params_with (E : Env V S) (add : Inserter V) (u : Except Err (UNION V))
    (model : Except Err Space) : Except Err (UNION V) :=
  match u, model with
  | .error e, _ => .error e
  | _, .error e => .error e
  | .ok u, .ok model =>
    if isl_space_match u.space model then .ok u
    else
      let r := isl_parameter_alignment_reordering u.space (isl_space_params model)
      realign_domain_with E add (.ok u) r

/-- Add `part` to `u`; with `disjoint`, `u` may not already have a part on the
same space, otherwise the union sum is taken (`FN(UNION,add_part_generic)`).
`add` is the inserter used by the nested `align_params` and `cow`.  Where the
alignment of the part has failed, the C code reads `part->dim` through a `NULL`
pointer; the embedding reports the failure of the alignment. -/
def add_part_generic_with (E : Env V S) (add : Inserter V) (u : Except Err (UNION V))
    (part : Except Err (PART V)) (disjoint : Bool) : Except Err (UNION V) :=
  match part with
  | .error e => .error e
  | .ok part =>
    match PART.IS_ZERO E part with
    | .error e => .error e
    | .ok true => u
    | .ok false =>
      let u := align_params_with E add u (PART.get_space (.ok part))
      let part := PART.align_params E (.ok part) (get_space u)
      let u := cow_with E add u
      match u, part with
      | .error e, _ => .error e
      | _, .error e => .error e
      | .ok u, .ok part =>
        match find_part_entry E (.ok u) part.dim true with
        | .error e => .error e
        | .ok none => .error .internal
        | .ok (some (.fresh h)) =>
          .ok { u with table := u.table ++ [{ hash := h, data := part }] }
        | .ok (some (.slot i e)) =>
          if disjoint then .error .invalid
          else
            match PART.union_add_ E (.ok e.data) (PART.copy part) with
            | .error err => .error err
            | .ok sum =>
              let u1 : UNION V := { u with table := u.table.set i { e with data := sum } }
              match PART.IS_ZERO E part with
              | .error err => .error err
              | .ok true => remove_part_entry (.ok u1) i
              | .ok false => .ok u1

/-- The public disjoint insert with a recursion budget for the nested inserts. -/
def add_PARTS_fuel (E : Env V S) : Nat → Inserter V
  | 0 => fun _ _ => .error .fuel
  | n + 1 => fun u part => add_part_generic_with E (add_PARTS_fuel E n) u part true

/-- Add `part` to `u`, where `u` is assumed not to already have a part on the same
space (`FN(FN(UNION,add),PARTS)`).  The nesting of the template is at most three
deep: every budget from `3` on gives the same function
(`UNION.add_PARTS_fuel_stable`). -/
def add_PARTS (E : Env V S) : Inserter V :=
  add_PARTS_fuel E 4

/-- The insert of the template (`FN(UNION,add_part_generic)`). -/
def add_part_generic (E : Env V S) (u : Except Err (UNION V)) (part : Except Err (PART V))
    (disjoint : Bool) : Except Err (UNION V) :=
  add_part_generic_with E (add_PARTS E) u part disjoint

/-- A deep copy of `u` (`FN(UNION,dup)`). -/
def dup (E : Env V S) (u : Except Err (UNION V)) : Except Err (UNION V) :=
  dup_with E (add_PARTS E) u

/-- Copy-on-write (`FN(UNION,cow)`). -/
def cow (E : Env V S) (u : Except Err (UNION V)) : Except Err (UNION V) :=
  cow_with E (add_PARTS E) u

/-- Reorder the parameters of `u` (`FN(UNION,realign_domain)`). -/
def realign_domain (E : Env V S) (u : Except Err (UNION V)) (r : isl_reordering) :
    Except Err (UNION V) :=
  realign_domain_with E (add_PARTS E) u r

/-- Align the parameters of `u` to those of `model` (`FN(UNION,align_params)`). -/
def align_params (E : Env V S) (u : Except Err (UNION V)) (model : Except Err Space) :
    Except Err (UNION V) :=
  align_params_with E (add_PARTS E) u model

end UNION

/-- Modelled from the spec: the (possibly empty) set of `uset` that lives in
`space` (`isl_union_set_extract_set`). -/
def isl_union_set_extract_set (E : Env V S) (uset : USet S) (space : Space) : ISet S :=
  match isl_hash_table_find uset.table (isl_space_get_hash E space)
      (fun set => decide (set.dim = space)) false with
  | some (.slot _ e) => e.data
  | _ => { dim := space, val := E.empty_set space }

namespace UNION

/-- Callback of `union_add_`: add `part` to the union, taking the union sum if it
already has a part on the same space (`FN(UNION,union_add_part)`). -/
def union_add_part (E : Env V S) : Except Err (PART V) → Except Err (UNION V) →
    isl_stat × Except Err (UNION V) :=
  fun part u => (.ok (), add_part_generic E u part false)

/-- The sum of `u1` and `u2` on the union of their domains (`FN(UNION,union_add_)`). -/
def union_add_ (E : Env V S) (u1 u2 : Except Err (UNION V)) : Except Err (UNION V) :=
  let u1 := align_params E u1 (get_space u2)
  let u2 := align_params E u2 (get_space u1)
  let u1 := cow E u1
  match u1, u2 with
  | .error e, _ => .error e
  | _, .error e => .error e
  | .ok u1, .ok u2 =>
    match foreach_PARTS (.ok u2) (union_add_part E) (.ok u1) with
    | (.error e, _) => .error e
    | (.ok _, res) => res

/-- A binary operation on payloads, as passed to `match_bin_op`. -/
abbrev BinOp (V : Type) :=
  Except Err (PART V) → Except Err (PART V) → Except Err (PART V)

/-- The user data of `match_bin_entry` (`S(UNION,match_bin_data)`); the operation
`fn` is passed separately. -/
structure match_bin_data (V : Type) where
  u2 : UNION V
  res : Except Err (UNION V)

/-- Check if `data.u2` has an element living in the same space as the entry; if
so, call `fn` on the two elements and add the result to `data.res`
(`FN(UNION,match_bin_entry)`). -/
def match_bin_entry (E : Env V S) (fn : BinOp V) :
    PART V → match_bin_data V → isl_stat × PART V × match_bin_data V :=
  fun part data =>
    match find_part_entry E (.ok data.u2) part.dim false with
    | .error e => (.error e, part, data)
    | .ok none => (.ok (), part, data)
    | .ok (some (.fresh _)) => (.error .internal, part, data)
    | .ok (some (.slot _ e2)) =>
      if !isl_space_tuple_is_equal part.dim .out e2.data.dim .out then
        (.error .invalid, part, data)
      else
        let res := add_PARTS E data.res (fn (PART.copy part) (PART.copy e2.data))
        match res with
        | .error e => (.error e, part, { data with res := res })
        | .ok _ => (.ok (), part, { data with res := res })

/-- For each pair of elements in `u1` and `u2` living in the same space, call `fn`
and collect the results (`FN(UNION,match_bin_op)`). -/
def match_bin_op (E : Env V S) (u1 u2 : Except Err (UNION V)) (fn : BinOp V) :
    Except Err (UNION V) :=
  let u1 := align_params E u1 (get_space u2)
  let u2 := align_params E u2 (get_space u1)
  match u1, u2 with
  | .error e, _ => .error e
  | _, .error e => .error e
  | .ok u1, .ok u2 =>
    match isl_hash_table_foreach (match_bin_entry E fn) u1.table
        { u2 := u2, res := alloc_same_size E u1 } with
    | (.error e, _, _) => .error e
    | (.ok _, _, data) => data.res

/-- The sum of `u1` and `u2`: on the union of the domains if the base expressions
have a zero default, on the shared domains otherwise (`FN(UNION,add)`). -/
def add (E : Env V S) (u1 u2 : Except Err (UNION V)) : Except Err (UNION V) :=
  if E.DEFAULT_IS_ZERO then union_add_ E u1 u2
  else match_bin_op E u1 u2 (PART.add E)

/-- Subtract `u2` from `u1` (`FN(UNION,sub)`). -/
def sub (E : Env V S) (u1 u2 : Except Err (UNION V)) : Except Err (UNION V) :=
  match_bin_op E u1 u2 (PART.sub E)

/-- Take the set (which may be empty) of `uset` that lives in the same space as
the domain of `pw`, subtract it from the domain of `pw` and add the result to the
union being built (`FN(UNION,subtract_domain_entry)`). -/
def subtract_domain_entry (E : Env V S) (uset : USet S) :
    Except Err (PART V) → Except Err (UNION V) → isl_stat × Except Err (UNION V) :=
  fun pw res =>
    match pw with
    | .error e => (.ok (), add_PARTS E res (.error e))
    | .ok pw =>
      let space := PART.get_domain_space pw
      let set := isl_union_set_extract_set E uset space
      (.ok (), add_PARTS E res (PART.subtract_domain E pw set))

/-- Subtract `uset` from the domain of `u` (`FN(UNION,subtract_domain)`). -/
def subtract_domain (E : Env V S) (u : Except Err (UNION V)) (uset : Except Err (USet S)) :
    Except Err (UNION V) :=
  match u, uset with
  | .error e, _ => .error e
  | _, .error e => .error e
  | .ok u, .ok uset =>
    match foreach_PARTS (.ok u) (subtract_domain_entry E uset) (alloc_same_size E u) with
    | (.error e, _) => .error e
    | (.ok _, res) => res

end UNION


namespace PART

/-- Modelled from the spec: `structurally_equal(a,b)` (`FN(PW,plain_is_equal)`). -/
def plain_is_equal (E : Env V S) (a b : PART V) : Except Err Bool :=
  E.plain_is_equal a b

/-- Modelled from the spec: the payload multiplied by an integer
(`FN(PW,mul_isl_int)`); the space is unchanged. -/
def mul_isl_int (E : Env V S) (pw : PART V) (v : Int) : Except Err (PART V) :=
  (E.mul_isl_int pw v).map (fun x => { dim := pw.dim, val := x })

/-- Modelled from the spec: `scale_by_value(payload, v)` (`FN(PW,scale_val)`); the
space is unchanged. -/
def scale_val (E : Env V S) (pw : PART V) (v : isl_val) : Except Err (PART V) :=
  (E.scale_val pw v).map (fun x => { dim := pw.dim, val := x })

/-- Modelled from the spec: `scale_down_by_value(payload, v)`
(`FN(PW,scale_down_val)`); the space is unchanged. -/
def scale_down_val (E : Env V S) (pw : PART V) (v : isl_val) : Except Err (PART V) :=
  (E.scale_down_val pw v).map (fun x => { dim := pw.dim, val := x })

end PART

namespace UNION

/-- Call `fn` on each part entry of `u`, which may replace the entry
(`FN(UNION,foreach_inplace)`).  Returns the status, the union with the entries
as the traversal left them, and the user data. -/
def foreach_inplace {σ : Type} (u : Except Err (UNION V))
    (fn : PART V → σ → isl_stat × PART V × σ) (user : σ) :
    isl_stat × Except Err (UNION V) × σ :=
  match u with
  | .error e => (.error e, .error e, user)
  | .ok u =>
    match isl_hash_table_foreach fn u.table user with
    | (st, table, user1) => (st, .ok { u with table := table }, user1)

/-- Negate the type of `u`; nothing to do in families without a type
(`FN(UNION,negate_type)`). -/
def negate_type (E : Env V S) (u : Except Err (UNION V)) : Except Err (UNION V) :=
  if E.HAS_TYPE then
    match cow E u with
    | .error e => .error e
    | .ok u => .ok { u with type := u.type.map isl_fold_type_negate }
  else u

/-- Multiply the entry by the integer read through `user`
(`FN(UNION,mul_isl_int_entry)`): `user` is the pointer that `mul_isl_int` hands
to the traversal, the address `&v` of its parameter (given here by `v`), and
the factor is `*(isl_int *) user`.  Where the product fails the C code leaves
`NULL` in the slot of a union that is then freed; the embedding keeps the old
content there. -/
def mul_isl_int_entry (E : Env V S) (user : Int) :
    PART V → Unit → isl_stat × PART V × Unit :=
  fun pw st =>
    let v := E.isl_int_deref user
    match PART.mul_isl_int E pw v with
    | .error e => (.error e, pw, st)
    | .ok pw1 => (.ok (), pw1, st)

/-- Multiply `u` by the integer `v` (`FN(UNION,mul_isl_int)`); the traversal is
given the address of `v`. -/
def mul_isl_int (E : Env V S) (u : Except Err (UNION V)) (v : Int) : Except Err (UNION V) :=
  if v = 1 then u
  else
    match E.DEFAULT_IS_ZERO && decide (v = 0), u with
    | true, .ok u0 => ZERO E u0.space u0.type
    | _, _ =>
      let u := cow E u
      let u := if v < 0 then negate_type E u else u
      match u with
      | .error e => .error e
      | .ok u =>
        match isl_hash_table_foreach (mul_isl_int_entry E v) u.table () with
        | (.error e, _, _) => .error e
        | (.ok _, table, _) => .ok { u with table := table }

/-- Multiply the entry by the value `v` (`FN(UNION,scale_val_entry)`). -/
def scale_val_entry (E : Env V S) (v : isl_val) : PART V → Unit → isl_stat × PART V × Unit :=
  fun pw user =>
    match PART.scale_val E pw v with
    | .error e => (.error e, pw, user)
    | .ok pw1 => (.ok (), pw1, user)

/-- Multiply `u` by `v` (`FN(UNION,scale_val)`). -/
def scale_val (E : Env V S) (u : Except Err (UNION V)) (v : Except Err isl_val) :
    Except Err (UNION V) :=
  match u, v with
  | .error e, _ => .error e
  | _, .error e => .error e
  | .ok u, .ok v =>
    if isl_val_is_one v then .ok u
    else if E.DEFAULT_IS_ZERO && isl_val_is_zero v then ZERO E u.space u.type
    else if !isl_val_is_rat v then .error .invalid
    else
      let u := cow E (.ok u)
      let u := if isl_val_is_neg v then negate_type E u else u
      match u with
      | .error e => .error e
      | .ok u =>
        match isl_hash_table_foreach (scale_val_entry E v) u.table () with
        | (.error e, _, _) => .error e
        | (.ok _, table, _) => .ok { u with table := table }

/-- Divide the entry by the value `v` (`FN(UNION,scale_down_val_entry)`). -/
def scale_down_val_entry (E : Env V S) (v : isl_val) :
    PART V → Unit → isl_stat × PART V × Unit :=
  fun pw user =>
    match PART.scale_down_val E pw v with
    | .error e => (.error e, pw, user)
    | .ok pw1 => (.ok (), pw1, user)

/-- Divide `u` by `v` (`FN(UNION,scale_down_val)`). -/
def scale_down_val (E : Env V S) (u : Except Err (UNION V)) (v : Except Err isl_val) :
    Except Err (UNION V) :=
  match u, v with
  | .error e, _ => .error e
  | _, .error e => .error e
  | .ok u, .ok v =>
    if isl_val_is_one v then .ok u
    else if !isl_val_is_rat v then .error .invalid
    else if isl_val_is_zero v then .error .invalid
    else
      let u := cow E (.ok u)
      let u := if isl_val_is_neg v then negate_type E u else u
      match u with
      | .error e => .error e
      | .ok u =>
        match isl_hash_table_foreach (scale_down_val_entry E v) u.table () with
        | (.error e, _, _) => .error e
        | (.ok _, table, _) => .ok { u with table := table }

/-- The user data of `plain_is_equal_entry` (`S(UNION,plain_is_equal_data)`). -/
structure plain_is_equal_data (V : Type) where
  u2 : UNION V
  is_equal : Except Err Bool

/-- Look the entry up in `data.u2` and compare the two payloads; the traversal is
aborted unless they are equal (`FN(UNION,plain_is_equal_entry)`).  Where the C
code aborts without raising an error, the status carries `Err.abort`. -/
def plain_is_equal_entry (E : Env V S) :
    PART V → plain_is_equal_data V → isl_stat × PART V × plain_is_equal_data V :=
  fun pw data =>
    match find_part_entry E (.ok data.u2) pw.dim false with
    | .error e => (.error e, pw, { data with is_equal := .error e })
    | .ok none => (.error .abort, pw, { data with is_equal := .ok false })
    | .ok (some (.fresh _)) => (.error .internal, pw, { data with is_equal := .error .internal })
    | .ok (some (.slot _ e2)) =>
      match PART.plain_is_equal E pw e2.data with
      | .error e => (.error e, pw, { data with is_equal := .error e })
      | .ok false => (.error .abort, pw, { data with is_equal := .ok false })
      | .ok true => (.ok (), pw, { data with is_equal := .ok true })

/-- Are `u1` and `u2` obviously equal? (`FN(UNION,plain_is_equal)`).  `same` says
whether the two pointers are the same (`u1 == u2`).  The function only keeps its
arguments: it works on a new reference of each, which it releases before it
returns. -/
def plain_is_equal (E : Env V S) (same : Bool) (u1 u2 : Except Err (UNION V)) :
    Except Err Bool :=
  match u1, u2 with
  | .error e, _ => .error e
  | _, .error e => .error e
  | .ok a, .ok b =>
    if same then .ok true
    else if a.table.length ≠ b.table.length then .ok false
    else
      let u1 := copy (.ok a)
      let u2 := copy (.ok b)
      let u1 := align_params E u1 (get_space u2)
      let u2 := align_params E u2 (get_space u1)
      match u1, u2 with
      | .error e, _ => .error e
      | _, .error e => .error e
      | .ok u1, .ok u2 =>
        match foreach_inplace (.ok u1) (plain_is_equal_entry E)
            { u2 := u2, is_equal := .ok true } with
        | (.error e, _, data) =>
          match data.is_equal with
          | .error e1 => .error e1
          | .ok true => .error e
          | .ok false => .ok false
        | (.ok _, _, data) => data.is_equal

end UNION

/-! ## Sets, domain operations and parameter transforms -/

/-- The space of a set (`isl_set_get_space`). -/
def isl_set_get_space (set : Except Err (ISet S)) : Except Err Space :=
  set.map (fun s => s.dim)

/-- Modelled from the spec: the alignment of a set to the parameters of a model
space (`isl_set_align_params`): nothing to do when the parameters match,
otherwise the set is re-expressed over the aligned parameters. -/
def isl_set_align_params (E : Env V S) (set : Except Err (ISet S)) (model : Except Err Space) :
    Except Err (ISet S) :=
  match set, model with
  | .error e, _ => .error e
  | _, .error e => .error e
  | .ok set, .ok model =>
    if isl_space_match set.dim model then .ok set
    else
      let ps := (isl_parameter_alignment_reordering set.dim (isl_space_params model)).dim.params
      .ok { dim := { set.dim with params := ps }, val := E.set_realign set ps }

/-- The parameter space of a union of sets (`isl_union_set_get_space`). -/
def isl_union_set_get_space (uset : Except Err (USet S)) : Except Err Space :=
  uset.map (fun s => s.dim)

/-- Modelled from the spec: the alignment of a union of sets to the parameters of
a model space (`isl_union_set_align_params`): nothing to do when the parameters
match, otherwise every set is re-expressed over the aligned parameters and
stored under the hash of its new space. -/
def isl_union_set_align_params (E : Env V S) (uset : Except Err (USet S))
    (model : Except Err Space) : Except Err (USet S) :=
  match uset, model with
  | .error e, _ => .error e
  | _, .error e => .error e
  | .ok uset, .ok model =>
    if isl_space_match uset.dim model then .ok uset
    else
      let ps := (isl_parameter_alignment_reordering uset.dim (isl_space_params model)).dim.params
      .ok { dim := { uset.dim with params := ps },
            table := uset.table.map (fun e =>
              { hash := E.hash ps e.data.dim.tout,
                data := { dim := { e.data.dim with params := ps },
                          val := E.set_realign e.data ps } }) }

/-- Modelled from the spec: is the union of sets a pure parameter domain?
(`isl_union_set_is_params`): it holds exactly one set, and that set lives in a
parameter space. -/
def isl_union_set_is_params (uset : Except Err (USet S)) : Except Err Bool :=
  match uset with
  | .error e => .error e
  | .ok uset =>
    match uset.table with
    | [e] => .ok (e.data.dim.tin.isNone && e.data.dim.tout.isNone)
    | _ => .ok false

/-- Modelled from the spec: the single set of a union of sets
(`isl_set_from_union_set`); a union that does not hold exactly one set is an
invalid-argument error. -/
def isl_set_from_union_set (uset : Except Err (USet S)) : Except Err (ISet S) :=
  match uset with
  | .error e => .error e
  | .ok uset =>
    match uset.table with
    | [e] => .ok e.data
    | _ => .error .invalid

namespace PART

/-- Modelled from the spec: `coalesce(payload)` (`FN(PW,coalesce)`), an equivalent,
more compact form of the payload over the same space. -/
def coalesce (E : Env V S) (part : PART V) : Except Err (PART V) :=
  (E.coalesce part).map (fun x => { dim := part.dim, val := x })

/-- Modelled from the spec: `drop_param_dims` (`FN(PART,drop_dims)`): the payload
without the given parameters, over the space without them. -/
def drop_dims (E : Env V S) (part : PART V) (type : isl_dim_type) (first n : Nat) :
    Except Err (PART V) :=
  match isl_space_drop_dims part.dim type first n with
  | .error e => .error e
  | .ok sp => (E.drop_dims part first n).map (fun x => { dim := sp, val := x })

/-- Modelled from the spec: `rename_param` (`FN(PART,set_dim_name)`): the payload
with the parameter at `pos` renamed, over the space with that parameter
renamed. -/
def set_dim_name (E : Env V S) (part : PART V) (type : isl_dim_type) (pos : Nat) (s : Nat) :
    Except Err (PART V) :=
  match isl_space_set_dim_name part.dim type pos s with
  | .error e => .error e
  | .ok sp => (E.set_dim_name part pos s).map (fun x => { dim := sp, val := x })

/-- Modelled from the spec: the payload with its parameter domain intersected with
a parameter set (`FN(PW,intersect_params)`); the space is unchanged. -/
def intersect_params (E : Env V S) (pw : PART V) (set : ISet S) : Except Err (PART V) :=
  (E.intersect_params pw set).map (fun x => { dim := pw.dim, val := x })

/-- Modelled from the spec: the payload simplified in the context of a parameter
set (`FN(PW,gist_params)`); the space is unchanged. -/
def gist_params (E : Env V S) (pw : PART V) (set : ISet S) : Except Err (PART V) :=
  (E.gist_params pw set).map (fun x => { dim := pw.dim, val := x })

/-- Modelled from the spec: the payload with its domain intersected with a set
(`FN(PW,intersect_domain)`); the space is unchanged. -/
def intersect_domain (E : Env V S) (pw : PART V) (set : ISet S) : Except Err (PART V) :=
  (E.intersect_domain pw set).map (fun x => { dim := pw.dim, val := x })

/-- Modelled from the spec: the payload simplified in the context of a set
(`FN(PW,gist)`); the space is unchanged. -/
def gist (E : Env V S) (pw : PART V) (set : ISet S) : Except Err (PART V) :=
  (E.gist pw set).map (fun x => { dim := pw.dim, val := x })

end PART

namespace UNION

/-- The number of parameters of `u`, where `type` is required to be the parameter
kind (`FN(UNION,dim)`).  Returns the value and the error that the call leaves in
the context, if any. -/
def dim (u : Except Err (UNION V)) (type : isl_dim_type) : Nat × Option Err :=
  match u with
  | .error _ => (0, none)
  | .ok u =>
    if type ≠ .param then (0, some .invalid)
    else (isl_space_dim u.space type, none)

/-- An operation of a payload and a set, as passed to `any_set_op` and
`match_domain_op`; it is called on copies of a stored payload and a stored set. -/
abbrev SetOp (V S : Type) :=
  PART V → ISet S → Except Err (PART V)

/-- Callback of `any_set_op`: call `fn` on the entry and the set and add the
result to the union being built (`FN(UNION,any_set_entry)`). -/
def any_set_entry (E : Env V S) (set : ISet S) (fn : SetOp V S) :
    PART V → Except Err (UNION V) → isl_stat × PART V × Except Err (UNION V) :=
  fun pw res =>
    let res := add_PARTS E res (fn pw set)
    match res with
    | .error e => (.error e, pw, res)
    | .ok _ => (.ok (), pw, res)

/-- Update each element of `u` by calling `fn` on the element and `set`
(`FN(UNION,any_set_op)`). -/
def any_set_op (E : Env V S) (u : Except Err (UNION V)) (set : Except Err (ISet S))
    (fn : SetOp V S) : Except Err (UNION V) :=
  let u := align_params E u (isl_set_get_space set)
  let set := isl_set_align_params E set (get_space u)
  match u, set with
  | .error e, _ => .error e
  | _, .error e => .error e
  | .ok u, .ok set =>
    match isl_hash_table_foreach (any_set_entry E set fn) u.table (alloc_same_size E u) with
    | (.error e, _, _) => .error e
    | (.ok _, _, res) => res

/-- Intersect the domain of `u` with the parameter domain `set`
(`FN(UNION,intersect_params)`). -/
def intersect_params (E : Env V S) (u : Except Err (UNION V)) (set : Except Err (ISet S)) :
    Except Err (UNION V) :=
  any_set_op E u set (PART.intersect_params E)

/-- The gist of `u` with respect to the parameter domain `set`
(`FN(UNION,gist_params)`). -/
def gist_params (E : Env V S) (u : Except Err (UNION V)) (set : Except Err (ISet S)) :
    Except Err (UNION V) :=
  any_set_op E u set (PART.gist_params E)

/-- Does the set live in the space `dim`? (`FN(UNION,set_has_dim)`). -/
def set_has_dim (set : ISet S) (dim : Space) : Bool :=
  decide (set.dim = dim)

/-- Find the set of `uset` that lives in the same space as the domain of the
entry, apply `fn` to the entry and this set (if any), and add the result to the
union being built (`FN(UNION,match_domain_entry)`). -/
def match_domain_entry (E : Env V S) (uset : USet S) (fn : SetOp V S) :
    PART V → Except Err (UNION V) → isl_stat × PART V × Except Err (UNION V) :=
  fun pw res =>
    let space := PART.get_domain_space pw
    let hash := isl_space_get_hash E space
    match isl_hash_table_find uset.table hash (fun set => set_has_dim set space) false with
    | none => (.ok (), pw, res)
    | some (.fresh _) => (.error .internal, pw, res)
    | some (.slot _ entry2) =>
      let res := add_PARTS E res (fn pw entry2.data)
      match res with
      | .error e => (.error e, pw, res)
      | .ok _ => (.ok (), pw, res)

/-- Apply `fn` to each pair of an element of `u` and a set of `uset` such that the
set lives in the same space as the domain of the element, and collect the
results (`FN(UNION,match_domain_op)`). -/
def match_domain_op (E : Env V S) (u : Except Err (UNION V)) (uset : Except Err (USet S))
    (fn : SetOp V S) : Except Err (UNION V) :=
  let u := align_params E u (isl_union_set_get_space uset)
  let uset := isl_union_set_align_params E uset (get_space u)
  match u, uset with
  | .error e, _ => .error e
  | _, .error e => .error e
  | .ok u, .ok uset =>
    match isl_hash_table_foreach (match_domain_entry E uset fn) u.table
        (alloc_same_size E u) with
    | (.error e, _, _) => .error e
    | (.ok _, _, res) => res

/-- Intersect the domain of `u` with `uset`; if `uset` is a parameter domain, the
parameter domain of `u` is intersected with it (`FN(UNION,intersect_domain)`).
The test is taken as true also when it fails, as in C. -/
def intersect_domain (E : Env V S) (u : Except Err (UNION V)) (uset : Except Err (USet S)) :
    Except Err (UNION V) :=
  match isl_union_set_is_params uset with
  | .ok false => match_domain_op E u uset (PART.intersect_domain E)
  | _ => intersect_params E u (isl_set_from_union_set uset)

/-- The gist of `u` with respect to `uset` (`FN(UNION,gist)`). -/
def gist (E : Env V S) (u : Except Err (UNION V)) (uset : Except Err (USet S)) :
    Except Err (UNION V) :=
  match isl_union_set_is_params uset with
  | .ok false => match_domain_op E u uset (PART.gist E)
  | _ => gist_params E u (isl_set_from_union_set uset)

/-- Coalesce an entry in place; the entry is only replaced if the coalescing of
its copy is successful (`FN(UNION,coalesce_entry)`). -/
def coalesce_entry (E : Env V S) : PART V → Unit → isl_stat × PART V × Unit :=
  fun part_p user =>
    match PART.coalesce E part_p with
    | .error e => (.error e, part_p, user)
    | .ok part => (.ok (), part, user)

/-- Coalesce the entries of `u` in place (`FN(UNION,coalesce)`): `u` itself with
the entries as the traversal left them, or failure. -/
def coalesce (E : Env V S) (u : Except Err (UNION V)) : Except Err (UNION V) :=
  match foreach_inplace u (coalesce_entry E) () with
  | (.error e, _, _) => .error e
  | (.ok _, u, _) => u

/-- The object of a union after one reference to it is released
(`FN(UNION,free)`): one reference less, or `none` when that was the last
reference and the object is destroyed. -/
def free (u : UNION V) : Option (UNION V) :=
  if 0 < u.ref - 1 then some { u with ref := u.ref - 1 } else none

/-- The object `u` as `coalesce` leaves it: the result itself when the call
succeeds; when an entry fails, the object with its entries as the aborted
traversal left them, released once (the `error` exit). -/
def coalesce_object (E : Env V S) (u : UNION V) : Option (UNION V) :=
  match foreach_inplace (.ok u) (coalesce_entry E) () with
  | (.ok _, .ok u1, _) => some u1
  | (.error _, .ok u1, _) => free u1
  | (_, .error _, _) => none

/-- Callback of `drop_dims`: drop the parameters from the entry and add the result
to the union being built (`FN(UNION,drop_dims_entry)`). -/
def drop_dims_entry (E : Env V S) (type : isl_dim_type) (first n : Nat) :
    Except Err (PART V) → Except Err (UNION V) → isl_stat × Except Err (UNION V) :=
  fun part res =>
    let part :=
      match part with
      | .error e => .error e
      | .ok part => PART.drop_dims E part type first n
    let res := add_PARTS E res part
    match res with
    | .error e => (.error e, res)
    | .ok _ => (.ok (), res)

/-- Drop the specified parameters from `u`; `type` is required to be the parameter
kind (`FN(UNION,drop_dims)`). -/
def drop_dims (E : Env V S) (u : Except Err (UNION V)) (type : isl_dim_type) (first n : Nat) :
    Except Err (UNION V) :=
  match u with
  | .error e => .error e
  | .ok u =>
    if type ≠ .param then .error .invalid
    else
      let res :=
        match isl_space_drop_dims u.space type first n with
        | .error e => .error e
        | .ok space => alloc_same_size_on_space E u space
      match foreach_PARTS (.ok u) (drop_dims_entry E type first n) res with
      | (.error e, _) => .error e
      | (.ok _, res) => res

/-- Callback of `set_dim_name`: rename the parameter of the entry and add the
result to the union being built (`FN(UNION,set_dim_name_entry)`). -/
def set_dim_name_entry (E : Env V S) (pos : Nat) (s : Nat) :
    Except Err (PART V) → Except Err (UNION V) → isl_stat × Except Err (UNION V) :=
  fun part res =>
    let part :=
      match part with
      | .error e => .error e
      | .ok part => PART.set_dim_name E part .param pos s
    let res := add_PARTS E res part
    match res with
    | .error e => (.error e, res)
    | .ok _ => (.ok (), res)

/-- Change the name of the parameter at position `pos` to `s`; `type` is required
to be the parameter kind (`FN(UNION,set_dim_name)`). -/
def set_dim_name (E : Env V S) (u : Except Err (UNION V)) (type : isl_dim_type) (pos : Nat)
    (s : Nat) : Except Err (UNION V) :=
  match u with
  | .error e => .error e
  | .ok u =>
    if type ≠ .param then .error .invalid
    else
      let res :=
        match isl_space_set_dim_name u.space type pos s with
        | .error e => .error e
        | .ok space => alloc_same_size_on_space E u space
      match foreach_PARTS (.ok u) (set_dim_name_entry E pos s) res with
      | (.error e, _) => .error e
      | (.ok _, res) => res

/-- What a call that takes a reference to a union leaves behind: the pointer it
returns, whether that pointer is the object it was given, and that object after
the call (`none`: destroyed). -/
structure Taken (V : Type) where
  result : Except Err (UNION V)
  same : Bool
  object : Option (UNION V)

/-- The call `align_params(u, model)` (`FN(UNION,align_params)`) together with the
object `u` it takes: when the parameters match, `u` itself is returned and stays
as it is; the `error` exit releases `u`; otherwise `realign_domain` builds a new
union from copies of the entries of `u` and releases `u`. -/
def align_params_taken (E : Env V S) (u : UNION V) (model : Except Err Space) : Taken V :=
  match model with
  | .error e => { result := .error e, same := false, object := free u }
  | .ok model =>
    if isl_space_match u.space model then { result := .ok u, same := true, object := some u }
    else { result := align_params E (.ok u) (.ok model), same := false, object := free u }

/-- The object that a call took, after the pointer the call returned has been
used for an in-place traversal (`now` is the union the pointer refers to after
the traversal) and released. -/
def Taken.released (t : Taken V) (now : Except Err (UNION V)) : Option (UNION V) :=
  if t.same then
    match now with
    | .ok u => free u
    | .error _ => t.object
  else t.object

/-- The two operands of `plain_is_equal` as the call leaves them
(`FN(UNION,plain_is_equal)`, with the pointer comparison `same`): each operand
gets a new reference (`copy`), is aligned (which may replace the pointer by a
new union and release the operand), the first is traversed in place, and both
pointers are released on every exit. -/
def plain_is_equal_objects (E : Env V S) (same : Bool) (u1 u2 : UNION V) :
    Option (UNION V) × Option (UNION V) :=
  if same then (some u1, some u2)
  else if u1.table.length ≠ u2.table.length then (some u1, some u2)
  else
    let c1 : UNION V := { u1 with ref := u1.ref + 1 }
    let c2 : UNION V := { u2 with ref := u2.ref + 1 }
    let t1 := align_params_taken E c1 (get_space (.ok c2))
    let t2 := align_params_taken E c2 (get_space t1.result)
    match t1.result, t2.result with
    | .ok a1, .ok a2 =>
      match foreach_inplace (.ok a1) (plain_is_equal_entry E)
          { u2 := a2, is_equal := .ok true } with
      | (_, now, _) => (t1.released now, t2.released (.ok a2))
    | r1, r2 => (t1.released r1, t2.released r2)

end UNION

/-! ## Well-formedness -/

/-- The invariant of a table under the parameter list `ps`: every entry has the
parameters `ps` and is stored under the domain hash of its space, and no two
entries have the same domain tuple. -/
def TableInv (E : Env V S) (ps : List Nat) (t : List (Entry (PART V))) : Prop :=
  (∀ e ∈ t, e.data.dim.params = ps ∧ e.hash = E.hash ps e.data.dim.tin) ∧
  t.Pairwise (fun a b => a.data.dim.tin ≠ b.data.dim.tin)

/-- The invariant of a union: its table is consistent with its parameters and has
at most one entry per domain tuple. -/
def UNION.Inv (E : Env V S) (u : UNION V) : Prop :=
  TableInv E u.space.params u.table

/-- A well-formed union: the invariant holds, no stored entry is the zero
element, the space is a parameter space and the type is only present in
families with `HAS_TYPE`. -/
def UNION.WF (E : Env V S) (u : UNION V) : Prop :=
  UNION.Inv E u ∧ (∀ e ∈ u.table, PART.IS_ZERO E e.data = .ok false) ∧
  u.space = isl_space_params u.space ∧ (E.HAS_TYPE = false → u.type = none)

/-- The insertion proper of `add_part_generic`, after the zero test, the
alignment and the copy-on-write: look the slot up with `reserve` and store, or
combine with the entry already there (the part of the function from the call of
`find_part_entry` on). -/
def UNION.add_part_core (E : Env V S) (u : UNION V) (part : PART V) (disjoint : Bool) :
    Except Err (UNION V) :=
  match UNION.find_part_entry E (.ok u) part.dim true with
  | .error e => .error e
  | .ok none => .error .internal
  | .ok (some (.fresh h)) =>
    .ok { u with table := u.table ++ [{ hash := h, data := part }] }
  | .ok (some (.slot i e)) =>
    if disjoint then .error .invalid
    else
      match PART.union_add_ E (.ok e.data) (PART.copy part) with
      | .error err => .error err
      | .ok sum =>
        let u1 : UNION V := { u with table := u.table.set i { e with data := sum } }
        match PART.IS_ZERO E part with
        | .error err => .error err
        | .ok true => UNION.remove_part_entry (.ok u1) i
        | .ok false => .ok u1

/-- The key of a stored entry: the hash it is stored under and the space of its
payload. -/
def Entry.key (e : Entry (PART V)) : Nat × Space :=
  (e.hash, e.data.dim)

/-- What the traversals need from the nested inserter: it never turns a failed
union or a failed part into a result, and on an exclusively owned union that
satisfies the invariant and a part with the parameters of the union, a result
again satisfies the invariant, is exclusively owned and has the same space and
type. -/
def UNION.InsOK (E : Env V S) (add : UNION.Inserter V) : Prop :=
  (∀ e x r, add (.error e) x ≠ .ok r) ∧ (∀ u e r, add (.ok u) (.error e) ≠ .ok r) ∧
  (∀ u p r, UNION.Inv E u → u.ref = 1 → p.dim.params = u.space.params →
    add (.ok u) (.ok p) = .ok r →
    UNION.Inv E r ∧ r.ref = 1 ∧ r.space = u.space ∧ r.type = u.type)

/-- The unions that the operations of the template build from the zero union:
the zero union itself and every successful result of an insertion (disjoint or
not), of the removal of an entry, of `union_add_`, of `match_bin_op`, of `dup`,
of `copy` and of `cow` on unions built that way. -/
inductive UNION.Reachable (E : Env V S) : UNION V → Prop where
  | zero (dim : Space) (type : Option Fold) (u : UNION V) :
      UNION.ZERO E dim type = .ok u → UNION.Reachable E u
  | add_part (u : UNION V) (part : PART V) (disjoint : Bool) (r : UNION V) :
      UNION.Reachable E u → UNION.add_part_generic E (.ok u) (.ok part) disjoint = .ok r →
      UNION.Reachable E r
  | remove (u : UNION V) (i : Nat) (r : UNION V) :
      UNION.Reachable E u → UNION.remove_part_entry (.ok u) i = .ok r → UNION.Reachable E r
  | union_add (u1 u2 r : UNION V) :
      UNION.Reachable E u1 → UNION.Reachable E u2 →
      UNION.union_add_ E (.ok u1) (.ok u2) = .ok r → UNION.Reachable E r
  | match_bin (u1 u2 : UNION V) (fn : UNION.BinOp V) (r : UNION V) :
      UNION.Reachable E u1 → UNION.Reachable E u2 →
      UNION.match_bin_op E (.ok u1) (.ok u2) fn = .ok r → UNION.Reachable E r
  | dup (u r : UNION V) :
      UNION.Reachable E u → UNION.dup E (.ok u) = .ok r → UNION.Reachable E r
  | copy (u r : UNION V) :
      UNION.Reachable E u → UNION.copy (.ok u) = .ok r → UNION.Reachable E r
  | cow (u r : UNION V) :
      UNION.Reachable E u → UNION.cow E (.ok u) = .ok r → UNION.Reachable E r

/-- An inserter that, on an exclusively owned union and a part with the
parameters of the union, does the zero test and the insertion proper of the
disjoint insert (no realignment and no copy are needed there). -/
def UNION.InsCore (E : Env V S) (add : UNION.Inserter V) : Prop :=
  ∀ u p, u.ref = 1 → p.dim.params = u.space.params →
    add (.ok u) (.ok p) =
      match PART.IS_ZERO E p with
      | .error e => .error e
      | .ok true => .ok u
      | .ok false => UNION.add_part_core E u p true

/-- The payload of an entry with the matching set of `uset` subtracted from its
domain, as computed by `subtract_domain_entry`. -/
def UNION.subtracted (E : Env V S) (uset : USet S) (pw : PART V) : Except Err (PART V) :=
  PART.subtract_domain E pw (isl_union_set_extract_set E uset (PART.get_domain_space pw))

/-- The entry that `subtract_domain` stores for an entry of its argument: the
subtracted payload under the same hash, unless it is the zero element. -/
def UNION.subtracted_entry (E : Env V S) (uset : USet S) (e : Entry (PART V)) :
    Option (Entry (PART V)) :=
  match UNION.subtracted E uset e.data with
  | .ok p => if PART.IS_ZERO E p = .ok false then some { hash := e.hash, data := p } else none
  | .error _ => none

/-- The space that `extract_PARTS` looks up: `space` itself when its parameters
match those of `u`, otherwise `space` with the parameters of `u`. -/
def UNION.extract_space (u : UNION V) (space : Space) : Space :=
  if !isl_space_match u.space space then isl_space_align_params space u.space else space

/-! ## A concrete payload family

Integer-valued payloads under addition, used to evaluate the template on concrete
inputs: a payload is zero when its value is `0`, the union sum adds the values,
and subtracting a set that covers the domain (`true`) leaves the zero payload.
Only scaling by an integer is supported, and `isl_int` is a scalar.  Intersecting with a set keeps the value
when the set covers the domain and leaves the zero payload otherwise; coalescing
reduces a non-negative value modulo `10` and fails on a negative one; dropping or
renaming a parameter keeps the value. -/

/-- The integer payload family (zero-default, without a fold type). -/
def intEnv : Env Int Bool where
  HAS_TYPE := false
  DEFAULT_IS_ZERO := true
  hash := fun ps t => ps.length + t.getD 0
  zero := fun _ _ => 0
  is_zero := fun p => .ok (p.val == 0)
  union_add := fun a b => .ok (a.val + b.val)
  add := fun a b => .ok (a.val + b.val)
  sub := fun a b => .ok (a.val - b.val)
  realign := fun p _ => .ok p.val
  empty_set := fun _ => false
  subtract_domain := fun p s => .ok (if s.val then 0 else p.val)
  plain_is_equal := fun a b => .ok (decide (a = b))
  mul_isl_int := fun p v => .ok (p.val * v)
  scale_val := fun p v =>
    match v with
    | .rat q => if q.den = 1 then .ok (p.val * q.num) else .error .unsupported
    | _ => .error .invalid
  scale_down_val := fun p v =>
    match v with
    | .rat q => if q.den = 1 then .ok (p.val / q.num) else .error .unsupported
    | _ => .error .invalid
  coalesce := fun p => if p.val < 0 then .error .unknown else .ok (p.val % 10)
  drop_dims := fun p _ _ => .ok p.val
  set_dim_name := fun p _ _ => .ok p.val
  intersect_params := fun p s => .ok (if s.val then p.val else 0)
  gist_params := fun p _ => .ok p.val
  intersect_domain := fun p s => .ok (if s.val then p.val else 0)
  gist := fun p _ => .ok p.val
  set_realign := fun s _ => s.val
  isl_int_deref := fun v => v

/-- The map space with parameter `7`, domain tuple `1` and range tuple `r`. -/
def spaceD (r : Nat) : Space :=
  { params := [7], tin := some 1, tout := some r }

/-- The parameter space with the single parameter `7`. -/
def spaceN : Space :=
  { params := [7], tin := none, tout := none }

/-- The union over `spaceN` holding the single value `v` over `spaceD r`. -/
def single (ref : Nat) (r : Nat) (v : Int) : UNION Int :=
  { ref := ref, type := none, space := spaceN,
    table := [{ hash := 2, data := { dim := spaceD r, val := v } }] }

/-- The empty union over `spaceN`. -/
def emptyN : UNION Int :=
  { ref := 1, type := none, space := spaceN, table := [] }

/-- A union of sets over `spaceN` whose set over the domain tuple `1` covers that
domain. -/
def coverD : USet Bool :=
  { dim := spaceN,
    table := [{ hash := 2, data := { dim := { params := [7], tin := none, tout := some 1 },
                                      val := true } }] }

/-- A union over `spaceN` with an entry over the domain tuple `1` and an entry
over the domain tuple `2`. -/
def pairN : UNION Int :=
  { ref := 1, type := none, space := spaceN,
    table := [{ hash := 2, data := { dim := spaceD 5, val := 1 } },
              { hash := 3, data := { dim := { params := [7], tin := some 2, tout := some 5 },
                                     val := 4 } }] }

/-- Does the traversal step of `plain_is_equal` on the payload `pw` find an equal
payload in `u2`?  (The lookup and the comparison of `plain_is_equal_entry`.) -/
def UNION.entry_matches (E : Env V S) (u2 : UNION V) (pw : PART V) : Bool :=
  match UNION.find_part_entry E (.ok u2) pw.dim false with
  | .ok (some (.slot _ e2)) =>
    match PART.plain_is_equal E pw e2.data with
    | .ok true => true
    | _ => false
  | _ => false

/-- The entry that `match_bin_op` stores for an entry of its first argument: the
result of `fn` on the entry and the entry of `u2` that lives in the same space,
under the hash of the entry, unless there is no such entry in `u2` or the
result is the zero element. -/
def UNION.matched_entry (E : Env V S) (u2 : UNION V) (fn : UNION.BinOp V)
    (e : Entry (PART V)) : Option (Entry (PART V)) :=
  match UNION.find_part_entry E (.ok u2) e.data.dim false with
  | .ok (some (.slot _ e2)) =>
    match fn (PART.copy e.data) (PART.copy e2.data) with
    | .ok r => if PART.IS_ZERO E r = .ok false then some { hash := e.hash, data := r } else none
    | .error _ => none
  | _ => none

/-- The table of `u` with every payload replaced by `f` of it, where `f`
succeeds (the table that an in-place traversal leaves). -/
def UNION.map_table (f : PART V → Except Err (PART V)) (t : List (Entry (PART V))) :
    List (Entry (PART V)) :=
  t.map (fun e => match f e.data with
    | .ok p => { e with data := p }
    | .error _ => e)

/-- The integer payload family without a zero default: `add` is the sum on the
shared domains. -/
def plainEnv : Env Int Bool :=
  { intEnv with DEFAULT_IS_ZERO := false }

/-- The integer payload family with a fold type. -/
def foldEnv : Env Int Bool :=
  { intEnv with HAS_TYPE := true }

/-- The union over `spaceN` with the fold type `ty` holding the single value `v`
over `spaceD r`. -/
def singleF (ref : Nat) (ty : Fold) (r : Nat) (v : Int) : UNION Int :=
  { ref := ref, type := some ty, space := spaceN,
    table := [{ hash := 2, data := { dim := spaceD r, val := v } }] }

/-- The union that a scaling operation is expected to return for `u`: exclusively
owned, with the type of `u`, negated when the family has a type and the factor
is negative (`neg`), the space of `u`, and every payload of `u` replaced by `f`
of it. -/
def UNION.scaled (E : Env V S) (u : UNION V) (neg : Bool)
    (f : PART V → Except Err (PART V)) : UNION V :=
  { ref := 1,
    type := if E.HAS_TYPE && neg then u.type.map isl_fold_type_negate else u.type,
    space := u.space,
    table := UNION.map_table f u.table }

/-- The entry that a rebuilding traversal stores for an entry of its argument,
where `g` gives the payload to insert, if any: that payload under the domain hash
of its space, unless there is none, it is a failure or it is the zero element. -/
def UNION.collected_entry (E : Env V S) (g : PART V → Option (Except Err (PART V)))
    (e : Entry (PART V)) : Option (Entry (PART V)) :=
  match g e.data with
  | some (.ok p) =>
    if PART.IS_ZERO E p = .ok false then
      some { hash := isl_space_get_domain_hash E p.dim, data := p }
    else none
  | _ => none

/-- The payload that `match_domain_entry` inserts for the entry `pw`, if any:
`fn` of the entry and the set of `uset` found under the hash of its domain
space. -/
def UNION.domain_matched (E : Env V S) (uset : USet S) (fn : UNION.SetOp V S) (pw : PART V) :
    Option (Except Err (PART V)) :=
  match isl_hash_table_find uset.table (isl_space_get_hash E (PART.get_domain_space pw))
      (fun set => UNION.set_has_dim set (PART.get_domain_space pw)) false with
  | some (.slot _ entry2) => some (fn pw entry2.data)
  | _ => none

/-- The invariant of a union of sets: every set is stored under the hash of its
space, and no two sets live in the same space. -/
def USet.Inv (E : Env V S) (uset : USet S) : Prop :=
  (∀ e ∈ uset.table, e.hash = isl_space_get_hash E e.data.dim) ∧
  uset.table.Pairwise (fun a b => a.data.dim ≠ b.data.dim)

/-- A table with two entries over the same domain tuple, with the ranges `5` and
`6` (it violates the invariant, so that the second reinsertion fails). -/
def twinN : UNION Int :=
  { ref := 1, type := none, space := spaceN,
    table := [{ hash := 2, data := { dim := spaceD 5, val := 1 } },
              { hash := 2, data := { dim := spaceD 6, val := 2 } }] }

/-- A union over `spaceN` with three entries, holding `13`, `-1` and `25` over the
domain tuples `1`, `2` and `3`. -/
def tripleN (ref : Nat) : UNION Int :=
  { ref := ref, type := none, space := spaceN,
    table := [{ hash := 2, data := { dim := spaceD 5, val := 13 } },
              { hash := 3, data := { dim := { params := [7], tin := some 2, tout := some 5 },
                                     val := -1 } },
              { hash := 4, data := { dim := { params := [7], tin := some 3, tout := some 5 },
                                     val := 25 } }] }

/-- The entry holding `v` over the domain tuple `d` (range tuple `5`, parameter
`7`), stored under its domain hash. -/
def entryN (d : Nat) (v : Int) : Entry (PART Int) :=
  { hash := 1 + d, data := { dim := { params := [7], tin := some d, tout := some 5 }, val := v } }

/-- The union `pairN` expressed over the parameter `8` instead of `7`. -/
def pairM : UNION Int :=
  { ref := 1, type := none, space := { params := [8], tin := none, tout := none },
    table := [{ hash := 2, data := { dim := { params := [8], tin := some 1, tout := some 5 },
                                     val := 1 } },
              { hash := 3, data := { dim := { params := [8], tin := some 2, tout := some 5 },
                                     val := 4 } }] }

/-! ## Properties of the hash table model -/

theorem isl_hash_table_lookup_eq_none {α : Type} (t : List (Entry α)) (h : Nat) (eq : α → Bool) :
    isl_hash_table_lookup t h eq = none ↔ ∀ e ∈ t, ¬ (e.hash = h ∧ eq e.data = true) := by
  induction t with
  | nil => simp [isl_hash_table_lookup]
  | cons a t ih =>
    by_cases ha : a.hash = h ∧ eq a.data = true
    · simp [isl_hash_table_lookup, ha]
    · simp only [isl_hash_table_lookup, ha, if_false, Option.map_eq_none', ih, List.mem_cons,
        forall_eq_or_imp, not_false_eq_true, true_and]

theorem isl_hash_table_lookup_some {α : Type} (t : List (Entry α)) (h : Nat) (eq : α → Bool)
    (i : Nat) (e : Entry α) (hl : isl_hash_table_lookup t h eq = some (i, e)) :
    t[i]? = some e ∧ e.hash = h ∧ eq e.data = true := by
  induction t generalizing i with
  | nil => simp [isl_hash_table_lookup] at hl
  | cons a t ih =>
    by_cases ha : a.hash = h ∧ eq a.data = true
    · simp only [isl_hash_table_lookup, ha, and_self, if_true, Option.some.injEq,
        Prod.mk.injEq] at hl
      obtain ⟨rfl, rfl⟩ := hl
      simp [ha]
    · simp only [isl_hash_table_lookup, ha, if_false, Option.map_eq_some', Prod.mk.injEq,
        Prod.exists] at hl
      obtain ⟨j, e', hj, rfl, rfl⟩ := hl
      simpa using ih j hj

theorem isl_hash_table_lookup_append_none {α : Type} (t : List (Entry α)) (x : Entry α)
    (h : Nat) (eq : α → Bool) (hn : isl_hash_table_lookup t h eq = none) :
    isl_hash_table_lookup (t ++ [x]) h eq =
      if x.hash = h ∧ eq x.data = true then some (t.length, x) else none := by
  induction t with
  | nil => simp [isl_hash_table_lookup]
  | cons a t ih =>
    by_cases ha : a.hash = h ∧ eq a.data = true
    · simp [isl_hash_table_lookup, ha] at hn
    · simp only [isl_hash_table_lookup, ha, if_false, Option.map_eq_none'] at hn
      have ih1 := ih hn
      rw [List.cons_append, isl_hash_table_lookup, if_neg ha, ih1, List.length_cons]
      split <;> simp

theorem isl_hash_table_lookup_append_some {α : Type} (t : List (Entry α)) (x : Entry α)
    (h : Nat) (eq : α → Bool) (r : Nat × Entry α) (hs : isl_hash_table_lookup t h eq = some r) :
    isl_hash_table_lookup (t ++ [x]) h eq = some r := by
  induction t generalizing r with
  | nil => simp [isl_hash_table_lookup] at hs
  | cons a t ih =>
    by_cases ha : a.hash = h ∧ eq a.data = true
    · simpa [isl_hash_table_lookup, ha] using hs
    · simp only [isl_hash_table_lookup, ha, if_false, Option.map_eq_some'] at hs
      obtain ⟨r', hr', rfl⟩ := hs
      simp [isl_hash_table_lookup, ha, ih r' hr']

theorem isl_hash_table_foreach_ok {α σ : Type} (fn : α → σ → isl_stat × α × σ) (g : α → σ → σ)
    (hfn : ∀ a s, fn a s = (.ok (), a, g a s)) (t : List (Entry α)) (s : σ) :
    isl_hash_table_foreach fn t s = (.ok (), t, t.foldl (fun s e => g e.data s) s) := by
  induction t generalizing s with
  | nil => rfl
  | cons a t ih => simp [isl_hash_table_foreach, hfn, ih]

theorem UNION.foreach_PARTS_ok {σ : Type} (u : UNION V)
    (fn : Except Err (PART V) → σ → isl_stat × σ) (g : PART V → σ → σ)
    (hfn : ∀ p s, fn (.ok p) s = (.ok (), g p s)) (s : σ) :
    UNION.foreach_PARTS (.ok u) fn s = (.ok (), u.table.foldl (fun s e => g e.data s) s) := by
  have h := isl_hash_table_foreach_ok (UNION.call_on_copy fn) g
    (by intro a s; simp [UNION.call_on_copy, PART.copy, hfn]) u.table s
  simp [UNION.foreach_PARTS, h]

/-! ## Properties of the invariant -/

theorem has_same_domain_space_iff (entry : PART V) (space : Space) :
    UNION.has_same_domain_space entry space = true ↔ entry.dim.tin = space.tin := by
  unfold UNION.has_same_domain_space isl_space_is_set isl_space_tuple_is_equal Space.tuple
  cases h1 : space.tin <;> cases h2 : entry.dim.tin <;> simp

theorem TableInv_iff_keys (E : Env V S) (ps : List Nat) (t : List (Entry (PART V))) :
    TableInv E ps t ↔
      (∀ k ∈ t.map Entry.key, k.2.params = ps ∧ k.1 = E.hash ps k.2.tin) ∧
      (t.map Entry.key).Pairwise (fun a b => a.2.tin ≠ b.2.tin) := by
  simp [TableInv, List.pairwise_map, Entry.key]

theorem TableInv_of_keys_eq (E : Env V S) (ps : List Nat) (t t1 : List (Entry (PART V)))
    (hk : t1.map Entry.key = t.map Entry.key) (h : TableInv E ps t) : TableInv E ps t1 := by
  rw [TableInv_iff_keys] at h ⊢
  rw [hk]
  exact h

theorem map_key_set (t : List (Entry (PART V))) (i : Nat) (e e1 : Entry (PART V))
    (hi : t[i]? = some e) (hk : e1.key = e.key) :
    (t.set i e1).map Entry.key = t.map Entry.key := by
  induction t generalizing i with
  | nil => simp
  | cons a t ih =>
    cases i with
    | zero =>
      simp only [List.getElem?_cons_zero, Option.some.injEq] at hi
      subst hi
      simp [hk]
    | succ j =>
      simp only [List.getElem?_cons_succ] at hi
      simp [ih j hi]

theorem TableInv_sublist (E : Env V S) (ps : List Nat) (t t1 : List (Entry (PART V)))
    (hs : t1.Sublist t) (h : TableInv E ps t) : TableInv E ps t1 :=
  ⟨fun e he => h.1 e (hs.subset he), h.2.sublist hs⟩

theorem TableInv_append (E : Env V S) (ps : List Nat) (t : List (Entry (PART V)))
    (part : PART V) (h : TableInv E ps t) (hp : part.dim.params = ps)
    (hn : isl_hash_table_lookup t (E.hash ps part.dim.tin)
      (fun p => UNION.has_same_domain_space p part.dim) = none) :
    TableInv E ps (t ++ [{ hash := E.hash ps part.dim.tin, data := part }]) := by
  rw [isl_hash_table_lookup_eq_none] at hn
  refine ⟨?_, ?_⟩
  · intro e he
    rcases List.mem_append.1 he with he | he
    · exact h.1 e he
    · simp only [List.mem_singleton] at he
      subst he
      exact ⟨hp, rfl⟩
  · rw [List.pairwise_append]
    refine ⟨h.2, List.pairwise_singleton _ _, ?_⟩
    intro a ha b hb
    simp only [List.mem_singleton] at hb
    subst hb
    intro hab
    apply hn a ha
    refine ⟨?_, (has_same_domain_space_iff _ _).2 hab⟩
    rw [(h.1 a ha).2, hab]

theorem TableInv_unique (E : Env V S) (ps : List Nat) (t : List (Entry (PART V)))
    (h : TableInv E ps t) (a b : Entry (PART V)) (ha : a ∈ t) (hb : b ∈ t)
    (hab : a.data.dim.tin = b.data.dim.tin) : a = b := by
  have hp := h.2
  clear h
  induction t with
  | nil => simp at ha
  | cons x t ih =>
    rw [List.pairwise_cons] at hp
    rcases List.mem_cons.1 ha with rfl | ha1
    · rcases List.mem_cons.1 hb with rfl | hb1
      · rfl
      · exact absurd hab (hp.1 b hb1)
    · rcases List.mem_cons.1 hb with rfl | hb1
      · exact absurd hab.symm (hp.1 a ha1)
      · exact ih ha1 hb1 hp.2

theorem TableInv_lookup (E : Env V S) (ps : List Nat) (t : List (Entry (PART V)))
    (h : TableInv E ps t) (e : Entry (PART V)) (he : e ∈ t) (space : Space)
    (hps : space.params = ps) (htin : e.data.dim.tin = space.tin) :
    ∃ i, isl_hash_table_lookup t (isl_space_get_domain_hash E space)
      (fun p => UNION.has_same_domain_space p space) = some (i, e) := by
  cases hl : isl_hash_table_lookup t (isl_space_get_domain_hash E space)
      (fun p => UNION.has_same_domain_space p space) with
  | none =>
    rw [isl_hash_table_lookup_eq_none] at hl
    exfalso
    apply hl e he
    refine ⟨?_, (has_same_domain_space_iff _ _).2 htin⟩
    rw [(h.1 e he).2, isl_space_get_domain_hash, hps, htin]
  | some r =>
    obtain ⟨i, e1⟩ := r
    have h1 := isl_hash_table_lookup_some t _ _ i e1 hl
    have hmem : e1 ∈ t := List.getElem?_mem h1.1
    have : e1 = e := TableInv_unique E ps t h e1 e hmem he
      (((has_same_domain_space_iff _ _).1 h1.2.2).trans htin.symm)
    subst this
    exact ⟨i, rfl⟩

/-! ## Lookup and insertion -/

theorem UNION.find_part_entry_ok (E : Env V S) (u : UNION V) (space : Space) (reserve : Bool) :
    UNION.find_part_entry E (.ok u) space reserve =
      match isl_hash_table_lookup u.table (isl_space_get_domain_hash E space)
          (fun p => UNION.has_same_domain_space p space) with
      | none =>
        if reserve then .ok (some (.fresh (isl_space_get_domain_hash E space))) else .ok none
      | some (i, e) =>
        if e.data.dim.tout = space.tout then .ok (some (.slot i e))
        else if reserve then .error .invalid else .ok none := by
  unfold UNION.find_part_entry isl_hash_table_find isl_space_tuple_is_equal Space.tuple
  cases hl : isl_hash_table_lookup u.table (isl_space_get_domain_hash E space)
      (fun p => UNION.has_same_domain_space p space) with
  | none => cases reserve <;> simp [hl]
  | some r =>
    obtain ⟨i, e⟩ := r
    cases reserve <;> simp [hl]

theorem UNION.add_part_generic_with_aligned (E : Env V S) (add : UNION.Inserter V)
    (u : UNION V) (part : PART V) (d : Bool) (hz : PART.IS_ZERO E part = .ok false)
    (hp : part.dim.params = u.space.params) (hr : u.ref = 1) :
    UNION.add_part_generic_with E add (.ok u) (.ok part) d = UNION.add_part_core E u part d := by
  have hm : isl_space_match u.space part.dim = true := by simp [isl_space_match, hp]
  have hm2 : isl_space_match part.dim u.space = true := by simp [isl_space_match, hp]
  simp [UNION.add_part_generic_with, hz, UNION.align_params_with, PART.get_space, Except.map,
    hm, hm2, PART.align_params, UNION.get_space, UNION.cow_with, hr, UNION.add_part_core]

theorem UNION.add_part_core_inv (E : Env V S) (u u1 : UNION V) (part : PART V) (d : Bool)
    (hinv : UNION.Inv E u) (hp : part.dim.params = u.space.params)
    (h : UNION.add_part_core E u part d = .ok u1) :
    UNION.Inv E u1 ∧ u1.ref = u.ref ∧ u1.space = u.space ∧ u1.type = u.type := by
  unfold UNION.add_part_core at h
  rw [UNION.find_part_entry_ok] at h
  cases hl : isl_hash_table_lookup u.table (isl_space_get_domain_hash E part.dim)
      (fun p => UNION.has_same_domain_space p part.dim) with
  | none =>
    simp only [hl, if_true, Except.ok.injEq] at h
    subst h
    refine ⟨?_, rfl, rfl, rfl⟩
    have hh : isl_space_get_domain_hash E part.dim = E.hash u.space.params part.dim.tin := by
      rw [isl_space_get_domain_hash, hp]
    rw [hh] at hl ⊢
    exact TableInv_append E _ _ part hinv hp hl
  | some r =>
    obtain ⟨i, e⟩ := r
    have hi := isl_hash_table_lookup_some _ _ _ _ _ hl
    simp only [hl] at h
    by_cases ho : e.data.dim.tout = part.dim.tout
    · simp only [ho, if_true] at h
      cases d with
      | true => simp at h
      | false =>
        simp only [Bool.false_eq_true, if_false, PART.union_add_, PART.copy] at h
        cases hs : E.union_add e.data part with
        | error err => simp [hs, Except.map] at h
        | ok v =>
          simp only [hs, Except.map] at h
          have hk : TableInv E u.space.params
              (u.table.set i { e with data := { dim := e.data.dim, val := v } }) :=
            TableInv_of_keys_eq E _ u.table _ (map_key_set _ _ e _ hi.1 rfl) hinv
          cases hz : PART.IS_ZERO E part with
          | error err => simp [hz] at h
          | ok b =>
            cases b with
            | false =>
              simp only [hz, Except.ok.injEq] at h
              subst h
              exact ⟨hk, rfl, rfl, rfl⟩
            | true =>
              simp only [hz, UNION.remove_part_entry, Except.ok.injEq] at h
              subst h
              exact ⟨TableInv_sublist E _ _ _ (List.eraseIdx_sublist _ _) hk, rfl, rfl, rfl⟩
    · simp [ho] at h

theorem UNION.add_part_generic_with_error (E : Env V S) (add : UNION.Inserter V) (e : Err)
    (part : Except Err (PART V)) (d : Bool) (r : UNION V) :
    UNION.add_part_generic_with E add (.error e) part d ≠ .ok r := by
  cases part with
  | error e1 => simp [UNION.add_part_generic_with]
  | ok p =>
    cases hz : PART.IS_ZERO E p with
    | error e1 => simp [UNION.add_part_generic_with, hz]
    | ok b =>
      cases b <;> simp [UNION.add_part_generic_with, hz, UNION.align_params_with, UNION.cow_with]

theorem UNION.add_part_generic_with_error_part (E : Env V S) (add : UNION.Inserter V)
    (u : Except Err (UNION V)) (e : Err) (d : Bool) :
    UNION.add_part_generic_with E add u (.error e) d = .error e := by
  simp [UNION.add_part_generic_with]

theorem UNION.add_part_generic_with_split (E : Env V S) (add : UNION.Inserter V)
    (u : Except Err (UNION V)) (part : PART V) (d : Bool) :
    UNION.add_part_generic_with E add u (.ok part) d =
      match PART.IS_ZERO E part with
      | .error e => .error e
      | .ok true => u
      | .ok false =>
        match UNION.cow_with E add (UNION.align_params_with E add u (.ok part.dim)),
          PART.align_params E (.ok part)
            (UNION.get_space (UNION.align_params_with E add u (.ok part.dim))) with
        | .error e, _ => .error e
        | _, .error e => .error e
        | .ok u2, .ok p1 => UNION.add_part_core E u2 p1 d := by
  rfl

theorem UNION.add_part_generic_with_aligned_gen (E : Env V S) (add : UNION.Inserter V)
    (u : UNION V) (part : PART V) (d : Bool)
    (hp : part.dim.params = u.space.params) (hr : u.ref = 1) :
    UNION.add_part_generic_with E add (.ok u) (.ok part) d =
      match PART.IS_ZERO E part with
      | .error e => .error e
      | .ok true => .ok u
      | .ok false => UNION.add_part_core E u part d := by
  cases hz : PART.IS_ZERO E part with
  | error e => simp [UNION.add_part_generic_with, hz]
  | ok b =>
    cases b with
    | true => simp [UNION.add_part_generic_with, hz]
    | false => simpa using UNION.add_part_generic_with_aligned E add u part d hz hp hr

theorem UNION.InsOK_generic (E : Env V S) (add : UNION.Inserter V) :
    UNION.InsOK E (fun u part => UNION.add_part_generic_with E add u part true) := by
  refine ⟨fun e x r => UNION.add_part_generic_with_error E add e x true r, ?_, ?_⟩
  · intro u e r
    simp [UNION.add_part_generic_with_error_part]
  · intro u p r hinv hr hp h
    simp only [UNION.add_part_generic_with_aligned_gen E add u p true hp hr] at h
    cases hz : PART.IS_ZERO E p with
    | error e => simp [hz] at h
    | ok b =>
      cases b with
      | true =>
        simp only [hz, Except.ok.injEq] at h
        subst h
        exact ⟨hinv, hr, rfl, rfl⟩
      | false =>
        simp only [hz] at h
        have := UNION.add_part_core_inv E u r p true hinv hp h
        exact ⟨this.1, this.2.1.trans hr, this.2.2.1, this.2.2.2⟩

theorem UNION.InsOK_fuel (E : Env V S) (n : Nat) : UNION.InsOK E (UNION.add_PARTS_fuel E n) := by
  cases n with
  | zero => exact ⟨by simp [UNION.add_PARTS_fuel], by simp [UNION.add_PARTS_fuel],
      by simp [UNION.add_PARTS_fuel]⟩
  | succ n => exact UNION.InsOK_generic E (UNION.add_PARTS_fuel E n)

theorem foldl_union_inv (Q : UNION V → Prop) (t : List (Entry (PART V)))
    (g : Except Err (UNION V) → Entry (PART V) → Except Err (UNION V))
    (hstep : ∀ s e r, e ∈ t → g s e = .ok r → ∃ s0, s = .ok s0 ∧ (Q s0 → Q r))
    (init : Except Err (UNION V)) (r : UNION V) (h : t.foldl g init = .ok r) :
    ∃ i, init = .ok i ∧ (Q i → Q r) := by
  induction t generalizing init with
  | nil =>
    simp only [List.foldl_nil] at h
    exact ⟨r, h, id⟩
  | cons a t ih =>
    simp only [List.foldl_cons] at h
    obtain ⟨i1, hi1, hq1⟩ := ih (fun s e r he => hstep s e r (List.mem_cons_of_mem _ he)) _ h
    obtain ⟨i0, hi0, hq0⟩ := hstep init a i1 (List.mem_cons_self _ _) hi1
    exact ⟨i0, hi0, fun hq => hq1 (hq0 hq)⟩

theorem foldl_aligned_inv (E : Env V S) (add : UNION.Inserter V) (hadd : UNION.InsOK E add)
    (f : PART V → Except Err (PART V)) (sp : Space) (ty : Option Fold)
    (t : List (Entry (PART V)))
    (hf : ∀ e ∈ t, ∀ p, f e.data = .ok p → p.dim.params = sp.params)
    (init : Except Err (UNION V)) (r : UNION V)
    (h : t.foldl (fun s e => add s (f e.data)) init = .ok r) :
    ∃ i, init = .ok i ∧ (UNION.Inv E i ∧ i.ref = 1 ∧ i.space = sp ∧ i.type = ty →
      UNION.Inv E r ∧ r.ref = 1 ∧ r.space = sp ∧ r.type = ty) := by
  refine foldl_union_inv _ t _ ?_ init r h
  intro s e r1 he hg
  cases s with
  | error err => exact absurd hg (hadd.1 err _ r1)
  | ok s0 =>
    refine ⟨s0, rfl, ?_⟩
    intro hq
    cases hfe : f e.data with
    | error err =>
      rw [hfe] at hg
      exact absurd hg (hadd.2.1 s0 err r1)
    | ok p =>
      rw [hfe] at hg
      have hp := hf e he p hfe
      have := hadd.2.2 s0 p r1 hq.1 hq.2.1 (by rw [hp, hq.2.2.1]) hg
      exact ⟨this.1, this.2.1, this.2.2.1.trans hq.2.2.1, this.2.2.2.trans hq.2.2.2⟩

/-! ## Copies and alignment -/

theorem UNION.dup_with_eq_foldl (E : Env V S) (add : UNION.Inserter V) (u : UNION V) :
    UNION.dup_with E add (.ok u) =
      u.table.foldl (fun s e => add s (.ok e.data)) (UNION.alloc_same_size E u) := by
  have h := UNION.foreach_PARTS_ok u (UNION.add_part add) (fun p s => add s (.ok p))
    (fun _ _ => rfl) (UNION.alloc_same_size E u)
  simp only [UNION.dup_with, h]

theorem UNION.realign_domain_with_eq_foldl (E : Env V S) (add : UNION.Inserter V) (u : UNION V)
    (r : isl_reordering) :
    UNION.realign_domain_with E add (.ok u) r =
      u.table.foldl (fun s e => add s (PART.realign_domain E e.data
          (isl_reordering_extend_space r (PART.get_domain_space e.data))))
        (UNION.alloc_same_size_on_space E u r.dim) := by
  have h := UNION.foreach_PARTS_ok u (UNION.align_entry E add r)
    (fun p s => add s (PART.realign_domain E p
      (isl_reordering_extend_space r (PART.get_domain_space p)))) (fun _ _ => rfl)
    (UNION.alloc_same_size_on_space E u r.dim)
  simp only [UNION.realign_domain_with, h]

theorem TableInv_nil (E : Env V S) (ps : List Nat) : TableInv E ps ([] : List (Entry (PART V))) :=
  ⟨by simp, List.Pairwise.nil⟩

theorem UNION.dup_with_inv (E : Env V S) (add : UNION.Inserter V) (hadd : UNION.InsOK E add)
    (u r : UNION V) (hinv : UNION.Inv E u) (h : UNION.dup_with E add (.ok u) = .ok r) :
    UNION.Inv E r ∧ r.ref = 1 ∧ r.space = isl_space_params u.space ∧
      r.type = (if E.HAS_TYPE then u.type else none) := by
  rw [UNION.dup_with_eq_foldl] at h
  obtain ⟨i, hi, hq⟩ := foldl_aligned_inv E add hadd (fun p => .ok p) (isl_space_params u.space)
    (if E.HAS_TYPE then u.type else none) u.table
    (by
      intro e he p hp
      simp only [Except.ok.injEq] at hp
      subst hp
      exact (hinv.1 e he).1) _ r h
  simp only [UNION.alloc_same_size, UNION.alloc_same_size_on_space, UNION.alloc,
    Except.ok.injEq] at hi
  subst hi
  exact hq ⟨TableInv_nil E _, rfl, rfl, rfl⟩

theorem UNION.cow_with_inv (E : Env V S) (add : UNION.Inserter V) (hadd : UNION.InsOK E add)
    (u r : UNION V) (hinv : UNION.Inv E u) (h : UNION.cow_with E add (.ok u) = .ok r) :
    UNION.Inv E r ∧ r.ref = 1 ∧ r.space.params = u.space.params := by
  unfold UNION.cow_with at h
  by_cases hr : u.ref = 1
  · simp only [hr, if_true, Except.ok.injEq] at h
    subst h
    exact ⟨hinv, hr, rfl⟩
  · simp only [hr, if_false] at h
    have := UNION.dup_with_inv E add hadd { u with ref := u.ref - 1 } r hinv h
    exact ⟨this.1, this.2.1, by rw [this.2.2.1]; rfl⟩

theorem UNION.realign_domain_with_inv (E : Env V S) (add : UNION.Inserter V)
    (hadd : UNION.InsOK E add) (u r : UNION V) (rr : isl_reordering)
    (h : UNION.realign_domain_with E add (.ok u) rr = .ok r) :
    UNION.Inv E r ∧ r.ref = 1 ∧ r.space = isl_space_params rr.dim := by
  rw [UNION.realign_domain_with_eq_foldl] at h
  obtain ⟨i, hi, hq⟩ := foldl_aligned_inv E add hadd
    (fun p => PART.realign_domain E p (isl_reordering_extend_space rr (PART.get_domain_space p)))
    (isl_space_params rr.dim) (if E.HAS_TYPE then u.type else none) u.table
    (by
      intro e he p hp
      simp only [PART.realign_domain, isl_reordering_extend_space] at hp
      cases hv : E.realign e.data rr.dim.params with
      | error err => simp [hv, Except.map] at hp
      | ok v =>
        simp only [hv, Except.map, Except.ok.injEq] at hp
        subst hp
        rfl) _ r h
  simp only [UNION.alloc_same_size_on_space, UNION.alloc, Except.ok.injEq] at hi
  subst hi
  have := hq ⟨TableInv_nil E _, rfl, rfl, rfl⟩
  exact ⟨this.1, this.2.1, this.2.2.1⟩

theorem UNION.align_params_with_inv (E : Env V S) (add : UNION.Inserter V)
    (hadd : UNION.InsOK E add) (u r : UNION V) (model : Space) (hinv : UNION.Inv E u)
    (h : UNION.align_params_with E add (.ok u) (.ok model) = .ok r) :
    UNION.Inv E r ∧ ((r = u ∧ u.space.params = model.params) ∨
      (r.ref = 1 ∧ r.space.params =
        model.params ++ u.space.params.filter (fun p => !model.params.contains p))) := by
  unfold UNION.align_params_with at h
  by_cases hm : isl_space_match u.space model = true
  · simp only [hm, if_true, Except.ok.injEq] at h
    subst h
    exact ⟨hinv, Or.inl ⟨rfl, by simpa [isl_space_match] using hm⟩⟩
  · simp only [hm, Bool.false_eq_true, if_false] at h
    have := UNION.realign_domain_with_inv E add hadd u r _ h
    exact ⟨this.1, Or.inr ⟨this.2.1, by rw [this.2.2]; rfl⟩⟩

theorem PART.align_params_ok (E : Env V S) (p p1 : PART V) (sp : Space)
    (h : PART.align_params E (.ok p) (.ok sp) = .ok p1) :
    p1.dim.tin = p.dim.tin ∧ p1.dim.tout = p.dim.tout ∧
      ((p1 = p ∧ p.dim.params = sp.params) ∨
        p1.dim.params = sp.params ++ p.dim.params.filter (fun q => !sp.params.contains q)) := by
  unfold PART.align_params at h
  by_cases hm : isl_space_match p.dim sp = true
  · simp only [hm, if_true, Except.ok.injEq] at h
    subst h
    exact ⟨rfl, rfl, Or.inl ⟨rfl, by simpa [isl_space_match] using hm⟩⟩
  · simp only [hm, Bool.false_eq_true, if_false, PART.realign_domain] at h
    cases hv : E.realign p (isl_reordering_extend_space
        (isl_parameter_alignment_reordering p.dim (isl_space_params sp))
        (PART.get_domain_space p)).dim.params with
    | error err => simp [hv, Except.map] at h
    | ok v =>
      simp only [hv, Except.map, Except.ok.injEq] at h
      subst h
      exact ⟨rfl, rfl, Or.inr rfl⟩

theorem filter_not_contains_append (l x : List Nat) :
    l.filter (fun q => !(l ++ x).contains q) = [] := by
  rw [List.filter_eq_nil_iff]
  intro a ha
  simp [ha]

theorem UNION.add_part_generic_with_inv (E : Env V S) (add : UNION.Inserter V)
    (hadd : UNION.InsOK E add) (u r : UNION V) (p : PART V) (d : Bool)
    (hinv : UNION.Inv E u)
    (h : UNION.add_part_generic_with E add (.ok u) (.ok p) d = .ok r) : UNION.Inv E r := by
  rw [UNION.add_part_generic_with_split] at h
  cases hz : PART.IS_ZERO E p with
  | error e => simp [hz] at h
  | ok b =>
    cases b with
    | true =>
      simp only [hz, Except.ok.injEq] at h
      subst h
      exact hinv
    | false =>
      simp only [hz] at h
      cases ha : UNION.align_params_with E add (.ok u) (.ok p.dim) with
      | error e => simp [ha, UNION.cow_with] at h
      | ok u1 =>
        have hu1 := UNION.align_params_with_inv E add hadd u u1 p.dim hinv ha
        simp only [ha, UNION.get_space, Except.map] at h
        cases hc : UNION.cow_with E add (.ok u1) with
        | error e => simp [hc] at h
        | ok u2 =>
          have hu2 := UNION.cow_with_inv E add hadd u1 u2 hu1.1 hc
          cases hpa : PART.align_params E (.ok p) (.ok u1.space) with
          | error e => simp [hc, hpa] at h
          | ok p1 =>
            simp only [hc, hpa] at h
            have hp1 := PART.align_params_ok E p p1 u1.space hpa
            have hpar : p1.dim.params = u2.space.params := by
              rw [hu2.2.2]
              rcases hp1.2.2 with ⟨rfl, hpp⟩ | hpp
              · exact hpp
              · have hsub : p.dim.params.filter (fun q => !u1.space.params.contains q) = [] := by
                  rcases hu1.2 with ⟨hu, hup⟩ | ⟨_, hup⟩
                  · rw [hu, hup]
                    simp
                  · rw [hup]
                    exact filter_not_contains_append _ _
                rw [hpp, hsub, List.append_nil]
            exact (UNION.add_part_core_inv E u2 r p1 d hu2.1 hpar h).1

/-! ## The invariant is kept by the operations -/

theorem UNION.add_part_generic_inv (E : Env V S) (u r : UNION V) (p : PART V) (d : Bool)
    (hinv : UNION.Inv E u) (h : UNION.add_part_generic E (.ok u) (.ok p) d = .ok r) :
    UNION.Inv E r :=
  UNION.add_part_generic_with_inv E _ (UNION.InsOK_fuel E 4) u r p d hinv h

theorem UNION.add_part_generic_step_inv (E : Env V S) (s : Except Err (UNION V))
    (x : Except Err (PART V)) (d : Bool) (r : UNION V)
    (h : UNION.add_part_generic E s x d = .ok r) :
    ∃ s0, s = .ok s0 ∧ (UNION.Inv E s0 → UNION.Inv E r) := by
  cases s with
  | error e => exact absurd h (UNION.add_part_generic_with_error E _ e x d r)
  | ok s0 =>
    cases x with
    | error e =>
      rw [UNION.add_part_generic, UNION.add_part_generic_with_error_part] at h
      simp at h
    | ok p => exact ⟨s0, rfl, fun hinv => UNION.add_part_generic_inv E s0 r p d hinv h⟩

theorem UNION.add_PARTS_step_inv (E : Env V S) (s : Except Err (UNION V))
    (x : Except Err (PART V)) (r : UNION V) (h : UNION.add_PARTS E s x = .ok r) :
    ∃ s0, s = .ok s0 ∧ (UNION.Inv E s0 → UNION.Inv E r) := by
  cases s with
  | error e => exact absurd h (UNION.add_part_generic_with_error E (UNION.add_PARTS_fuel E 3) e x true r)
  | ok s0 =>
    cases x with
    | error e =>
      have : UNION.add_PARTS E (.ok s0) (.error e) = .error e :=
        UNION.add_part_generic_with_error_part E (UNION.add_PARTS_fuel E 3) (.ok s0) e true
      rw [this] at h
      simp at h
    | ok p =>
      exact ⟨s0, rfl, fun hinv =>
        UNION.add_part_generic_with_inv E _ (UNION.InsOK_fuel E 3) s0 r p true hinv h⟩

theorem UNION.align_params_inv (E : Env V S) (u r : UNION V) (model : Space)
    (hinv : UNION.Inv E u) (h : UNION.align_params E (.ok u) (.ok model) = .ok r) :
    UNION.Inv E r :=
  (UNION.align_params_with_inv E _ (UNION.InsOK_fuel E 4) u r model hinv h).1

theorem UNION.union_add__inv (E : Env V S) (u1 u2 r : UNION V) (h1 : UNION.Inv E u1)
    (h2 : UNION.Inv E u2) (h : UNION.union_add_ E (.ok u1) (.ok u2) = .ok r) :
    UNION.Inv E r := by
  unfold UNION.union_add_ at h
  simp only [UNION.get_space, Except.map] at h
  cases ha : UNION.align_params E (.ok u1) (.ok u2.space) with
  | error e =>
    simp only [ha] at h
    simp [UNION.cow, UNION.cow_with] at h
  | ok a1 =>
    have hi1 := UNION.align_params_inv E u1 a1 _ h1 ha
    simp only [ha] at h
    cases hb : UNION.align_params E (.ok u2) (.ok a1.space) with
    | error e =>
      simp only [hb] at h
      cases hc : UNION.cow E (.ok a1) <;> simp [hc] at h
    | ok a2 =>
      have hi2 := UNION.align_params_inv E u2 a2 _ h2 hb
      simp only [hb] at h
      cases hc : UNION.cow E (.ok a1) with
      | error e => simp [hc] at h
      | ok c1 =>
        have hic := (UNION.cow_with_inv E _ (UNION.InsOK_fuel E 4) a1 c1 hi1 hc).1
        simp only [hc] at h
        rw [UNION.foreach_PARTS_ok a2 (UNION.union_add_part E)
          (fun p s => UNION.add_part_generic E s (.ok p) false) (fun _ _ => rfl)] at h
        simp only at h
        obtain ⟨i, hi, hq⟩ := foldl_union_inv (UNION.Inv E) a2.table _
          (fun s e r1 _ hg => UNION.add_part_generic_step_inv E s (.ok e.data) false r1 hg) _ r h
        simp only [Except.ok.injEq] at hi
        subst hi
        exact hq hic

theorem isl_hash_table_foreach_inv {α σ : Type} (Q : σ → Prop)
    (fn : α → σ → isl_stat × α × σ) (hfn : ∀ a s, Q s → Q (fn a s).2.2)
    (t : List (Entry α)) (s : σ) (hs : Q s) : Q (isl_hash_table_foreach fn t s).2.2 := by
  induction t generalizing s with
  | nil => exact hs
  | cons a t ih =>
    have h1 := hfn a.data s hs
    unfold isl_hash_table_foreach
    rcases hf : fn a.data s with ⟨st, d, s1⟩
    rw [hf] at h1
    cases st with
    | error e => exact h1
    | ok v =>
      have h2 := ih s1 h1
      simp only
      rcases hg : isl_hash_table_foreach fn t s1 with ⟨st2, es1, s2⟩
      rw [hg] at h2
      exact h2

theorem UNION.match_bin_entry_inv (E : Env V S) (fn : UNION.BinOp V) (part : PART V)
    (data : UNION.match_bin_data V) (hq : ∀ r, data.res = .ok r → UNION.Inv E r) :
    ∀ r, (UNION.match_bin_entry E fn part data).2.2.res = .ok r → UNION.Inv E r := by
  intro r hr
  unfold UNION.match_bin_entry at hr
  cases hf : UNION.find_part_entry E (.ok data.u2) part.dim false with
  | error e =>
    simp only [hf] at hr
    exact hq r hr
  | ok o =>
    cases o with
    | none =>
      simp only [hf] at hr
      exact hq r hr
    | some ref =>
      cases ref with
      | fresh h0 =>
        simp only [hf] at hr
        exact hq r hr
      | slot i e2 =>
        simp only [hf] at hr
        by_cases ho : isl_space_tuple_is_equal part.dim .out e2.data.dim .out = true
        · simp only [ho, Bool.not_true, Bool.false_eq_true, if_false] at hr
          cases hadd : UNION.add_PARTS E data.res (fn (PART.copy part) (PART.copy e2.data)) with
          | error e => simp [hadd] at hr
          | ok r1 =>
            simp only [hadd, Except.ok.injEq] at hr
            subst hr
            obtain ⟨s0, hs0, hinv⟩ := UNION.add_PARTS_step_inv E _ _ _ hadd
            exact hinv (hq s0 hs0)
        · simp only [ho, Bool.not_false, if_true] at hr
          exact hq r hr

theorem UNION.match_bin_op_inv (E : Env V S) (u1 u2 r : UNION V) (fn : UNION.BinOp V)
    (h : UNION.match_bin_op E (.ok u1) (.ok u2) fn = .ok r) : UNION.Inv E r := by
  unfold UNION.match_bin_op at h
  simp only [UNION.get_space, Except.map] at h
  cases ha : UNION.align_params E (.ok u1) (.ok u2.space) with
  | error e =>
    simp only [ha] at h
    simp at h
  | ok a1 =>
    simp only [ha] at h
    cases hb : UNION.align_params E (.ok u2) (.ok a1.space) with
    | error e => simp [hb] at h
    | ok a2 =>
      simp only [hb] at h
      have hq := isl_hash_table_foreach_inv
        (fun data : UNION.match_bin_data V => ∀ r, data.res = .ok r → UNION.Inv E r)
        (UNION.match_bin_entry E fn) (fun a s hs => UNION.match_bin_entry_inv E fn a s hs)
        a1.table { u2 := a2, res := UNION.alloc_same_size E a1 }
        (by
          intro r hr
          simp only [UNION.alloc_same_size, UNION.alloc_same_size_on_space, UNION.alloc,
            Except.ok.injEq] at hr
          subst hr
          exact TableInv_nil E _)
      rcases hf : isl_hash_table_foreach (UNION.match_bin_entry E fn) a1.table
        { u2 := a2, res := UNION.alloc_same_size E a1 } with ⟨st, es, data⟩
      rw [hf] at hq h
      cases st with
      | error e => simp at h
      | ok v => exact hq r h

theorem UNION.Reachable.inv (E : Env V S) (u : UNION V) (h : UNION.Reachable E u) :
    UNION.Inv E u := by
  induction h with
  | zero dim type u h =>
    simp only [UNION.ZERO, UNION.alloc, Except.ok.injEq] at h
    subst h
    exact TableInv_nil E _
  | add_part u part d r _ h ih => exact UNION.add_part_generic_inv E u r part d ih h
  | remove u i r _ h ih =>
    simp only [UNION.remove_part_entry, Except.ok.injEq] at h
    subst h
    exact TableInv_sublist E _ _ _ (List.eraseIdx_sublist _ _) ih
  | union_add u1 u2 r _ _ h ih1 ih2 => exact UNION.union_add__inv E u1 u2 r ih1 ih2 h
  | match_bin u1 u2 fn r _ _ h _ _ => exact UNION.match_bin_op_inv E u1 u2 r fn h
  | dup u r _ h ih => exact (UNION.dup_with_inv E _ (UNION.InsOK_fuel E 4) u r ih h).1
  | copy u r _ h ih =>
    simp only [UNION.copy, Except.map, Except.ok.injEq] at h
    subst h
    exact ih
  | cow u r _ h ih => exact (UNION.cow_with_inv E _ (UNION.InsOK_fuel E 4) u r ih h).1

/-! ## Insertion into well-formed unions -/

theorem UNION.InsCore_fuel (E : Env V S) (n : Nat) :
    UNION.InsCore E (UNION.add_PARTS_fuel E (n + 1)) := by
  intro u p hr hp
  exact UNION.add_part_generic_with_aligned_gen E (UNION.add_PARTS_fuel E n) u p true hp hr

theorem UNION.add_part_core_fresh (E : Env V S) (u : UNION V) (p : PART V) (d : Bool)
    (hl : isl_hash_table_lookup u.table (isl_space_get_domain_hash E p.dim)
      (fun q => UNION.has_same_domain_space q p.dim) = none) :
    UNION.add_part_core E u p d =
      .ok { u with table := u.table ++ [{ hash := isl_space_get_domain_hash E p.dim, data := p }] } := by
  simp [UNION.add_part_core, UNION.find_part_entry_ok, hl]

theorem UNION.add_part_core_mismatch (E : Env V S) (u : UNION V) (p : PART V) (d : Bool)
    (i : Nat) (e : Entry (PART V))
    (hl : isl_hash_table_lookup u.table (isl_space_get_domain_hash E p.dim)
      (fun q => UNION.has_same_domain_space q p.dim) = some (i, e))
    (ho : e.data.dim.tout ≠ p.dim.tout) :
    UNION.add_part_core E u p d = .error .invalid := by
  simp [UNION.add_part_core, UNION.find_part_entry_ok, hl, ho]

theorem lookup_none_of_tin_ne (t : List (Entry (PART V))) (h : Nat) (space : Space)
    (hno : ∀ e ∈ t, e.data.dim.tin ≠ space.tin) :
    isl_hash_table_lookup t h (fun q => UNION.has_same_domain_space q space) = none := by
  rw [isl_hash_table_lookup_eq_none]
  intro e he hc
  exact hno e he ((has_same_domain_space_iff _ _).1 hc.2)

theorem UNION.dup_with_wf_aux (E : Env V S) (add : UNION.Inserter V) (hadd : UNION.InsCore E add)
    (ty : Option Fold) (sp : Space) (rest pre : List (Entry (PART V)))
    (hinv : TableInv E sp.params (pre ++ rest))
    (hnz : ∀ e ∈ rest, PART.IS_ZERO E e.data = .ok false) :
    rest.foldl (fun s e => add s (.ok e.data))
        (.ok { ref := 1, type := ty, space := sp, table := pre }) =
      .ok { ref := 1, type := ty, space := sp, table := pre ++ rest } := by
  induction rest generalizing pre with
  | nil => simp
  | cons a rest ih =>
    have ha : a ∈ pre ++ a :: rest := by simp
    have hpa := hinv.1 a ha
    have hstep : add (.ok { ref := 1, type := ty, space := sp, table := pre }) (.ok a.data) =
        .ok { ref := 1, type := ty, space := sp, table := pre ++ [a] } := by
      rw [hadd _ _ rfl hpa.1, hnz a (List.mem_cons_self _ _)]
      simp only
      have hno : ∀ e ∈ pre, e.data.dim.tin ≠ a.data.dim.tin := by
        intro e he
        have hp := hinv.2
        rw [List.pairwise_append] at hp
        exact hp.2.2 e he a (List.mem_cons_self _ _)
      rw [UNION.add_part_core_fresh E _ a.data true (lookup_none_of_tin_ne _ _ _ hno)]
      have hh : isl_space_get_domain_hash E a.data.dim = a.hash := by
        rw [isl_space_get_domain_hash, hpa.1, hpa.2]
      rw [hh]
    simp only [List.foldl_cons, hstep]
    have := ih (pre ++ [a]) (by simpa using hinv)
      (fun e he => hnz e (List.mem_cons_of_mem _ he))
    simpa using this

theorem UNION.dup_with_wf (E : Env V S) (add : UNION.Inserter V) (hadd : UNION.InsCore E add)
    (u : UNION V) (hwf : UNION.WF E u) :
    UNION.dup_with E add (.ok u) = .ok { u with ref := 1 } := by
  rw [UNION.dup_with_eq_foldl]
  have htype : (if E.HAS_TYPE then u.type else none) = u.type := by
    cases hh : E.HAS_TYPE with
    | true => simp
    | false => simp [hwf.2.2.2 hh]
  have hsp : isl_space_params u.space = u.space := hwf.2.2.1.symm
  have := UNION.dup_with_wf_aux E add hadd u.type u.space u.table [] (by simpa using hwf.1)
    hwf.2.1
  simp only [UNION.alloc_same_size, UNION.alloc_same_size_on_space, UNION.alloc, htype, hsp]
  simpa using this

theorem UNION.cow_with_wf (E : Env V S) (add : UNION.Inserter V) (hadd : UNION.InsCore E add)
    (u : UNION V) (hu : u.ref = 1 ∨ UNION.WF E u) :
    UNION.cow_with E add (.ok u) = .ok { u with ref := 1 } := by
  unfold UNION.cow_with
  by_cases hr : u.ref = 1
  · simp only [hr, if_true]
    rw [← hr]
  · rcases hu with h | h
    · exact absurd h hr
    · simp only [hr, if_false]
      exact UNION.dup_with_wf E add hadd { u with ref := u.ref - 1 } h

theorem UNION.add_part_generic_with_wf (E : Env V S) (add : UNION.Inserter V)
    (hadd : UNION.InsCore E add) (u : UNION V) (p : PART V) (d : Bool)
    (hz : PART.IS_ZERO E p = .ok false) (hp : p.dim.params = u.space.params)
    (hu : u.ref = 1 ∨ UNION.WF E u) :
    UNION.add_part_generic_with E add (.ok u) (.ok p) d =
      UNION.add_part_core E { u with ref := 1 } p d := by
  have hm : isl_space_match u.space p.dim = true := by simp [isl_space_match, hp]
  have hm2 : isl_space_match p.dim u.space = true := by simp [isl_space_match, hp]
  rw [UNION.add_part_generic_with_split]
  simp only [hz, UNION.align_params_with, hm, if_true, UNION.cow_with_wf E add hadd u hu,
    UNION.get_space, Except.map, PART.align_params, hm2]

theorem UNION.add_part_generic_wf (E : Env V S) (u : UNION V) (p : PART V) (d : Bool)
    (hz : PART.IS_ZERO E p = .ok false) (hp : p.dim.params = u.space.params)
    (hu : u.ref = 1 ∨ UNION.WF E u) :
    UNION.add_part_generic E (.ok u) (.ok p) d = UNION.add_part_core E { u with ref := 1 } p d :=
  UNION.add_part_generic_with_wf E _ (UNION.InsCore_fuel E 3) u p d hz hp hu

theorem UNION.add_PARTS_wf (E : Env V S) (u : UNION V) (p : PART V)
    (hz : PART.IS_ZERO E p = .ok false) (hp : p.dim.params = u.space.params)
    (hu : u.ref = 1 ∨ UNION.WF E u) :
    UNION.add_PARTS E (.ok u) (.ok p) = UNION.add_part_core E { u with ref := 1 } p true :=
  UNION.add_part_generic_with_wf E _ (UNION.InsCore_fuel E 2) u p true hz hp hu

theorem UNION.extract_PARTS_eq (E : Env V S) (u : UNION V) (space : Space) :
    UNION.extract_PARTS E (.ok u) space =
      match isl_hash_table_lookup u.table
          (isl_space_get_domain_hash E (UNION.extract_space u space))
          (fun p => UNION.has_same_domain_space p (UNION.extract_space u space)) with
      | none =>
        .ok (PART.ZERO E (UNION.extract_space u space) (if E.HAS_TYPE then u.type else none))
      | some (_, e) =>
        if e.data.dim.tout = (UNION.extract_space u space).tout then .ok e.data
        else .ok (PART.ZERO E (UNION.extract_space u space)
          (if E.HAS_TYPE then u.type else none)) := by
  have key : ∀ sp : Space,
      (match UNION.find_part_entry E (.ok u) sp false with
        | .error e => .error e
        | .ok none => .ok (PART.ZERO E sp (if E.HAS_TYPE then u.type else none))
        | .ok (some (.slot _ e)) => PART.copy e.data
        | .ok (some (.fresh _)) => .error .internal : Except Err (PART V)) =
      (match isl_hash_table_lookup u.table (isl_space_get_domain_hash E sp)
          (fun p => UNION.has_same_domain_space p sp) with
        | none => .ok (PART.ZERO E sp (if E.HAS_TYPE then u.type else none))
        | some (_, e) =>
          if e.data.dim.tout = sp.tout then .ok e.data
          else .ok (PART.ZERO E sp (if E.HAS_TYPE then u.type else none))) := by
    intro sp
    rw [UNION.find_part_entry_ok]
    cases hl : isl_hash_table_lookup u.table (isl_space_get_domain_hash E sp)
        (fun p => UNION.has_same_domain_space p sp) with
    | none => simp
    | some r =>
      obtain ⟨i, e⟩ := r
      by_cases ho : e.data.dim.tout = sp.tout <;> simp [ho, PART.copy]
  exact key (UNION.extract_space u space)

theorem UNION.extract_space_of_params (u : UNION V) (space : Space)
    (hS : space.params = u.space.params) : UNION.extract_space u space = space := by
  simp [UNION.extract_space, isl_space_match, hS]

theorem UNION.extract_space_tuples (u : UNION V) (space : Space) :
    (UNION.extract_space u space).tin = space.tin ∧
      (UNION.extract_space u space).tout = space.tout ∧
      (UNION.extract_space u space).params = u.space.params := by
  unfold UNION.extract_space
  by_cases hm : isl_space_match u.space space = true
  · simp only [hm, Bool.not_true, Bool.false_eq_true, if_false, true_and]
    have hm1 : u.space.params = space.params := by simpa [isl_space_match] using hm
    exact hm1.symm
  · simp [hm, isl_space_align_params]

theorem single_inv (ref r : Nat) (v : Int) : UNION.Inv intEnv (single ref r v) := by
  refine ⟨?_, ?_⟩
  · intro e he
    simp only [single, List.mem_singleton] at he
    subst he
    exact ⟨rfl, rfl⟩
  · simp [single]

theorem single_wf (ref r : Nat) (v : Int) (hv : v ≠ 0) : UNION.WF intEnv (single ref r v) := by
  refine ⟨single_inv ref r v, ?_, rfl, fun _ => rfl⟩
  intro e he
  simp only [single, List.mem_singleton] at he
  subst he
  simp [PART.IS_ZERO, intEnv, hv]


/-! ## Traversals that skip or drop entries -/

theorem isl_hash_table_foreach_skip {α σ : Type} (Q : σ → Prop)
    (fn : α → σ → isl_stat × α × σ) (hQ : ∀ a s, Q s → Q (fn a s).2.2) (e : Entry α)
    (hskip : ∀ s, Q s → fn e.data s = (.ok (), e.data, s)) (pre post : List (Entry α))
    (s : σ) (hs : Q s) :
    (isl_hash_table_foreach fn (pre ++ e :: post) s).1 =
        (isl_hash_table_foreach fn (pre ++ post) s).1 ∧
      (isl_hash_table_foreach fn (pre ++ e :: post) s).2.2 =
        (isl_hash_table_foreach fn (pre ++ post) s).2.2 := by
  induction pre generalizing s with
  | nil =>
    simp only [List.nil_append]
    rw [isl_hash_table_foreach, hskip s hs]
    simp only
    rcases isl_hash_table_foreach fn post s with ⟨st, es1, s2⟩
    simp
  | cons a pre ih =>
    simp only [List.cons_append]
    rw [isl_hash_table_foreach, isl_hash_table_foreach]
    have h1 := hQ a.data s hs
    rcases hf : fn a.data s with ⟨st, d, s1⟩
    rw [hf] at h1
    cases st with
    | error err => exact ⟨rfl, rfl⟩
    | ok v =>
      simp only
      have h2 := ih s1 h1
      rcases hg1 : isl_hash_table_foreach fn (pre ++ e :: post) s1 with ⟨st1, es1, t1⟩
      rcases hg2 : isl_hash_table_foreach fn (pre ++ post) s1 with ⟨st2, es2, t2⟩
      rw [hg1, hg2] at h2
      exact h2

theorem UNION.match_bin_entry_u2 (E : Env V S) (fn : UNION.BinOp V) (part : PART V)
    (data : UNION.match_bin_data V) :
    (UNION.match_bin_entry E fn part data).2.2.u2 = data.u2 := by
  unfold UNION.match_bin_entry
  split
  · rfl
  · rfl
  · rfl
  · split
    · rfl
    · simp only
      split <;> rfl

theorem UNION.match_bin_entry_mismatch (E : Env V S) (fn : UNION.BinOp V) (part : PART V)
    (data : UNION.match_bin_data V) (e2 : Entry (PART V)) (hinv : UNION.Inv E data.u2)
    (he2 : e2 ∈ data.u2.table) (hp : part.dim.params = data.u2.space.params)
    (htin : part.dim.tin = e2.data.dim.tin) (hout : part.dim.tout ≠ e2.data.dim.tout) :
    UNION.match_bin_entry E fn part data = (.ok (), part, data) := by
  obtain ⟨i, hl⟩ := TableInv_lookup E _ data.u2.table hinv e2 he2 part.dim hp htin.symm
  have hne : ¬ e2.data.dim.tout = part.dim.tout := fun h => hout h.symm
  simp [UNION.match_bin_entry, UNION.find_part_entry_ok, hl, hne]

theorem UNION.match_bin_op_aligned (E : Env V S) (u1 u2 : UNION V) (fn : UNION.BinOp V)
    (hal : u1.space.params = u2.space.params) :
    UNION.match_bin_op E (.ok u1) (.ok u2) fn =
      match isl_hash_table_foreach (UNION.match_bin_entry E fn) u1.table
          { u2 := u2, res := UNION.alloc_same_size E u1 } with
      | (.error e, _, _) => .error e
      | (.ok _, _, data) => data.res := by
  have hm : isl_space_match u1.space u2.space = true := by simp [isl_space_match, hal]
  have hm2 : isl_space_match u2.space u1.space = true := by simp [isl_space_match, hal]
  simp [UNION.match_bin_op, UNION.align_params, UNION.align_params_with, UNION.get_space,
    Except.map, hm, hm2]

theorem UNION.subtracted_dim (E : Env V S) (uset : USet S) (pw p : PART V)
    (h : UNION.subtracted E uset pw = .ok p) : p.dim = pw.dim := by
  unfold UNION.subtracted PART.subtract_domain at h
  cases hv : E.subtract_domain pw
      (isl_union_set_extract_set E uset (PART.get_domain_space pw)) with
  | error err => simp [hv, Except.map] at h
  | ok v =>
    simp only [hv, Except.map, Except.ok.injEq] at h
    subst h
    rfl

theorem UNION.subtract_domain_eq_foldl (E : Env V S) (u : UNION V) (uset : USet S) :
    UNION.subtract_domain E (.ok u) (.ok uset) =
      u.table.foldl (fun s e => UNION.add_PARTS E s (UNION.subtracted E uset e.data))
        (UNION.alloc_same_size E u) := by
  have h := UNION.foreach_PARTS_ok u (UNION.subtract_domain_entry E uset)
    (fun p s => UNION.add_PARTS E s (UNION.subtracted E uset p)) (fun _ _ => rfl)
    (UNION.alloc_same_size E u)
  simp only [UNION.subtract_domain, h]

theorem UNION.subtract_domain_aux (E : Env V S) (add : UNION.Inserter V)
    (hadd : UNION.InsCore E add) (uset : USet S) (ty : Option Fold) (sp : Space)
    (rest pre : List (Entry (PART V))) (hinv : TableInv E sp.params (pre ++ rest))
    (hok : ∀ e ∈ rest, ∃ p b, UNION.subtracted E uset e.data = .ok p ∧
      PART.IS_ZERO E p = .ok b) :
    rest.foldl (fun s e => add s (UNION.subtracted E uset e.data))
        (.ok { ref := 1, type := ty, space := sp,
               table := pre.filterMap (UNION.subtracted_entry E uset) }) =
      .ok { ref := 1, type := ty, space := sp,
            table := (pre ++ rest).filterMap (UNION.subtracted_entry E uset) } := by
  induction rest generalizing pre with
  | nil => simp
  | cons a rest ih =>
    have ha : a ∈ pre ++ a :: rest := by simp
    have hpa := hinv.1 a ha
    obtain ⟨p, b, hsub, hz⟩ := hok a (List.mem_cons_self _ _)
    have hdim := UNION.subtracted_dim E uset a.data p hsub
    have hstep : add (.ok { ref := 1, type := ty, space := sp,
                            table := pre.filterMap (UNION.subtracted_entry E uset) })
        (UNION.subtracted E uset a.data) =
        .ok { ref := 1, type := ty, space := sp,
              table := (pre ++ [a]).filterMap (UNION.subtracted_entry E uset) } := by
      rw [hsub, hadd _ _ rfl (by rw [hdim]; exact hpa.1), hz]
      cases b with
      | true =>
        simp [List.filterMap_append, UNION.subtracted_entry, hsub, hz]
      | false =>
        simp only
        have hno : ∀ x ∈ pre.filterMap (UNION.subtracted_entry E uset),
            x.data.dim.tin ≠ p.dim.tin := by
          intro x hx
          rw [List.mem_filterMap] at hx
          obtain ⟨e, he, hxe⟩ := hx
          have hp := hinv.2
          rw [List.pairwise_append] at hp
          have hne := hp.2.2 e he a (List.mem_cons_self _ _)
          unfold UNION.subtracted_entry at hxe
          cases hse : UNION.subtracted E uset e.data with
          | error err => simp [hse] at hxe
          | ok q =>
            simp only [hse] at hxe
            by_cases hq : PART.IS_ZERO E q = .ok false
            · simp only [hq, if_true, Option.some.injEq] at hxe
              subst hxe
              rw [hdim]
              simpa [UNION.subtracted_dim E uset e.data q hse] using hne
            · simp [hq] at hxe
        rw [UNION.add_part_core_fresh E _ p true (lookup_none_of_tin_ne _ _ _ hno)]
        have hh : isl_space_get_domain_hash E p.dim = a.hash := by
          rw [isl_space_get_domain_hash, hdim, hpa.1, hpa.2]
        simp [List.filterMap_append, UNION.subtracted_entry, hsub, hz, hh]
    simp only [List.foldl_cons, hstep]
    have := ih (pre ++ [a]) (by simpa using hinv)
      (fun e he => hok e (List.mem_cons_of_mem _ he))
    simpa using this

theorem pairwise_countP_le_one (t : List (Entry (PART V))) (d : Option Nat)
    (h : t.Pairwise (fun a b => a.data.dim.tin ≠ b.data.dim.tin)) :
    t.countP (fun e => decide (e.data.dim.tin = d)) ≤ 1 := by
  induction t with
  | nil => simp
  | cons a t ih =>
    rw [List.pairwise_cons] at h
    by_cases ha : a.data.dim.tin = d
    · have h0 : t.countP (fun e => decide (e.data.dim.tin = d)) = 0 := by
        rw [List.countP_eq_zero]
        intro b hb
        have := h.1 b hb
        simp only [decide_eq_true_eq]
        intro hbd
        exact this (ha.trans hbd.symm)
      simp [List.countP_cons, ha, h0]
    · have := ih h.2
      simpa [List.countP_cons, ha] using this

theorem UNION.extract_PARTS_congr (E : Env V S) (u r : UNION V) (hs : r.space = u.space)
    (ht : r.type = u.type) (space : Space) :
    UNION.extract_PARTS E (.ok r) space =
      match isl_hash_table_lookup r.table
          (isl_space_get_domain_hash E (UNION.extract_space u space))
          (fun p => UNION.has_same_domain_space p (UNION.extract_space u space)) with
      | none =>
        .ok (PART.ZERO E (UNION.extract_space u space) (if E.HAS_TYPE then u.type else none))
      | some (_, e) =>
        if e.data.dim.tout = (UNION.extract_space u space).tout then .ok e.data
        else .ok (PART.ZERO E (UNION.extract_space u space)
          (if E.HAS_TYPE then u.type else none)) := by
  have hes : UNION.extract_space r space = UNION.extract_space u space := by
    simp [UNION.extract_space, hs]
  rw [UNION.extract_PARTS_eq, hes, ht]

/-! ## The recursion budget is never exhausted

The nested inserter is only called on a fresh, exclusively owned union.  There it
needs at most one further level (a realignment, whose own inserts are on aligned
parts), so every budget from `2` on gives the same insert. -/

theorem UNION.add_part_core_frame (E : Env V S) (u r : UNION V) (p : PART V) (d : Bool)
    (h : UNION.add_part_core E u p d = .ok r) :
    r.ref = u.ref ∧ r.space = u.space ∧ r.type = u.type := by
  unfold UNION.add_part_core at h
  rw [UNION.find_part_entry_ok] at h
  cases hl : isl_hash_table_lookup u.table (isl_space_get_domain_hash E p.dim)
      (fun q => UNION.has_same_domain_space q p.dim) with
  | none =>
    simp only [hl, if_true, Except.ok.injEq] at h
    subst h
    exact ⟨rfl, rfl, rfl⟩
  | some r0 =>
    obtain ⟨i, e⟩ := r0
    simp only [hl] at h
    by_cases ho : e.data.dim.tout = p.dim.tout
    · simp only [ho, if_true] at h
      cases d with
      | true => simp at h
      | false =>
        simp only [Bool.false_eq_true, if_false] at h
        cases hs : PART.union_add_ E (.ok e.data) (PART.copy p) with
        | error err => simp [hs] at h
        | ok sum =>
          simp only [hs] at h
          cases hz : PART.IS_ZERO E p with
          | error err => simp [hz] at h
          | ok b =>
            cases b with
            | false =>
              simp only [hz, Except.ok.injEq] at h
              subst h
              exact ⟨rfl, rfl, rfl⟩
            | true =>
              simp only [hz, UNION.remove_part_entry, Except.ok.injEq] at h
              subst h
              exact ⟨rfl, rfl, rfl⟩
    · simp [ho] at h

theorem UNION.add_part_generic_with_error_indep (E : Env V S) (a1 a2 : UNION.Inserter V)
    (e : Err) (x : Except Err (PART V)) (d : Bool) :
    UNION.add_part_generic_with E a1 (.error e) x d =
      UNION.add_part_generic_with E a2 (.error e) x d := by
  cases x with
  | error e1 => simp [UNION.add_part_generic_with]
  | ok p =>
    cases hz : PART.IS_ZERO E p with
    | error e1 => simp [UNION.add_part_generic_with, hz]
    | ok b =>
      cases b <;> simp [UNION.add_part_generic_with, hz, UNION.align_params_with, UNION.cow_with]

/-- On a state that is a failure or an exclusively owned union with the
parameters `ps`, and a part that is a failure or has the parameters `ps`, the
insert does not call its nested inserter, and its result is again such a state. -/
theorem UNION.add_part_generic_with_aligned_indep (E : Env V S) (a1 a2 : UNION.Inserter V)
    (ps : List Nat) (s : Except Err (UNION V)) (x : Except Err (PART V)) (d : Bool)
    (hs : ∀ res, s = .ok res → res.ref = 1 ∧ res.space.params = ps)
    (hx : ∀ p, x = .ok p → p.dim.params = ps) :
    UNION.add_part_generic_with E a1 s x d = UNION.add_part_generic_with E a2 s x d ∧
      ∀ r, UNION.add_part_generic_with E a1 s x d = .ok r → r.ref = 1 ∧ r.space.params = ps := by
  cases s with
  | error e =>
    exact ⟨UNION.add_part_generic_with_error_indep E a1 a2 e x d,
      fun r hr => absurd hr (UNION.add_part_generic_with_error E a1 e x d r)⟩
  | ok res =>
    obtain ⟨href, hps⟩ := hs res rfl
    cases x with
    | error e => simp [UNION.add_part_generic_with_error_part]
    | ok p =>
      have hp : p.dim.params = res.space.params := (hx p rfl).trans hps.symm
      rw [UNION.add_part_generic_with_aligned_gen E a1 res p d hp href,
        UNION.add_part_generic_with_aligned_gen E a2 res p d hp href]
      refine ⟨rfl, ?_⟩
      intro r hr
      cases hz : PART.IS_ZERO E p with
      | error e => simp [hz] at hr
      | ok b =>
        cases b with
        | true =>
          simp only [hz, Except.ok.injEq] at hr
          subst hr
          exact ⟨href, hps⟩
        | false =>
          simp only [hz] at hr
          have := UNION.add_part_core_frame E res r p d hr
          exact ⟨this.1.trans href, by rw [this.2.1]; exact hps⟩

theorem foldl_inserter_congr (P : Except Err (UNION V) → Prop) (A1 A2 : UNION.Inserter V)
    (f : PART V → Except Err (PART V)) (t : List (Entry (PART V)))
    (h : ∀ s, P s → ∀ e ∈ t, A1 s (f e.data) = A2 s (f e.data) ∧ P (A1 s (f e.data)))
    (init : Except Err (UNION V)) (hi : P init) :
    t.foldl (fun s e => A1 s (f e.data)) init = t.foldl (fun s e => A2 s (f e.data)) init ∧
      P (t.foldl (fun s e => A1 s (f e.data)) init) := by
  induction t generalizing init with
  | nil => exact ⟨rfl, hi⟩
  | cons a t ih =>
    have ha := h init hi a (List.mem_cons_self _ _)
    simp only [List.foldl_cons]
    rw [← ha.1]
    exact ih (fun s hs e he => h s hs e (List.mem_cons_of_mem _ he)) _ ha.2

theorem UNION.realign_domain_with_budget (E : Env V S) (a1 a2 : UNION.Inserter V)
    (u : UNION V) (rr : isl_reordering) :
    UNION.realign_domain_with E (fun s x => UNION.add_part_generic_with E a1 s x true) (.ok u) rr =
        UNION.realign_domain_with E (fun s x => UNION.add_part_generic_with E a2 s x true)
          (.ok u) rr ∧
      ∀ r, UNION.realign_domain_with E
        (fun s x => UNION.add_part_generic_with E a1 s x true) (.ok u) rr = .ok r → r.ref = 1 := by
  rw [UNION.realign_domain_with_eq_foldl, UNION.realign_domain_with_eq_foldl]
  have := foldl_inserter_congr
    (fun s => ∀ res, s = .ok res → res.ref = 1 ∧ res.space.params = rr.dim.params)
    (fun s x => UNION.add_part_generic_with E a1 s x true)
    (fun s x => UNION.add_part_generic_with E a2 s x true)
    (fun p => PART.realign_domain E p (isl_reordering_extend_space rr (PART.get_domain_space p)))
    u.table
    (by
      intro s hs e _
      refine UNION.add_part_generic_with_aligned_indep E a1 a2 rr.dim.params s _ true hs ?_
      intro p hp
      simp only [PART.realign_domain, isl_reordering_extend_space] at hp
      cases hv : E.realign e.data rr.dim.params with
      | error err => simp [hv, Except.map] at hp
      | ok v =>
        simp only [hv, Except.map, Except.ok.injEq] at hp
        subst hp
        rfl)
    (UNION.alloc_same_size_on_space E u rr.dim)
    (by
      intro res hres
      simp only [UNION.alloc_same_size_on_space, UNION.alloc, Except.ok.injEq] at hres
      subst hres
      exact ⟨rfl, rfl⟩)
  exact ⟨this.1, fun r hr => (this.2 r hr).1⟩

/-- On an exclusively owned union the insert gives the same result for every
budget of at least `1` of its nested inserter, and the result is exclusively
owned. -/
theorem UNION.add_part_generic_with_exclusive (E : Env V S) (j : Nat)
    (s : Except Err (UNION V)) (x : Except Err (PART V)) (d : Bool)
    (hs : ∀ res, s = .ok res → res.ref = 1) :
    UNION.add_part_generic_with E (UNION.add_PARTS_fuel E (j + 1)) s x d =
        UNION.add_part_generic_with E (UNION.add_PARTS_fuel E 1) s x d ∧
      ∀ r, UNION.add_part_generic_with E (UNION.add_PARTS_fuel E (j + 1)) s x d = .ok r →
        r.ref = 1 := by
  cases s with
  | error e =>
    exact ⟨UNION.add_part_generic_with_error_indep E _ _ e x d,
      fun r hr => absurd hr (UNION.add_part_generic_with_error E _ e x d r)⟩
  | ok res =>
    have href := hs res rfl
    cases x with
    | error e => simp [UNION.add_part_generic_with_error_part]
    | ok p =>
      rw [UNION.add_part_generic_with_split, UNION.add_part_generic_with_split]
      cases hz : PART.IS_ZERO E p with
      | error e => simp
      | ok b =>
        cases b with
        | true =>
          refine ⟨rfl, ?_⟩
          intro r hr
          simp only [Except.ok.injEq] at hr
          rw [← hr]
          exact href
        | false =>
          simp only
          have hal : UNION.align_params_with E (UNION.add_PARTS_fuel E (j + 1)) (.ok res)
              (.ok p.dim) =
              UNION.align_params_with E (UNION.add_PARTS_fuel E 1) (.ok res) (.ok p.dim) ∧
              ∀ r, UNION.align_params_with E (UNION.add_PARTS_fuel E (j + 1)) (.ok res)
                (.ok p.dim) = .ok r → r.ref = 1 := by
            unfold UNION.align_params_with
            by_cases hm : isl_space_match res.space p.dim = true
            · simp only [hm, if_true]
              refine ⟨trivial, ?_⟩
              intro r hr
              simp only [Except.ok.injEq] at hr
              rw [← hr]
              exact href
            · simp only [hm, Bool.false_eq_true, if_false]
              exact UNION.realign_domain_with_budget E (UNION.add_PARTS_fuel E j)
                (UNION.add_PARTS_fuel E 0) res _
          rw [← hal.1]
          cases ha : UNION.align_params_with E (UNION.add_PARTS_fuel E (j + 1)) (.ok res)
              (.ok p.dim) with
          | error e => simp [UNION.cow_with]
          | ok u1 =>
            have hu1 := hal.2 u1 ha
            have hc : ∀ a : UNION.Inserter V, UNION.cow_with E a (.ok u1) = .ok u1 := by
              intro a
              simp [UNION.cow_with, hu1]
            rw [hc, hc]
            refine ⟨rfl, ?_⟩
            intro r hr
            cases hpa : PART.align_params E (.ok p) (UNION.get_space (.ok u1)) with
            | error e => simp [hpa] at hr
            | ok p1 =>
              simp only [hpa] at hr
              exact (UNION.add_part_core_frame E u1 r p1 d hr).1.trans hu1

theorem UNION.dup_with_budget (E : Env V S) (j : Nat) (u : UNION V) :
    UNION.dup_with E (UNION.add_PARTS_fuel E (j + 2)) (.ok u) =
      UNION.dup_with E (UNION.add_PARTS_fuel E 2) (.ok u) := by
  rw [UNION.dup_with_eq_foldl, UNION.dup_with_eq_foldl]
  exact (foldl_inserter_congr (fun s => ∀ res, s = .ok res → res.ref = 1)
    (UNION.add_PARTS_fuel E (j + 2)) (UNION.add_PARTS_fuel E 2) (fun p => .ok p) u.table
    (by
      intro s hs e _
      have h1 := UNION.add_part_generic_with_exclusive E j s (.ok e.data) true hs
      have h2 := UNION.add_part_generic_with_exclusive E 0 s (.ok e.data) true hs
      exact ⟨h1.1.trans h2.1.symm, h1.2⟩)
    (UNION.alloc_same_size E u)
    (by
      intro res hres
      simp only [UNION.alloc_same_size, UNION.alloc_same_size_on_space, UNION.alloc,
        Except.ok.injEq] at hres
      subst hres
      rfl)).1

/-- The insert gives the same result for every budget of at least `2` of its
nested inserter: the budget `4` of `add_PARTS` is never exhausted. -/
theorem UNION.add_part_generic_with_budget (E : Env V S) (k : Nat)
    (u : Except Err (UNION V)) (x : Except Err (PART V)) (d : Bool) :
    UNION.add_part_generic_with E (UNION.add_PARTS_fuel E (k + 2)) u x d =
      UNION.add_part_generic_with E (UNION.add_PARTS_fuel E 2) u x d := by
  cases u with
  | error e => exact UNION.add_part_generic_with_error_indep E _ _ e x d
  | ok u0 =>
    cases x with
    | error e => simp [UNION.add_part_generic_with_error_part]
    | ok p =>
      rw [UNION.add_part_generic_with_split, UNION.add_part_generic_with_split]
      have hal : UNION.align_params_with E (UNION.add_PARTS_fuel E (k + 2)) (.ok u0)
          (.ok p.dim) =
          UNION.align_params_with E (UNION.add_PARTS_fuel E 2) (.ok u0) (.ok p.dim) := by
        unfold UNION.align_params_with
        by_cases hm : isl_space_match u0.space p.dim = true
        · simp only [hm, if_true]
        · simp only [hm, Bool.false_eq_true, if_false]
          exact ((UNION.realign_domain_with_budget E (UNION.add_PARTS_fuel E (k + 1))
            (UNION.add_PARTS_fuel E 1) u0 _).1)
      rw [hal]
      have hcow : ∀ s : Except Err (UNION V),
          UNION.cow_with E (UNION.add_PARTS_fuel E (k + 2)) s =
            UNION.cow_with E (UNION.add_PARTS_fuel E 2) s := by
        intro s
        cases s with
        | error e => rfl
        | ok u1 =>
          unfold UNION.cow_with
          by_cases hr : u1.ref = 1
          · simp only [hr, if_true]
          · simp only [hr, if_false]
            exact UNION.dup_with_budget E k _
      rw [hcow]

theorem UNION.add_PARTS_fuel_stable (E : Env V S) (k : Nat) :
    UNION.add_PARTS_fuel E (k + 3) = UNION.add_PARTS_fuel E 3 := by
  funext u x
  exact UNION.add_part_generic_with_budget E k u x true

/-! ## Structural equality -/

theorem UNION.find_part_entry_slot (E : Env V S) (u : UNION V) (space : Space) (i : Nat)
    (e : Entry (PART V))
    (h : UNION.find_part_entry E (.ok u) space false = .ok (some (.slot i e))) :
    e ∈ u.table ∧ e.data.dim.tin = space.tin ∧ e.data.dim.tout = space.tout := by
  rw [UNION.find_part_entry_ok] at h
  cases hl : isl_hash_table_lookup u.table (isl_space_get_domain_hash E space)
      (fun p => UNION.has_same_domain_space p space) with
  | none => simp [hl] at h
  | some r =>
    obtain ⟨j, e1⟩ := r
    have h1 := isl_hash_table_lookup_some _ _ _ _ _ hl
    simp only [hl] at h
    by_cases ho : e1.data.dim.tout = space.tout
    · simp only [ho, if_true, Except.ok.injEq, Option.some.injEq, EntryRef.slot.injEq] at h
      obtain ⟨_, rfl⟩ := h
      exact ⟨List.getElem?_mem h1.1, (has_same_domain_space_iff _ _).1 h1.2.2, ho⟩
    · simp [ho] at h

theorem UNION.find_part_entry_of_mem (E : Env V S) (u : UNION V) (hinv : UNION.Inv E u)
    (space : Space) (hps : space.params = u.space.params) (e : Entry (PART V))
    (he : e ∈ u.table) (htin : e.data.dim.tin = space.tin)
    (hout : e.data.dim.tout = space.tout) :
    ∃ i, UNION.find_part_entry E (.ok u) space false = .ok (some (.slot i e)) := by
  obtain ⟨i, hl⟩ := TableInv_lookup E _ u.table hinv e he space hps htin
  exact ⟨i, by simp [UNION.find_part_entry_ok, hl, hout]⟩

theorem UNION.find_part_entry_no_error (E : Env V S) (u : UNION V) (space : Space) :
    UNION.find_part_entry E (.ok u) space false = .ok none ∨
      ∃ i e, UNION.find_part_entry E (.ok u) space false = .ok (some (.slot i e)) := by
  rw [UNION.find_part_entry_ok]
  cases hl : isl_hash_table_lookup u.table (isl_space_get_domain_hash E space)
      (fun p => UNION.has_same_domain_space p space) with
  | none => simp
  | some r =>
    obtain ⟨j, e1⟩ := r
    by_cases ho : e1.data.dim.tout = space.tout
    · exact Or.inr ⟨j, e1, by simp [ho]⟩
    · exact Or.inl (by simp [ho])

theorem UNION.entry_matches_iff (E : Env V S) (u : UNION V) (hinv : UNION.Inv E u)
    (pw : PART V) (hps : pw.dim.params = u.space.params) :
    UNION.entry_matches E u pw = true ↔
      ∃ e2 ∈ u.table, e2.data.dim.tin = pw.dim.tin ∧ e2.data.dim.tout = pw.dim.tout ∧
        E.plain_is_equal pw e2.data = .ok true := by
  constructor
  · intro h
    unfold UNION.entry_matches at h
    rcases UNION.find_part_entry_no_error E u pw.dim with hf | ⟨i, e2, hf⟩
    · simp [hf] at h
    · have hs := UNION.find_part_entry_slot E u pw.dim i e2 hf
      simp only [hf, PART.plain_is_equal] at h
      cases hq : E.plain_is_equal pw e2.data with
      | error err => simp [hq] at h
      | ok b =>
        cases b with
        | false => simp [hq] at h
        | true => exact ⟨e2, hs.1, hs.2.1, hs.2.2, hq⟩
  · rintro ⟨e2, he2, htin, hout, hq⟩
    obtain ⟨i, hf⟩ := UNION.find_part_entry_of_mem E u hinv pw.dim hps e2 he2 htin hout
    simp [UNION.entry_matches, hf, PART.plain_is_equal, hq]

theorem UNION.plain_is_equal_entry_true (E : Env V S) (pw : PART V)
    (data : UNION.plain_is_equal_data V) (hm : UNION.entry_matches E data.u2 pw = true) :
    UNION.plain_is_equal_entry E pw data = (.ok (), pw, { data with is_equal := .ok true }) := by
  unfold UNION.entry_matches at hm
  unfold UNION.plain_is_equal_entry
  rcases UNION.find_part_entry_no_error E data.u2 pw.dim with hf | ⟨i, e2, hf⟩
  · simp [hf] at hm
  · simp only [hf] at hm ⊢
    cases hq : PART.plain_is_equal E pw e2.data with
    | error err => simp [hq] at hm
    | ok b =>
      cases b with
      | false => simp [hq] at hm
      | true => rfl

theorem UNION.plain_is_equal_entry_false (E : Env V S)
    (herr : ∀ a b, ∃ r, E.plain_is_equal a b = .ok r) (pw : PART V)
    (data : UNION.plain_is_equal_data V) (hm : UNION.entry_matches E data.u2 pw = false) :
    UNION.plain_is_equal_entry E pw data =
      (.error .abort, pw, { data with is_equal := .ok false }) := by
  unfold UNION.entry_matches at hm
  unfold UNION.plain_is_equal_entry
  rcases UNION.find_part_entry_no_error E data.u2 pw.dim with hf | ⟨i, e2, hf⟩
  · simp [hf]
  · obtain ⟨r, hr⟩ := herr pw e2.data
    simp only [hf, PART.plain_is_equal, hr] at hm ⊢
    cases r with
    | false => rfl
    | true => simp at hm

theorem UNION.plain_is_equal_traverse_true (E : Env V S) (u2 : UNION V)
    (t : List (Entry (PART V)))
    (hall : t.all (fun e => UNION.entry_matches E u2 e.data) = true) :
    isl_hash_table_foreach (UNION.plain_is_equal_entry E) t
      { u2 := u2, is_equal := .ok true } = (.ok (), t, { u2 := u2, is_equal := .ok true }) := by
  induction t with
  | nil => rfl
  | cons a t ih =>
    simp only [List.all_cons, Bool.and_eq_true] at hall
    rw [isl_hash_table_foreach,
      UNION.plain_is_equal_entry_true E a.data { u2 := u2, is_equal := .ok true } hall.1]
    simp only [ih hall.2]

theorem UNION.plain_is_equal_traverse_false (E : Env V S)
    (herr : ∀ a b, ∃ r, E.plain_is_equal a b = .ok r) (u2 : UNION V)
    (t : List (Entry (PART V)))
    (hall : t.all (fun e => UNION.entry_matches E u2 e.data) = false) :
    ∃ es, isl_hash_table_foreach (UNION.plain_is_equal_entry E) t
      { u2 := u2, is_equal := .ok true } =
        (.error .abort, es, { u2 := u2, is_equal := .ok false }) := by
  induction t with
  | nil => simp at hall
  | cons a t ih =>
    cases hm : UNION.entry_matches E u2 a.data with
    | true =>
      simp only [List.all_cons, hm, Bool.true_and] at hall
      obtain ⟨es, hes⟩ := ih hall
      rw [isl_hash_table_foreach,
        UNION.plain_is_equal_entry_true E a.data { u2 := u2, is_equal := .ok true } hm]
      simp only [hes]
      exact ⟨_, rfl⟩
    | false =>
      rw [isl_hash_table_foreach,
        UNION.plain_is_equal_entry_false E herr a.data { u2 := u2, is_equal := .ok true } hm]
      exact ⟨_, rfl⟩

theorem UNION.plain_is_equal_unfold (E : Env V S) (a b : UNION V)
    (hal : a.space.params = b.space.params) (hlen : a.table.length = b.table.length) :
    UNION.plain_is_equal E false (.ok a) (.ok b) =
      match isl_hash_table_foreach (UNION.plain_is_equal_entry E) a.table
          { u2 := { b with ref := b.ref + 1 }, is_equal := .ok true } with
      | (.error e, _, data) =>
        match data.is_equal with
        | .error e1 => .error e1
        | .ok true => .error e
        | .ok false => .ok false
      | (.ok _, _, data) => data.is_equal := by
  have hm : isl_space_match a.space b.space = true := by simp [isl_space_match, hal]
  have hm2 : isl_space_match b.space a.space = true := by simp [isl_space_match, hal]
  simp only [UNION.plain_is_equal, Bool.false_eq_true, if_false, hlen, ne_eq, not_true_eq_false,
    UNION.copy, Except.map, UNION.align_params, UNION.align_params_with, UNION.get_space, hm,
    hm2, if_true, UNION.foreach_inplace]
  generalize isl_hash_table_foreach (UNION.plain_is_equal_entry E) a.table
    { u2 := { b with ref := b.ref + 1 }, is_equal := .ok true } = r
  obtain ⟨st, es, d⟩ := r
  cases st <;> rfl

theorem UNION.plain_is_equal_aligned_true (E : Env V S) (a b : UNION V)
    (hal : a.space.params = b.space.params) (hlen : a.table.length = b.table.length)
    (hall : a.table.all (fun e => UNION.entry_matches E b e.data) = true) :
    UNION.plain_is_equal E false (.ok a) (.ok b) = .ok true := by
  have htr := UNION.plain_is_equal_traverse_true E { b with ref := b.ref + 1 } a.table hall
  rw [UNION.plain_is_equal_unfold E a b hal hlen, htr]

theorem UNION.plain_is_equal_aligned (E : Env V S)
    (herr : ∀ a b, ∃ r, E.plain_is_equal a b = .ok r) (a b : UNION V)
    (hal : a.space.params = b.space.params) (hlen : a.table.length = b.table.length) :
    UNION.plain_is_equal E false (.ok a) (.ok b) =
      .ok (a.table.all (fun e => UNION.entry_matches E b e.data)) := by
  cases hall : a.table.all (fun e => UNION.entry_matches E b e.data) with
  | true => exact UNION.plain_is_equal_aligned_true E a b hal hlen hall
  | false =>
    obtain ⟨es, hes⟩ :=
      UNION.plain_is_equal_traverse_false E herr { b with ref := b.ref + 1 } a.table hall
    rw [UNION.plain_is_equal_unfold E a b hal hlen, hes]

theorem UNION.all_matches_refl (E : Env V S) (u r : UNION V) (hinv : UNION.Inv E u)
    (ht : r.table = u.table)
    (hrefl : ∀ e ∈ u.table, E.plain_is_equal e.data e.data = .ok true) :
    r.table.all (fun e => UNION.entry_matches E u e.data) = true := by
  rw [List.all_eq_true, ht]
  intro e he
  exact (UNION.entry_matches_iff E u hinv e.data (hinv.1 e he).1).2
    ⟨e, he, rfl, rfl, hrefl e he⟩

theorem UNION.all_matches_symm (E : Env V S)
    (hsym : ∀ a b, E.plain_is_equal a b = E.plain_is_equal b a) (a b : UNION V)
    (ha : UNION.Inv E a) (hb : UNION.Inv E b) (hal : a.space.params = b.space.params)
    (hlen : a.table.length = b.table.length)
    (h : a.table.all (fun e => UNION.entry_matches E b e.data) = true) :
    b.table.all (fun e => UNION.entry_matches E a e.data) = true := by
  rw [List.all_eq_true] at h ⊢
  have hmatch : ∀ e1 ∈ a.table, ∃ e2 ∈ b.table, e2.data.dim.tin = e1.data.dim.tin ∧
      e2.data.dim.tout = e1.data.dim.tout ∧ E.plain_is_equal e1.data e2.data = .ok true :=
    fun e1 he1 => (UNION.entry_matches_iff E b hb e1.data
      ((ha.1 e1 he1).1.trans hal)).1 (h e1 he1)
  have hnd : (a.table.map (fun e => e.data.dim.tin)).Nodup := by
    rw [List.Nodup, List.pairwise_map]
    exact ha.2
  have hsub : a.table.map (fun e => e.data.dim.tin) ⊆ b.table.map (fun e => e.data.dim.tin) := by
    intro x hx
    obtain ⟨e1, he1, rfl⟩ := List.mem_map.1 hx
    obtain ⟨e2, he2, htin, _, _⟩ := hmatch e1 he1
    exact List.mem_map.2 ⟨e2, he2, htin⟩
  have hperm := (hnd.subperm hsub).perm_of_length_le (by simp [hlen])
  intro e2 he2
  have hx : e2.data.dim.tin ∈ a.table.map (fun e => e.data.dim.tin) :=
    hperm.symm.subset (List.mem_map.2 ⟨e2, he2, rfl⟩)
  obtain ⟨e1, he1, htin1⟩ := List.mem_map.1 hx
  obtain ⟨e3, he3, htin3, hout3, hq3⟩ := hmatch e1 he1
  have heq : e3 = e2 := TableInv_unique E _ b.table hb e3 e2 he3 he2 (htin3.trans htin1)
  subst heq
  exact (UNION.entry_matches_iff E a ha e3.data ((hb.1 e3 he2).1.trans hal.symm)).2
    ⟨e1, he1, htin3.symm, hout3.symm, by rw [hsym]; exact hq3⟩

/-! ## In-place traversals -/

theorem isl_hash_table_foreach_map (f : PART V → Except Err (PART V))
    (fn : PART V → Unit → isl_stat × PART V × Unit)
    (hfn : ∀ pw p, f pw = .ok p → fn pw () = (.ok (), p, ()))
    (t : List (Entry (PART V))) (hok : ∀ e ∈ t, ∃ p, f e.data = .ok p) :
    isl_hash_table_foreach fn t () = (.ok (), UNION.map_table f t, ()) := by
  induction t with
  | nil => rfl
  | cons a t ih =>
    obtain ⟨p, hp⟩ := hok a (List.mem_cons_self _ _)
    have iht := ih (fun e he => hok e (List.mem_cons_of_mem _ he))
    unfold UNION.map_table at iht ⊢
    simp [isl_hash_table_foreach, hfn a.data p hp, iht, hp]

theorem UNION.negate_type_exclusive (E : Env V S) (u : UNION V) (hr : u.ref = 1) :
    UNION.negate_type E (.ok u) =
      .ok { u with type := if E.HAS_TYPE then u.type.map isl_fold_type_negate else u.type } := by
  unfold UNION.negate_type
  cases hh : E.HAS_TYPE with
  | true => simp [UNION.cow, UNION.cow_with, hr]
  | false => simp

theorem UNION.scale_tail (E : Env V S) (u : UNION V) (hu : u.ref = 1 ∨ UNION.WF E u)
    (neg : Bool) (f : PART V → Except Err (PART V))
    (fn : PART V → Unit → isl_stat × PART V × Unit)
    (hfn : ∀ pw p, f pw = .ok p → fn pw () = (.ok (), p, ()))
    (hok : ∀ e ∈ u.table, ∃ p, f e.data = .ok p) :
    (match (if neg then UNION.negate_type E (UNION.cow E (.ok u)) else UNION.cow E (.ok u)) with
      | .error e => (Except.error e : Except Err (UNION V))
      | .ok u =>
        match isl_hash_table_foreach fn u.table () with
        | (.error e, _, _) => .error e
        | (.ok _, table, _) => .ok { u with table := table }) =
      .ok (UNION.scaled E u neg f) := by
  have hcow : UNION.cow E (.ok u) = .ok { u with ref := 1 } :=
    UNION.cow_with_wf E _ (UNION.InsCore_fuel E 3) u hu
  rw [hcow, UNION.negate_type_exclusive E _ rfl]
  cases neg with
  | true =>
    simp only [if_true]
    rw [isl_hash_table_foreach_map f fn hfn u.table hok]
    simp [UNION.scaled]
  | false =>
    simp only [Bool.false_eq_true, if_false]
    rw [isl_hash_table_foreach_map f fn hfn u.table hok]
    simp [UNION.scaled]

/-! ## The binary operation on matching entries -/

theorem UNION.matched_entry_some (E : Env V S) (u2 : UNION V) (fn : UNION.BinOp V)
    (e x : Entry (PART V)) (h : UNION.matched_entry E u2 fn e = some x) :
    ∃ e2 ∈ u2.table, e2.data.dim.tin = e.data.dim.tin ∧ e2.data.dim.tout = e.data.dim.tout ∧
      fn (.ok e.data) (.ok e2.data) = .ok x.data ∧ PART.IS_ZERO E x.data = .ok false ∧
      x.hash = e.hash := by
  unfold UNION.matched_entry at h
  rcases UNION.find_part_entry_no_error E u2 e.data.dim with hf | ⟨i, e2, hf⟩
  · simp [hf] at h
  · have hs := UNION.find_part_entry_slot E u2 e.data.dim i e2 hf
    simp only [hf, PART.copy] at h
    cases hr : fn (.ok e.data) (.ok e2.data) with
    | error err => simp [hr] at h
    | ok r =>
      simp only [hr] at h
      by_cases hz : PART.IS_ZERO E r = .ok false
      · simp only [hz, if_true, Option.some.injEq] at h
        subst h
        exact ⟨e2, hs.1, hs.2.1, hs.2.2, hr, hz, rfl⟩
      · simp [hz] at h

theorem UNION.matched_entry_of_mem (E : Env V S) (u2 : UNION V) (hinv : UNION.Inv E u2)
    (fn : UNION.BinOp V) (e e2 : Entry (PART V)) (r : PART V)
    (hps : e.data.dim.params = u2.space.params) (he2 : e2 ∈ u2.table)
    (htin : e2.data.dim.tin = e.data.dim.tin) (hout : e2.data.dim.tout = e.data.dim.tout)
    (hr : fn (.ok e.data) (.ok e2.data) = .ok r) (hz : PART.IS_ZERO E r = .ok false) :
    UNION.matched_entry E u2 fn e = some { hash := e.hash, data := r } := by
  obtain ⟨i, hf⟩ := UNION.find_part_entry_of_mem E u2 hinv e.data.dim hps e2 he2 htin hout
  simp [UNION.matched_entry, hf, PART.copy, hr, hz]

theorem UNION.match_bin_aux (E : Env V S) (fn : UNION.BinOp V) (u2 : UNION V)
    (ty : Option Fold) (sp : Space) (rest pre : List (Entry (PART V)))
    (hinv : TableInv E sp.params (pre ++ rest))
    (hok : ∀ e1 ∈ pre ++ rest, ∀ e2 ∈ u2.table, e2.data.dim.tin = e1.data.dim.tin →
      e2.data.dim.tout = e1.data.dim.tout →
      ∃ r b, fn (.ok e1.data) (.ok e2.data) = .ok r ∧ r.dim = e1.data.dim ∧
        PART.IS_ZERO E r = .ok b) :
    isl_hash_table_foreach (UNION.match_bin_entry E fn) rest
        { u2 := u2, res := .ok { ref := 1, type := ty, space := sp,
                                 table := pre.filterMap (UNION.matched_entry E u2 fn) } } =
      (.ok (), rest,
        { u2 := u2, res := .ok { ref := 1, type := ty, space := sp,
                                 table := (pre ++ rest).filterMap
                                   (UNION.matched_entry E u2 fn) } }) := by
  induction rest generalizing pre with
  | nil => simp [isl_hash_table_foreach]
  | cons a rest ih =>
    have ha : a ∈ pre ++ a :: rest := by simp
    have hpa := hinv.1 a ha
    have hstep : UNION.match_bin_entry E fn a.data
        { u2 := u2, res := .ok { ref := 1, type := ty, space := sp,
                                 table := pre.filterMap (UNION.matched_entry E u2 fn) } } =
        (.ok (), a.data,
          { u2 := u2, res := .ok { ref := 1, type := ty, space := sp,
                                   table := (pre ++ [a]).filterMap
                                     (UNION.matched_entry E u2 fn) } }) := by
      rcases UNION.find_part_entry_no_error E u2 a.data.dim with hf | ⟨i, e2, hf⟩
      · simp [UNION.match_bin_entry, hf, List.filterMap_append, UNION.matched_entry]
      · have hs := UNION.find_part_entry_slot E u2 a.data.dim i e2 hf
        obtain ⟨r, b, hr, hdim, hz⟩ := hok a ha e2 hs.1 hs.2.1 hs.2.2
        have hto : isl_space_tuple_is_equal a.data.dim .out e2.data.dim .out = true := by
          simp [isl_space_tuple_is_equal, Space.tuple, hs.2.2]
        have hadd := UNION.InsCore_fuel E 3
          { ref := 1, type := ty, space := sp,
            table := pre.filterMap (UNION.matched_entry E u2 fn) } r rfl
          (by rw [hdim]; exact hpa.1)
        have hadd2 : UNION.add_PARTS E
            (.ok { ref := 1, type := ty, space := sp,
                   table := pre.filterMap (UNION.matched_entry E u2 fn) }) (.ok r) = _ := hadd
        simp only [UNION.match_bin_entry, hf, hto, PART.copy, hr, hadd2, hz, Bool.not_true,
          Bool.false_eq_true, if_false]
        cases b with
        | true =>
          simp [List.filterMap_append, UNION.matched_entry, hf, PART.copy, hr, hz]
        | false =>
          simp only
          have hno : ∀ x ∈ pre.filterMap (UNION.matched_entry E u2 fn),
              x.data.dim.tin ≠ r.dim.tin := by
            intro x hx
            rw [List.mem_filterMap] at hx
            obtain ⟨e, he, hxe⟩ := hx
            have hp := hinv.2
            rw [List.pairwise_append] at hp
            have hne := hp.2.2 e he a (List.mem_cons_self _ _)
            obtain ⟨e3, he3, ht3, ho3, hr3, -, -⟩ := UNION.matched_entry_some E u2 fn e x hxe
            obtain ⟨r3, b3, hr3b, hdim3, -⟩ :=
              hok e (List.mem_append_left _ he) e3 he3 ht3 ho3
            rw [hr3] at hr3b
            cases hr3b
            rw [hdim, hdim3]
            exact hne
          rw [UNION.add_part_core_fresh E _ r true (lookup_none_of_tin_ne _ _ _ hno)]
          have hh : isl_space_get_domain_hash E r.dim = a.hash := by
            rw [isl_space_get_domain_hash, hdim, hpa.1, hpa.2]
          simp [List.filterMap_append, UNION.matched_entry, hf, PART.copy, hr, hz, hh]
    have := ih (pre ++ [a]) (by simpa using hinv) (by simpa using hok)
    simp only [isl_hash_table_foreach, hstep]
    simp only [List.append_assoc, List.singleton_append] at this
    rw [this]

theorem List.length_le_of_nodup_key_subset {α β γ : Type} (l : List α) (m : List β)
    (f : α → γ) (g : β → γ) (hnd : (l.map f).Nodup) (hsub : ∀ a ∈ l, ∃ b ∈ m, g b = f a) :
    l.length ≤ m.length := by
  have hs : l.map f ⊆ m.map g := by
    intro c hc
    rw [List.mem_map] at hc
    obtain ⟨a, ha, rfl⟩ := hc
    obtain ⟨b, hb, hgb⟩ := hsub a ha
    exact List.mem_map.2 ⟨b, hb, hgb⟩
  have := (hnd.subperm hs).length_le
  simpa using this

/-! ## In-place traversals and released references -/

theorem isl_hash_table_foreach_frame {α σ : Type} (fn : α → σ → isl_stat × α × σ)
    (hfn : ∀ a s, (fn a s).2.1 = a) (t : List (Entry α)) (s : σ) :
    (isl_hash_table_foreach fn t s).2.1 = t := by
  induction t generalizing s with
  | nil => rfl
  | cons a t ih =>
    have h1 := hfn a.data s
    unfold isl_hash_table_foreach
    rcases hf : fn a.data s with ⟨st, d, s1⟩
    rw [hf] at h1
    simp only at h1
    subst h1
    cases st with
    | error e => rfl
    | ok v =>
      have h2 := ih s1
      rcases hr : isl_hash_table_foreach fn t s1 with ⟨st2, es, s2⟩
      rw [hr] at h2
      simp only at h2
      subst h2
      simp only [hr]

theorem UNION.plain_is_equal_entry_frame (E : Env V S) (pw : PART V)
    (data : UNION.plain_is_equal_data V) :
    (UNION.plain_is_equal_entry E pw data).2.1 = pw := by
  unfold UNION.plain_is_equal_entry
  split
  · rfl
  · rfl
  · rfl
  · split <;> rfl

theorem UNION.free_copy (u : UNION V) (h : 0 < u.ref) :
    UNION.free { u with ref := u.ref + 1 } = some u := by
  simp [UNION.free, h]

theorem isl_hash_table_foreach_abort (f : PART V → Except Err (PART V))
    (fn : PART V → Unit → isl_stat × PART V × Unit)
    (hok : ∀ pw p, f pw = .ok p → fn pw () = (.ok (), p, ()))
    (herr : ∀ pw e, f pw = .error e → fn pw () = (.error e, pw, ()))
    (pre post : List (Entry (PART V))) (a : Entry (PART V)) (e : Err)
    (hpre : ∀ x ∈ pre, ∃ p, f x.data = .ok p) (ha : f a.data = .error e) :
    isl_hash_table_foreach fn (pre ++ a :: post) () =
      (.error e, UNION.map_table f pre ++ a :: post, ()) := by
  induction pre with
  | nil =>
    simp [isl_hash_table_foreach, herr a.data e ha, UNION.map_table]
  | cons x pre ih =>
    obtain ⟨p, hp⟩ := hpre x (List.mem_cons_self _ _)
    have iht := ih (fun y hy => hpre y (List.mem_cons_of_mem _ hy))
    unfold UNION.map_table at iht ⊢
    simp [isl_hash_table_foreach, hok x.data p hp, iht, hp]

theorem UNION.map_table_keys (f : PART V → Except Err (PART V))
    (hdim : ∀ pw p, f pw = .ok p → p.dim = pw.dim) (t : List (Entry (PART V))) :
    (UNION.map_table f t).map (fun e => (e.hash, e.data.dim)) =
      t.map (fun e => (e.hash, e.data.dim)) := by
  unfold UNION.map_table
  rw [List.map_map]
  apply List.map_congr_left
  intro e _
  simp only [Function.comp]
  cases hf : f e.data with
  | error err => rfl
  | ok p => simp [hdim e.data p hf]

theorem PART.coalesce_dim (E : Env V S) (pw p : PART V) (h : PART.coalesce E pw = .ok p) :
    p.dim = pw.dim := by
  unfold PART.coalesce at h
  cases hc : E.coalesce pw with
  | error e => simp [hc, Except.map] at h
  | ok v =>
    simp only [hc, Except.map, Except.ok.injEq] at h
    subst h
    rfl

theorem UNION.align_params_taken_released (E : Env V S) (u : UNION V) (h : 0 < u.ref)
    (model : Except Err Space) (now : Except Err (UNION V))
    (hnow : (UNION.align_params_taken E { u with ref := u.ref + 1 } model).same = true →
      now = .ok { u with ref := u.ref + 1 }) :
    (UNION.align_params_taken E { u with ref := u.ref + 1 } model).released now = some u := by
  cases model with
  | error e => simp [UNION.align_params_taken, UNION.Taken.released, UNION.free_copy u h]
  | ok m =>
    by_cases hm : isl_space_match u.space m = true
    · have hn := hnow (by simp [UNION.align_params_taken, hm])
      simp [UNION.align_params_taken, UNION.Taken.released, hm, hn, UNION.free_copy u h]
    · simp [UNION.align_params_taken, UNION.Taken.released, hm, UNION.free_copy u h]

theorem UNION.align_params_taken_same (E : Env V S) (u : UNION V) (model : Except Err Space)
    (h : (UNION.align_params_taken E u model).same = true) :
    (UNION.align_params_taken E u model).result = .ok u := by
  cases model with
  | error e => simp [UNION.align_params_taken] at h
  | ok m =>
    by_cases hm : isl_space_match u.space m = true
    · simp [UNION.align_params_taken, hm]
    · simp [UNION.align_params_taken, hm] at h

/-! ## Failed insertions -/

theorem UNION.add_part_generic_with_failed (E : Env V S) (add : UNION.Inserter V) (e : Err)
    (part : Except Err (PART V)) (d : Bool) :
    ∃ e1, UNION.add_part_generic_with E add (.error e) part d = .error e1 := by
  cases h : UNION.add_part_generic_with E add (.error e) part d with
  | error e1 => exact ⟨e1, rfl⟩
  | ok r => exact absurd h (UNION.add_part_generic_with_error E add e part d r)

theorem foldl_failed {α : Type} (g : Except Err (UNION V) → α → Except Err (UNION V))
    (hg : ∀ e x, ∃ e1, g (.error e) x = .error e1) (t : List α) (e : Err) :
    ∃ e1, t.foldl g (.error e) = .error e1 := by
  induction t generalizing e with
  | nil => exact ⟨e, rfl⟩
  | cons a t ih =>
    obtain ⟨e1, h1⟩ := hg e a
    simp only [List.foldl_cons, h1]
    exact ih e1

theorem foldl_failed_at {α : Type} (g : Except Err (UNION V) → α → Except Err (UNION V))
    (hg : ∀ e x, ∃ e1, g (.error e) x = .error e1) (pre post : List α) (a : α)
    (init : Except Err (UNION V)) (h : ∃ e, g (pre.foldl g init) a = .error e) :
    ∃ e1, (pre ++ a :: post).foldl g init = .error e1 := by
  obtain ⟨e, he⟩ := h
  rw [List.foldl_append, List.foldl_cons, he]
  exact foldl_failed g hg post e

/-! ## Rebuilding traversals -/

theorem UNION.collect_aux (E : Env V S) (g : PART V → Option (Except Err (PART V)))
    (fn : PART V → Except Err (UNION V) → isl_stat × PART V × Except Err (UNION V))
    (hskip : ∀ pw res, g pw = none → fn pw res = (.ok (), pw, res))
    (hins : ∀ pw r res x, g pw = some r → UNION.add_PARTS E res r = .ok x →
      fn pw res = (.ok (), pw, .ok x))
    (ty : Option Fold) (sp : Space) (rest pre : List (Entry (PART V)))
    (hpw : (pre ++ rest).Pairwise (fun a b => a.data.dim.tin ≠ b.data.dim.tin))
    (hok : ∀ e ∈ pre ++ rest, ∀ r, g e.data = some r →
      ∃ p b, r = .ok p ∧ p.dim.params = sp.params ∧ p.dim.tin = e.data.dim.tin ∧
        PART.IS_ZERO E p = .ok b) :
    isl_hash_table_foreach fn rest
        (.ok { ref := 1, type := ty, space := sp,
               table := pre.filterMap (UNION.collected_entry E g) }) =
      (.ok (), rest,
        .ok { ref := 1, type := ty, space := sp,
              table := (pre ++ rest).filterMap (UNION.collected_entry E g) }) := by
  induction rest generalizing pre with
  | nil => simp [isl_hash_table_foreach]
  | cons a rest ih =>
    have ha : a ∈ pre ++ a :: rest := by simp
    have hstep : fn a.data
        (.ok { ref := 1, type := ty, space := sp,
               table := pre.filterMap (UNION.collected_entry E g) }) =
        (.ok (), a.data,
          .ok { ref := 1, type := ty, space := sp,
                table := (pre ++ [a]).filterMap (UNION.collected_entry E g) }) := by
      cases hg : g a.data with
      | none =>
        rw [hskip _ _ hg]
        simp [List.filterMap_append, UNION.collected_entry, hg]
      | some r =>
        obtain ⟨p, b, hr, hps, htin, hz⟩ := hok a ha r hg
        subst hr
        have hadd := UNION.InsCore_fuel E 3
          { ref := 1, type := ty, space := sp,
            table := pre.filterMap (UNION.collected_entry E g) } p rfl hps
        have hadd2 : UNION.add_PARTS E
            (.ok { ref := 1, type := ty, space := sp,
                   table := pre.filterMap (UNION.collected_entry E g) }) (.ok p) = _ := hadd
        rw [hz] at hadd2
        cases b with
        | true =>
          rw [hins _ _ _ _ hg hadd2]
          simp [List.filterMap_append, UNION.collected_entry, hg, hz]
        | false =>
          simp only at hadd2
          have hno : ∀ x ∈ pre.filterMap (UNION.collected_entry E g),
              x.data.dim.tin ≠ p.dim.tin := by
            intro x hx
            rw [List.mem_filterMap] at hx
            obtain ⟨e, he, hxe⟩ := hx
            rw [List.pairwise_append] at hpw
            have hne := hpw.2.2 e he a (List.mem_cons_self _ _)
            unfold UNION.collected_entry at hxe
            cases hge : g e.data with
            | none => simp [hge] at hxe
            | some r1 =>
              obtain ⟨p1, b1, hr1, -, htin1, -⟩ := hok e (List.mem_append_left _ he) r1 hge
              subst hr1
              simp only [hge] at hxe
              by_cases hz1 : PART.IS_ZERO E p1 = .ok false
              · simp only [hz1, if_true, Option.some.injEq] at hxe
                subst hxe
                simp only
                rw [htin, htin1]
                exact hne
              · simp [hz1] at hxe
          rw [UNION.add_part_core_fresh E _ p true (lookup_none_of_tin_ne _ _ _ hno)] at hadd2
          rw [hins _ _ _ _ hg hadd2]
          simp [List.filterMap_append, UNION.collected_entry, hg, hz]
    have := ih (pre ++ [a]) (by simpa using hpw) (by simpa using hok)
    simp only [isl_hash_table_foreach, hstep]
    simp only [List.append_assoc, List.singleton_append] at this
    rw [this]

theorem UNION.collected_entry_some (E : Env V S) (g : PART V → Option (Except Err (PART V)))
    (e x : Entry (PART V)) :
    UNION.collected_entry E g e = some x ↔
      g e.data = some (.ok x.data) ∧ PART.IS_ZERO E x.data = .ok false ∧
        x.hash = isl_space_get_domain_hash E x.data.dim := by
  unfold UNION.collected_entry
  constructor
  · intro h
    cases hg : g e.data with
    | none => simp [hg] at h
    | some r =>
      cases r with
      | error err => simp [hg] at h
      | ok p =>
        simp only [hg] at h
        by_cases hz : PART.IS_ZERO E p = .ok false
        · simp only [hz, if_true, Option.some.injEq] at h
          subst h
          exact ⟨rfl, hz, rfl⟩
        · simp [hz] at h
  · rintro ⟨hg, hz, hh⟩
    simp only [hg, hz, if_true, Option.some.injEq]
    cases x
    simp_all

theorem pairwise_key_unique {α β : Type} (f : α → β) (l : List α)
    (h : l.Pairwise (fun a b => f a ≠ f b)) (a b : α) (ha : a ∈ l) (hb : b ∈ l)
    (hab : f a = f b) : a = b := by
  induction l with
  | nil => simp at ha
  | cons x t ih =>
    rw [List.pairwise_cons] at h
    rcases List.mem_cons.1 ha with rfl | ha1
    · rcases List.mem_cons.1 hb with rfl | hb1
      · rfl
      · exact absurd hab (h.1 b hb1)
    · rcases List.mem_cons.1 hb with rfl | hb1
      · exact absurd hab.symm (h.1 a ha1)
      · exact ih h.2 ha1 hb1

theorem USet.find_iff (E : Env V S) (uset : USet S) (hinv : USet.Inv E uset) (space : Space)
    (s : Entry (ISet S)) :
    (∃ i, isl_hash_table_find uset.table (isl_space_get_hash E space)
        (fun set => UNION.set_has_dim set space) false = some (.slot i s)) ↔
      s ∈ uset.table ∧ s.data.dim = space := by
  unfold isl_hash_table_find
  constructor
  · rintro ⟨i, h⟩
    cases hl : isl_hash_table_lookup uset.table (isl_space_get_hash E space)
        (fun set => UNION.set_has_dim set space) with
    | none => simp [hl] at h
    | some r =>
      obtain ⟨j, x⟩ := r
      simp only [hl, Option.some.injEq, EntryRef.slot.injEq] at h
      obtain ⟨-, rfl⟩ := h
      have h1 := isl_hash_table_lookup_some _ _ _ _ _ hl
      exact ⟨List.getElem?_mem h1.1, by simpa [UNION.set_has_dim] using h1.2.2⟩
  · rintro ⟨hs, hd⟩
    cases hl : isl_hash_table_lookup uset.table (isl_space_get_hash E space)
        (fun set => UNION.set_has_dim set space) with
    | none =>
      rw [isl_hash_table_lookup_eq_none] at hl
      exact absurd ⟨by rw [hinv.1 s hs, hd], by simp [UNION.set_has_dim, hd]⟩ (hl s hs)
    | some r =>
      obtain ⟨j, x⟩ := r
      have h1 := isl_hash_table_lookup_some _ _ _ _ _ hl
      have hx : x ∈ uset.table := List.getElem?_mem h1.1
      have hxd : x.data.dim = space := by simpa [UNION.set_has_dim] using h1.2.2
      have : x = s := pairwise_key_unique (fun e : Entry (ISet S) => e.data.dim) _ hinv.2 x s hx hs
        (hxd.trans hd.symm)
      subst this
      exact ⟨j, rfl⟩

theorem UNION.domain_matched_some (E : Env V S) (uset : USet S) (hinv : USet.Inv E uset)
    (fn : UNION.SetOp V S) (pw : PART V) (r : Except Err (PART V)) :
    UNION.domain_matched E uset fn pw = some r ↔
      ∃ s ∈ uset.table, s.data.dim = PART.get_domain_space pw ∧ r = fn pw s.data := by
  unfold UNION.domain_matched
  constructor
  · intro h
    cases hf : isl_hash_table_find uset.table (isl_space_get_hash E (PART.get_domain_space pw))
        (fun set => UNION.set_has_dim set (PART.get_domain_space pw)) false with
    | none => simp [hf] at h
    | some ref =>
      cases ref with
      | fresh hh => simp [hf] at h
      | slot i s =>
        simp only [hf, Option.some.injEq] at h
        have := (USet.find_iff E uset hinv (PART.get_domain_space pw) s).1 ⟨i, hf⟩
        exact ⟨s, this.1, this.2, h.symm⟩
  · rintro ⟨s, hs, hd, rfl⟩
    obtain ⟨i, hf⟩ := (USet.find_iff E uset hinv (PART.get_domain_space pw) s).2 ⟨hs, hd⟩
    simp [hf]

theorem isl_space_drop_dims_ok (s sp : Space) (first n : Nat)
    (h : isl_space_drop_dims s .param first n = .ok sp) :
    sp.params = s.params.take first ++ s.params.drop (first + n) ∧ sp.tin = s.tin ∧
      sp.tout = s.tout := by
  unfold isl_space_drop_dims at h
  by_cases hb : first + n ≤ s.params.length
  · simp only [hb, if_true, Except.ok.injEq] at h
    subst h
    exact ⟨rfl, rfl, rfl⟩
  · simp [hb] at h

theorem isl_space_set_dim_name_ok (s sp : Space) (pos name : Nat)
    (h : isl_space_set_dim_name s .param pos name = .ok sp) :
    sp.params = s.params.set pos name ∧ sp.tin = s.tin ∧ sp.tout = s.tout := by
  unfold isl_space_set_dim_name at h
  by_cases hb : pos < s.params.length
  · simp only [hb, if_true, Except.ok.injEq] at h
    subst h
    exact ⟨rfl, rfl, rfl⟩
  · simp [hb] at h

theorem PART.drop_dims_dim (E : Env V S) (pw p : PART V) (first n : Nat)
    (h : PART.drop_dims E pw .param first n = .ok p) :
    isl_space_drop_dims pw.dim .param first n = .ok p.dim := by
  unfold PART.drop_dims at h
  cases hs : isl_space_drop_dims pw.dim .param first n with
  | error e => simp [hs] at h
  | ok sp =>
    simp only [hs] at h
    cases hv : E.drop_dims pw first n with
    | error e => simp [hv, Except.map] at h
    | ok v =>
      simp only [hv, Except.map, Except.ok.injEq] at h
      subst h
      rfl

theorem PART.set_dim_name_dim (E : Env V S) (pw p : PART V) (pos name : Nat)
    (h : PART.set_dim_name E pw .param pos name = .ok p) :
    isl_space_set_dim_name pw.dim .param pos name = .ok p.dim := by
  unfold PART.set_dim_name at h
  cases hs : isl_space_set_dim_name pw.dim .param pos name with
  | error e => simp [hs] at h
  | ok sp =>
    simp only [hs] at h
    cases hv : E.set_dim_name pw pos name with
    | error e => simp [hv, Except.map] at h
    | ok v =>
      simp only [hv, Except.map, Except.ok.injEq] at h
      subst h
      rfl

theorem pairN_inv : UNION.Inv intEnv pairN := by
  refine ⟨?_, ?_⟩
  · intro e he
    simp only [pairN, List.mem_cons, List.mem_singleton, List.not_mem_nil, or_false] at he
    rcases he with rfl | rfl <;> exact ⟨rfl, rfl⟩
  · simp [pairN, spaceD]

theorem UNION.rebuild_params (E : Env V S) (u : UNION V) (hinv : UNION.Inv E u)
    (sp : Space) (f : PART V → Except Err (PART V))
    (fn : Except Err (PART V) → Except Err (UNION V) → isl_stat × Except Err (UNION V))
    (hfn : ∀ pw res x, UNION.add_PARTS E res (f pw) = .ok x → fn (.ok pw) res = (.ok (), .ok x))
    (hok : ∀ e ∈ u.table, ∃ p b, f e.data = .ok p ∧ p.dim.params = sp.params ∧
      p.dim.tin = e.data.dim.tin ∧ PART.IS_ZERO E p = .ok b) :
    UNION.foreach_PARTS (.ok u) fn (UNION.alloc_same_size_on_space E u sp) =
      (.ok (), .ok { ref := 1, type := if E.HAS_TYPE then u.type else none,
                     space := isl_space_params sp,
                     table := u.table.filterMap
                       (UNION.collected_entry E (fun pw => some (f pw))) }) := by
  have h := UNION.collect_aux E (fun pw => some (f pw)) (UNION.call_on_copy fn)
    (by intro pw res hg; simp at hg)
    (by
      intro pw r res x hg hadd
      simp only [Option.some.injEq] at hg
      subst hg
      simp [UNION.call_on_copy, PART.copy, hfn pw res x hadd])
    (if E.HAS_TYPE then u.type else none) (isl_space_params sp) u.table []
    (by simpa using hinv.2)
    (by
      intro e he r hg
      simp only [Option.some.injEq] at hg
      subst hg
      obtain ⟨p, b, hp, hps, htin, hz⟩ := hok e (by simpa using he)
      exact ⟨p, b, hp, by simpa [isl_space_params] using hps, htin, hz⟩)
  simp only [List.filterMap_nil, List.nil_append] at h
  simp only [UNION.foreach_PARTS, UNION.alloc_same_size_on_space, UNION.alloc, h]

/-! ## The claims -/

/-- C1, evaluated on the code: the union holds the payload `1` over a domain and
the non-zero part `-1` over the same domain and range is added with
`disjoint = false`.  The union sum of the two payloads is the zero element, yet
`add_part_generic` returns a union that still has its entry over the domain, now
holding the zero element: the second zero test looks at the added part instead
of the sum, so the entry is not removed and the entry count stays `1`. -/
theorem add_part_generic_zero_sum_kept :
    PART.union_add_ intEnv (.ok { dim := spaceD 5, val := 1 })
        (.ok { dim := spaceD 5, val := -1 }) = .ok { dim := spaceD 5, val := 0 } ∧
      PART.IS_ZERO intEnv { dim := spaceD 5, val := 0 } = .ok true ∧
      PART.IS_ZERO intEnv { dim := spaceD 5, val := -1 } = .ok false ∧
      UNION.add_part_generic intEnv (.ok (single 1 5 1))
        (.ok { dim := spaceD 5, val := -1 }) false = .ok (single 1 5 0) ∧
      UNION.n_PARTS (UNION.add_part_generic intEnv (.ok (single 1 5 1))
        (.ok { dim := spaceD 5, val := -1 }) false) = 1 := by
  decide

/-- C2, evaluated on the code: the first union holds an entry over a domain with
range `5`, the second holds an entry over the same domain with range `6`, both
over the same parameters.  `match_bin_op` with the difference of payloads, `sub`,
and `add` in a family without a zero default return the empty union, not the
invalid-argument error: the lookup without `reserve` reports the entry of the
second union as not found, so the pair is skipped and the test of the ranges
that `match_bin_entry` contains, which is false on this pair, is never reached.
On the same operands the lookup with `reserve` and the union sum (`add` in a
zero-default family) do fail with the invalid-argument error. -/
theorem match_bin_op_range_mismatch_no_error :
    (single 1 5 1).table = [{ hash := 2, data := { dim := spaceD 5, val := 1 } }] ∧
      (single 1 6 1).table = [{ hash := 2, data := { dim := spaceD 6, val := 1 } }] ∧
      (spaceD 5).tin = (spaceD 6).tin ∧ (spaceD 5).tout ≠ (spaceD 6).tout ∧
      UNION.match_bin_op intEnv (.ok (single 1 5 1)) (.ok (single 1 6 1)) (PART.sub intEnv) =
        .ok emptyN ∧
      UNION.sub intEnv (.ok (single 1 5 1)) (.ok (single 1 6 1)) = .ok emptyN ∧
      plainEnv.DEFAULT_IS_ZERO = false ∧
      UNION.add plainEnv (.ok (single 1 5 1)) (.ok (single 1 6 1)) = .ok emptyN ∧
      UNION.find_part_entry intEnv (.ok (single 1 6 1)) (spaceD 5) false = .ok none ∧
      isl_space_tuple_is_equal (spaceD 5) .out (spaceD 6) .out = false ∧
      UNION.find_part_entry intEnv (.ok (single 1 6 1)) (spaceD 5) true = .error .invalid ∧
      UNION.add intEnv (.ok (single 1 5 1)) (.ok (single 1 6 1)) = .error .invalid := by
  decide

/-- The skip behind C2, for all inputs: for unions `u1` and `u2` over the same
parameters, where `u2` satisfies its invariant, an entry `e` of `u1` and an
entry `e2` of `u2` over the same domain with different ranges are not combined
and raise no error: the
traversal step of `match_bin_entry` on `e` succeeds and leaves the result being
built as it is, and `match_bin_op` returns what it returns on `u1` without the
entry `e`. -/
theorem match_bin_op_range_mismatch_skipped (E : Env V S) (u1 u2 : UNION V)
    (fn : UNION.BinOp V) (pre post : List (Entry (PART V))) (e e2 : Entry (PART V))
    (hal : u1.space.params = u2.space.params) (hinv : UNION.Inv E u2)
    (h1 : u1.table = pre ++ e :: post) (he2 : e2 ∈ u2.table)
    (hp : e.data.dim.params = u2.space.params) (htin : e.data.dim.tin = e2.data.dim.tin)
    (hout : e.data.dim.tout ≠ e2.data.dim.tout) :
    (∀ res, UNION.match_bin_entry E fn e.data { u2 := u2, res := res } =
        (.ok (), e.data, { u2 := u2, res := res })) ∧
      UNION.match_bin_op E (.ok u1) (.ok u2) fn =
        UNION.match_bin_op E (.ok { u1 with table := pre ++ post }) (.ok u2) fn := by
  constructor
  · intro res
    exact UNION.match_bin_entry_mismatch E fn e.data _ e2 hinv he2 hp htin hout
  · rw [UNION.match_bin_op_aligned E u1 u2 fn hal,
      UNION.match_bin_op_aligned E { u1 with table := pre ++ post } u2 fn hal, h1]
    have hskip := isl_hash_table_foreach_skip
      (fun data : UNION.match_bin_data V => data.u2 = u2) (UNION.match_bin_entry E fn)
      (fun a s hs => (UNION.match_bin_entry_u2 E fn a s).trans hs) e
      (fun s hs => UNION.match_bin_entry_mismatch E fn e.data s e2 (by rw [hs]; exact hinv)
        (by rw [hs]; exact he2) (by rw [hs]; exact hp) htin hout)
      pre post { u2 := u2, res := UNION.alloc_same_size E u1 } rfl
    have hres : UNION.alloc_same_size E ({ u1 with table := pre ++ post } : UNION V) =
        UNION.alloc_same_size E u1 := rfl
    rw [hres]
    simp only
    rcases hf1 : isl_hash_table_foreach (UNION.match_bin_entry E fn) (pre ++ e :: post)
      { u2 := u2, res := UNION.alloc_same_size E u1 } with ⟨st1, es1, d1⟩
    rcases hf2 : isl_hash_table_foreach (UNION.match_bin_entry E fn) (pre ++ post)
      { u2 := u2, res := UNION.alloc_same_size E u1 } with ⟨st2, es2, d2⟩
    rw [hf1, hf2] at hskip
    simp only at hskip
    obtain ⟨rfl, rfl⟩ := hskip
    cases st1 <;> rfl

/-- An instance of the skip behind C2: of the two entries of the first union, the
one over the domain tuple `1` meets an entry of range `6` in the second union. -/
theorem match_bin_op_range_mismatch_skipped_witness :
    (∀ res, UNION.match_bin_entry intEnv (PART.sub intEnv) { dim := spaceD 5, val := 1 }
        { u2 := single 1 6 1, res := res } =
        (.ok (), { dim := spaceD 5, val := 1 }, { u2 := single 1 6 1, res := res })) ∧
      UNION.match_bin_op intEnv (.ok pairN) (.ok (single 1 6 1)) (PART.sub intEnv) =
        UNION.match_bin_op intEnv
          (.ok { pairN with
            table := [] ++ [{ hash := 3, data := { dim := { params := [7], tin := some 2,
                                                            tout := some 5 }, val := 4 } }] })
          (.ok (single 1 6 1)) (PART.sub intEnv) :=
  match_bin_op_range_mismatch_skipped intEnv pairN (single 1 6 1) (PART.sub intEnv) []
    [{ hash := 3, data := { dim := { params := [7], tin := some 2, tout := some 5 }, val := 4 } }]
    { hash := 2, data := { dim := spaceD 5, val := 1 } }
    { hash := 2, data := { dim := spaceD 6, val := 1 } }
    rfl (single_inv 1 6 1) rfl (by simp [single]) rfl rfl (by decide)

/-- C4, as stated, fails: the union holds one non-zero entry and the union of sets
has a set over its domain that covers it; the difference is the zero element,
which the insert discards, so the result of `subtract_domain` has no entry where
the argument has one. -/
theorem subtract_domain_drops_zero_entry :
    UNION.n_PARTS (.ok (single 1 5 1)) = 1 ∧
      UNION.subtracted intEnv coverD { dim := spaceD 5, val := 1 } =
        .ok { dim := spaceD 5, val := 0 } ∧
      PART.IS_ZERO intEnv { dim := spaceD 5, val := 0 } = .ok true ∧
      UNION.subtract_domain intEnv (.ok (single 1 5 1)) (.ok coverD) = .ok emptyN ∧
      UNION.n_PARTS (UNION.subtract_domain intEnv (.ok (single 1 5 1)) (.ok coverD)) = 0 := by
  decide

/-- C4, amended: for a union `u` that satisfies its invariant and a union of sets
`uset`, when the subtraction and the zero test succeed on every entry,
`subtract_domain` returns a new union over the parameters of `u` that holds, in
the order of `u`, exactly the entries of `u` whose payload with the matching set
of `uset` (the empty set when there is none) subtracted from its domain is not
the zero element, each with that payload; an entry whose difference is the zero
element is dropped, so the result has at most as many entries as `u`. -/
theorem subtract_domain_keeps_nonzero (E : Env V S) (u : UNION V) (uset : USet S)
    (hinv : UNION.Inv E u)
    (hok : ∀ e ∈ u.table, ∃ p b, UNION.subtracted E uset e.data = .ok p ∧
      PART.IS_ZERO E p = .ok b) :
    UNION.subtract_domain E (.ok u) (.ok uset) =
        .ok { ref := 1, type := if E.HAS_TYPE then u.type else none,
              space := isl_space_params u.space,
              table := u.table.filterMap (UNION.subtracted_entry E uset) } ∧
      UNION.n_PARTS (UNION.subtract_domain E (.ok u) (.ok uset)) ≤ UNION.n_PARTS (.ok u) := by
  have h : UNION.subtract_domain E (.ok u) (.ok uset) =
      .ok { ref := 1, type := if E.HAS_TYPE then u.type else none,
            space := isl_space_params u.space,
            table := u.table.filterMap (UNION.subtracted_entry E uset) } := by
    rw [UNION.subtract_domain_eq_foldl]
    have := UNION.subtract_domain_aux E (UNION.add_PARTS E) (UNION.InsCore_fuel E 3) uset
      (if E.HAS_TYPE then u.type else none) (isl_space_params u.space) u.table []
      (by simpa using hinv) hok
    simpa [UNION.alloc_same_size, UNION.alloc_same_size_on_space, UNION.alloc] using this
  refine ⟨h, ?_⟩
  rw [h]
  simp only [UNION.n_PARTS]
  exact List.length_filterMap_le _ _

/-- Witness of C4 (amended): of the two entries of the union, the one over the
domain tuple `1` is covered by the set of `coverD` and dropped, the one over the
domain tuple `2` is kept as it is. -/
theorem subtract_domain_keeps_nonzero_witness :
    UNION.subtract_domain intEnv (.ok pairN) (.ok coverD) =
        .ok { ref := 1, type := if intEnv.HAS_TYPE then pairN.type else none,
              space := isl_space_params pairN.space,
              table := pairN.table.filterMap (UNION.subtracted_entry intEnv coverD) } ∧
      UNION.n_PARTS (UNION.subtract_domain intEnv (.ok pairN) (.ok coverD)) ≤
        UNION.n_PARTS (.ok pairN) :=
  subtract_domain_keeps_nonzero intEnv pairN coverD
    (by
      refine ⟨?_, ?_⟩
      · intro e he
        simp only [pairN, List.mem_cons, List.mem_singleton, List.not_mem_nil, or_false] at he
        rcases he with rfl | rfl <;> exact ⟨rfl, rfl⟩
      · simp [pairN, spaceD])
    (by
      intro e he
      simp only [pairN, List.mem_cons, List.mem_singleton, List.not_mem_nil, or_false] at he
      rcases he with rfl | rfl
      · exact ⟨{ dim := spaceD 5, val := 0 }, true, by decide, by decide⟩
      · exact ⟨{ dim := { params := [7], tin := some 2, tout := some 5 }, val := 4 }, false,
          by decide, by decide⟩)

/-- C5: every union reachable from the zero union by successful insertions
(disjoint or not), entry removals, `union_add_`, `match_bin_op`, `dup` (and
`copy`, `cow`) has at most one stored entry per domain tuple, hence at most one
per pair of domain and range tuple; its entries all carry the parameters of the
union. -/
theorem reachable_one_entry_per_domain (E : Env V S) (u : UNION V)
    (h : UNION.Reachable E u) :
    u.table.Pairwise (fun a b => a.data.dim.tin ≠ b.data.dim.tin) ∧
      (∀ d, u.table.countP (fun e => decide (e.data.dim.tin = d)) ≤ 1) ∧
      (∀ d r, u.table.countP
        (fun e => decide (e.data.dim.tin = d) && decide (e.data.dim.tout = r)) ≤ 1) ∧
      (∀ e ∈ u.table, e.data.dim.params = u.space.params) := by
  have hinv := UNION.Reachable.inv E u h
  refine ⟨hinv.2, fun d => pairwise_countP_le_one u.table d hinv.2, ?_,
    fun e he => (hinv.1 e he).1⟩
  intro d r
  refine le_trans ?_ (pairwise_countP_le_one u.table d hinv.2)
  apply List.countP_mono_left
  intro e _ he
  simp only [Bool.and_eq_true, decide_eq_true_eq] at he
  simpa using he.1

/-- Witness of C5: the union built by inserting one part into the zero union and
summing a second part over the same domain into it. -/
theorem reachable_one_entry_per_domain_witness :
    UNION.Reachable intEnv (single 1 5 4) ∧
      (single 1 5 4).table.Pairwise (fun a b => a.data.dim.tin ≠ b.data.dim.tin) ∧
      (∀ d, (single 1 5 4).table.countP (fun e => decide (e.data.dim.tin = d)) ≤ 1) ∧
      (∀ d r, (single 1 5 4).table.countP
        (fun e => decide (e.data.dim.tin = d) && decide (e.data.dim.tout = r)) ≤ 1) ∧
      (∀ e ∈ (single 1 5 4).table, e.data.dim.params = (single 1 5 4).space.params) :=
  have hr : UNION.Reachable intEnv (single 1 5 4) :=
    .add_part (single 1 5 1) { dim := spaceD 5, val := 3 } false _
      (.add_part emptyN { dim := spaceD 5, val := 1 } true _
        (.zero spaceN none emptyN (by decide)) (by decide))
      (by decide)
  ⟨hr, reachable_one_entry_per_domain intEnv (single 1 5 4) hr⟩

/-- C6, evaluated on the code: the sum of a union holding `1` and a union holding
`-1` over the domain with range `5` keeps an entry holding the zero element (the
wrong zero test of C1); a second reference to it is taken and the non-zero part
`3` over the same domain with range `6` is added.  The copy-on-write reinsertion
discards the zero entry, the lookup then finds no entry over the domain, and
`add_part_generic` accepts the part for both values of `disjoint` instead of
failing with the invalid-argument error.  On the exclusively owned union with
the same table it fails as the claim says. -/
theorem add_part_generic_range_mismatch_accepted :
    UNION.copy (UNION.union_add_ intEnv (.ok (single 1 5 1)) (.ok (single 1 5 (-1)))) =
        .ok (single 2 5 0) ∧
      (spaceD 6).tin = (spaceD 5).tin ∧ (spaceD 6).tout ≠ (spaceD 5).tout ∧
      PART.IS_ZERO intEnv { dim := spaceD 6, val := 3 } = .ok false ∧
      UNION.add_part_generic intEnv (.ok (single 2 5 0)) (.ok { dim := spaceD 6, val := 3 })
        true = .ok (single 1 6 3) ∧
      UNION.add_part_generic intEnv (.ok (single 2 5 0)) (.ok { dim := spaceD 6, val := 3 })
        false = .ok (single 1 6 3) ∧
      UNION.add_part_generic intEnv (.ok (single 1 5 0)) (.ok { dim := spaceD 6, val := 3 })
        true = .error .invalid ∧
      UNION.add_part_generic intEnv (.ok (single 1 5 0)) (.ok { dim := spaceD 6, val := 3 })
        false = .error .invalid := by
  decide

/-- The claim C6 where the wrong zero test has left no trace: for a union `u`
(exclusively owned, or well-formed) that holds an entry `e` over a domain and a
non-zero part `p` with the parameters of `u` over the same domain but with a
different range, `add_part_generic` fails with the invalid-argument error for
both values of `disjoint`: no union is returned, so the stored entry is neither
overwritten nor summed. -/
theorem add_part_generic_range_mismatch (E : Env V S) (u : UNION V) (e : Entry (PART V))
    (p : PART V) (hinv : UNION.Inv E u) (hu : u.ref = 1 ∨ UNION.WF E u) (he : e ∈ u.table)
    (hz : PART.IS_ZERO E p = .ok false) (hp : p.dim.params = u.space.params)
    (htin : p.dim.tin = e.data.dim.tin) (hout : p.dim.tout ≠ e.data.dim.tout) :
    UNION.add_part_generic E (.ok u) (.ok p) true = .error .invalid ∧
      UNION.add_part_generic E (.ok u) (.ok p) false = .error .invalid := by
  obtain ⟨i, hl⟩ := TableInv_lookup E _ u.table hinv e he p.dim hp htin.symm
  constructor
  · rw [UNION.add_part_generic_wf E u p true hz hp hu]
    exact UNION.add_part_core_mismatch E _ p true i e hl (fun h => hout h.symm)
  · rw [UNION.add_part_generic_wf E u p false hz hp hu]
    exact UNION.add_part_core_mismatch E _ p false i e hl (fun h => hout h.symm)

/-- An instance of the claim C6: an entry with range `5` and a part with range `6`
over the same domain. -/
theorem add_part_generic_range_mismatch_witness :
    UNION.add_part_generic intEnv (.ok (single 1 5 1)) (.ok { dim := spaceD 6, val := 3 }) true =
        .error .invalid ∧
      UNION.add_part_generic intEnv (.ok (single 1 5 1)) (.ok { dim := spaceD 6, val := 3 })
        false = .error .invalid :=
  add_part_generic_range_mismatch intEnv (single 1 5 1)
    { hash := 2, data := { dim := spaceD 5, val := 1 } } { dim := spaceD 6, val := 3 }
    (single_inv 1 5 1) (Or.inl rfl) (by simp [single]) (by decide) rfl rfl (by decide)

/-- C7, evaluated on the code: the sum of a union holding `1` and a union holding
`-1` over the domain tuple `1` keeps an entry holding the zero element (the
wrong zero test of C1); a second reference to it is taken and the non-zero part
`4` over the domain tuple `2`, over which the union has no entry, is added.  The
insertion succeeds for either value of `disjoint`, but the copy-on-write
reinsertion has discarded the zero entry: the result has one entry, as many as
the union, not one more.  On the exclusively owned union with the same table the
result has two entries, as the claim says. -/
theorem add_part_generic_new_domain_count_kept :
    UNION.copy (UNION.union_add_ intEnv (.ok (single 1 5 1)) (.ok (single 1 5 (-1)))) =
        .ok (single 2 5 0) ∧
      (∀ e ∈ (single 2 5 0).table, e.data.dim.tin ≠ (entryN 2 4).data.dim.tin) ∧
      PART.IS_ZERO intEnv (entryN 2 4).data = .ok false ∧
      UNION.add_part_generic intEnv (.ok (single 2 5 0)) (.ok (entryN 2 4).data) true =
        .ok { ref := 1, type := none, space := spaceN, table := [entryN 2 4] } ∧
      UNION.add_part_generic intEnv (.ok (single 2 5 0)) (.ok (entryN 2 4).data) false =
        .ok { ref := 1, type := none, space := spaceN, table := [entryN 2 4] } ∧
      UNION.n_PARTS (.ok (single 2 5 0)) = 1 ∧
      UNION.n_PARTS (UNION.add_part_generic intEnv (.ok (single 2 5 0))
        (.ok (entryN 2 4).data) true) = 1 ∧
      UNION.n_PARTS (UNION.add_part_generic intEnv (.ok (single 1 5 0))
        (.ok (entryN 2 4).data) true) = 2 := by
  decide

/-- The claim C7 where the wrong zero test has left no trace: for a union `u`
(exclusively owned, or well-formed) without an entry over the domain of a
non-zero part `p` that has the parameters of `u`, `add_part_generic` succeeds for
either value of `disjoint`; the result has one entry more than `u`,
`extract_PARTS` of the result at the space of `p` is `p`, and at every space with
another domain or another range it returns what it returns on `u`. -/
theorem add_part_generic_new_domain (E : Env V S) (u : UNION V) (p : PART V) (d : Bool)
    (hz : PART.IS_ZERO E p = .ok false) (hp : p.dim.params = u.space.params)
    (hu : u.ref = 1 ∨ UNION.WF E u) (hno : ∀ e ∈ u.table, e.data.dim.tin ≠ p.dim.tin) :
    ∃ r, UNION.add_part_generic E (.ok u) (.ok p) d = .ok r ∧
      UNION.n_PARTS (.ok r) = UNION.n_PARTS (.ok u) + 1 ∧
      UNION.extract_PARTS E (.ok r) p.dim = .ok p ∧
      ∀ sp : Space, (sp.tin ≠ p.dim.tin ∨ sp.tout ≠ p.dim.tout) →
        UNION.extract_PARTS E (.ok r) sp = UNION.extract_PARTS E (.ok u) sp := by
  have key : ∀ r : UNION V, r.space = u.space → r.type = u.type →
      r.table = u.table ++ [{ hash := isl_space_get_domain_hash E p.dim, data := p }] →
      UNION.extract_PARTS E (.ok r) p.dim = .ok p ∧
      ∀ sp : Space, (sp.tin ≠ p.dim.tin ∨ sp.tout ≠ p.dim.tout) →
        UNION.extract_PARTS E (.ok r) sp = UNION.extract_PARTS E (.ok u) sp := by
    intro r hs ht htab
    constructor
    · rw [UNION.extract_PARTS_congr E u r hs ht, UNION.extract_space_of_params _ _ hp, htab,
        isl_hash_table_lookup_append_none _ _ _ _ (lookup_none_of_tin_ne _ _ _ hno)]
      simp [(has_same_domain_space_iff p p.dim).2 rfl]
    · intro sp hsp
      rw [UNION.extract_PARTS_congr E u r hs ht, UNION.extract_PARTS_eq, htab]
      have htup := UNION.extract_space_tuples u sp
      cases hl : isl_hash_table_lookup u.table
          (isl_space_get_domain_hash E (UNION.extract_space u sp))
          (fun q => UNION.has_same_domain_space q (UNION.extract_space u sp)) with
      | some r0 => rw [isl_hash_table_lookup_append_some _ _ _ _ _ hl]
      | none =>
        rw [isl_hash_table_lookup_append_none _ _ _ _ hl]
        by_cases hm : isl_space_get_domain_hash E p.dim =
            isl_space_get_domain_hash E (UNION.extract_space u sp) ∧
            UNION.has_same_domain_space p (UNION.extract_space u sp) = true
        · have htin : p.dim.tin = sp.tin := by
            rw [← htup.1]
            exact (has_same_domain_space_iff _ _).1 hm.2
          have hout : ¬ p.dim.tout = (UNION.extract_space u sp).tout := by
            rw [htup.2.1]
            rcases hsp with h | h
            · exact absurd htin.symm h
            · exact fun hc => h hc.symm
          simp [hm, hout]
        · simp [hm]
  refine ⟨{ u with ref := 1, table := u.table ++
    [{ hash := isl_space_get_domain_hash E p.dim, data := p }] }, ?_, ?_, key _ rfl rfl rfl⟩
  · rw [UNION.add_part_generic_wf E u p d hz hp hu]
    exact UNION.add_part_core_fresh E _ p d (lookup_none_of_tin_ne _ _ _ hno)
  · simp [UNION.n_PARTS]

/-- An instance of the claim C7: a part over the domain tuple `2` is added to a
shared union that holds an entry over the domain tuple `1`. -/
theorem add_part_generic_new_domain_witness :
    ∃ r, UNION.add_part_generic intEnv (.ok (single 2 5 1))
        (.ok { dim := { params := [7], tin := some 2, tout := some 5 }, val := 3 }) false =
          .ok r ∧
      UNION.n_PARTS (.ok r) = UNION.n_PARTS (.ok (single 2 5 1)) + 1 ∧
      UNION.extract_PARTS intEnv (.ok r) { params := [7], tin := some 2, tout := some 5 } =
        .ok { dim := { params := [7], tin := some 2, tout := some 5 }, val := 3 } ∧
      ∀ sp : Space, (sp.tin ≠ some 2 ∨ sp.tout ≠ some 5) →
        UNION.extract_PARTS intEnv (.ok r) sp =
          UNION.extract_PARTS intEnv (.ok (single 2 5 1)) sp :=
  add_part_generic_new_domain intEnv (single 2 5 1)
    { dim := { params := [7], tin := some 2, tout := some 5 }, val := 3 } false
    (by decide) rfl (Or.inr (single_wf 2 5 1 (by decide))) (by simp [single, spaceD])

/-- C8: for every union `u`, failed or not, and every part that is the zero
element, `add_part_generic` returns `u` itself for either value of `disjoint`:
the same entries, space, type and reference count, so no copy-on-write and no
realignment took place, and no error is raised that `u` did not carry. -/
theorem add_part_generic_zero_part (E : Env V S) (u : Except Err (UNION V)) (part : PART V)
    (disjoint : Bool) (hz : PART.IS_ZERO E part = .ok true) :
    UNION.add_part_generic E u (.ok part) disjoint = u := by
  rw [UNION.add_part_generic, UNION.add_part_generic_with_split, hz]

/-- Witness of C8: the zero part over a new domain and a shared union. -/
theorem add_part_generic_zero_part_witness :
    UNION.add_part_generic intEnv (.ok (single 2 5 1))
      (.ok { dim := { params := [8], tin := some 2, tout := some 5 }, val := 0 }) false =
        .ok (single 2 5 1) :=
  add_part_generic_zero_part intEnv (.ok (single 2 5 1))
    { dim := { params := [8], tin := some 2, tout := some 5 }, val := 0 } false (by decide)

/-- C9: for a union `u` and a space `sp` with the parameters of `u`: if `u` has no
entry with the domain and range of `sp`, `extract_PARTS` returns the zero element
over `sp`, with the type of `u` in families with `HAS_TYPE`; if `u` satisfies its
invariant and has an entry with the domain and range of `sp`, it returns the
payload of that entry.  The function only reads `u`. -/
theorem extract_PARTS_fallback (E : Env V S) (u : UNION V) (sp : Space)
    (hS : sp.params = u.space.params) :
    ((∀ e ∈ u.table, ¬ (e.data.dim.tin = sp.tin ∧ e.data.dim.tout = sp.tout)) →
        UNION.extract_PARTS E (.ok u) sp =
          .ok (PART.ZERO E sp (if E.HAS_TYPE then u.type else none))) ∧
      (∀ e ∈ u.table, UNION.Inv E u → e.data.dim.tin = sp.tin → e.data.dim.tout = sp.tout →
        UNION.extract_PARTS E (.ok u) sp = .ok e.data) := by
  constructor
  · intro hno
    rw [UNION.extract_PARTS_eq, UNION.extract_space_of_params _ _ hS]
    cases hl : isl_hash_table_lookup u.table (isl_space_get_domain_hash E sp)
        (fun p => UNION.has_same_domain_space p sp) with
    | none => rfl
    | some r =>
      obtain ⟨i, e⟩ := r
      have h1 := isl_hash_table_lookup_some _ _ _ _ _ hl
      have hne : ¬ e.data.dim.tout = sp.tout := fun hc =>
        hno e (List.getElem?_mem h1.1) ⟨(has_same_domain_space_iff _ _).1 h1.2.2, hc⟩
      simp [hne]
  · intro e he hinv htin hout
    rw [UNION.extract_PARTS_eq, UNION.extract_space_of_params _ _ hS]
    obtain ⟨i, hl⟩ := TableInv_lookup E _ u.table hinv e he sp hS htin
    simp [hl, hout]

/-- Witness of C9: the union with a single entry of range `5`, looked up over the
range `6` and over the range `5`. -/
theorem extract_PARTS_fallback_witness :
    UNION.extract_PARTS intEnv (.ok (single 1 5 1)) (spaceD 6) =
        .ok (PART.ZERO intEnv (spaceD 6) none) ∧
      UNION.extract_PARTS intEnv (.ok (single 1 5 1)) (spaceD 5) =
        .ok { dim := spaceD 5, val := 1 } :=
  ⟨(extract_PARTS_fallback intEnv (single 1 5 1) (spaceD 6) rfl).1 (by decide),
    (extract_PARTS_fallback intEnv (single 1 5 1) (spaceD 5) rfl).2
      { hash := 2, data := { dim := spaceD 5, val := 1 } } (by simp [single])
      (single_inv 1 5 1) rfl rfl⟩

/-- C10, evaluated on the code: `union_add_` of the union holding `1` over a
domain and the union holding `-1` over the same domain and range succeeds, and
its result has an entry over that domain, holding the zero element, where the
claim has no entry for a sum that is zero.  This is the defect of C1: the zero
test after the union sum looks at the added part, not at the sum. -/
theorem union_add_zero_sum_kept :
    UNION.union_add_ intEnv (.ok (single 1 5 1)) (.ok (single 1 5 (-1))) = .ok (single 1 5 0) ∧
      PART.union_add_ intEnv (.ok { dim := spaceD 5, val := 1 })
        (.ok { dim := spaceD 5, val := -1 }) = .ok { dim := spaceD 5, val := 0 } ∧
      PART.IS_ZERO intEnv { dim := spaceD 5, val := 0 } = .ok true ∧
      UNION.n_PARTS (UNION.union_add_ intEnv (.ok (single 1 5 1)) (.ok (single 1 5 (-1)))) = 1 ∧
      UNION.add intEnv (.ok (single 1 5 1)) (.ok (single 1 5 (-1))) = .ok (single 1 5 0) := by
  decide

/-- C11, evaluated on the code: the sum of a union holding `1` and a union holding
`-1` over the same space keeps an entry holding the zero element (the wrong zero
test of C1); a second reference to it is taken (as a comparison with the result
needs) and the zero union over its space is added.  The copy-on-write
reinsertion discards the zero entry, so the sum has no entry where the union
has one, and `plain_is_equal` of the sum and the union (which is left with one
reference) returns false.  On the exclusively owned union with the same table
`add` returns the union as it is. -/
theorem add_zero_loses_zero_entry :
    UNION.copy (UNION.union_add_ intEnv (.ok (single 1 5 1)) (.ok (single 1 5 (-1)))) =
        .ok (single 2 5 0) ∧
      intEnv.DEFAULT_IS_ZERO = true ∧
      UNION.add intEnv (.ok (single 2 5 0)) (UNION.ZERO intEnv (single 2 5 0).space none) =
        .ok emptyN ∧
      UNION.n_PARTS (.ok emptyN) = 0 ∧ UNION.n_PARTS (.ok (single 2 5 0)) = 1 ∧
      UNION.plain_is_equal intEnv false (.ok emptyN) (.ok (single 1 5 0)) = .ok false ∧
      UNION.add intEnv (.ok (single 1 5 0)) (UNION.ZERO intEnv (single 1 5 0).space none) =
        .ok (single 1 5 0) := by
  decide

/-- The claim C11 where the wrong zero test has left no trace: in a zero-default
family, for every union `u` that satisfies its invariant and is exclusively
owned, or shared and well-formed (no stored entry is the zero element), over a
payload whose structural equality is reflexive on
the entries of `u`: `add` of `u` and the zero union over the space of `u`
succeeds and returns `u` with the reference count `1` (the same space, type and
entries), and `plain_is_equal` of the result and `u` returns true, whether or
not the two are the same object. -/
theorem add_zero_identity (E : Env V S) (u : UNION V) (ty : Option Fold)
    (hdz : E.DEFAULT_IS_ZERO = true) (hinv : UNION.Inv E u) (hu : u.ref = 1 ∨ UNION.WF E u)
    (hrefl : ∀ e ∈ u.table, E.plain_is_equal e.data e.data = .ok true) :
    UNION.add E (.ok u) (UNION.ZERO E u.space ty) = .ok { u with ref := 1 } ∧
      ∀ same, UNION.plain_is_equal E same (.ok { u with ref := 1 }) (.ok u) = .ok true := by
  constructor
  · have hm : isl_space_match u.space (isl_space_params u.space) = true := by
      simp [isl_space_match, isl_space_params]
    have hm2 : isl_space_match (isl_space_params u.space) u.space = true := by
      simp [isl_space_match, isl_space_params]
    have hcow : UNION.cow E (.ok u) = .ok { u with ref := 1 } :=
      UNION.cow_with_wf E _ (UNION.InsCore_fuel E 3) u hu
    simp [UNION.add, hdz, UNION.union_add_, UNION.ZERO, UNION.alloc, UNION.align_params,
      UNION.align_params_with, UNION.get_space, Except.map, hm, hm2, hcow, UNION.foreach_PARTS,
      isl_hash_table_foreach]
  · intro same
    cases same with
    | true => rfl
    | false =>
      exact UNION.plain_is_equal_aligned_true E { u with ref := 1 } u rfl rfl
        (UNION.all_matches_refl E u _ hinv rfl hrefl)

/-- An instance of the claim C11: a shared well-formed union with one entry. -/
theorem add_zero_identity_witness :
    UNION.add intEnv (.ok (single 2 5 1)) (UNION.ZERO intEnv (single 2 5 1).space none) =
        .ok { single 2 5 1 with ref := 1 } ∧
      ∀ same, UNION.plain_is_equal intEnv same (.ok { single 2 5 1 with ref := 1 })
        (.ok (single 2 5 1)) = .ok true :=
  add_zero_identity intEnv (single 2 5 1) none rfl (single_inv 2 5 1)
    (Or.inr (single_wf 2 5 1 (by decide))) (by intro e _; simp [intEnv])

/-- C12: for unions `u1` and `u2` with the same parameters that satisfy their
invariant (at most one entry per domain tuple) and a payload operation `fn`
that, on an entry of `u1` and an entry of `u2` with the same domain and range
tuples, succeeds with a payload over their space whose zero test succeeds:
`match_bin_op(u1, u2, fn)` succeeds, and its entries are exactly the payloads
`fn(p1, p2)` that are not the zero element, for the entries `p1` of `u1` and
`p2` of `u2` with the same domain and range tuples (stored under the hash of
`p1`, in the order of `u1`); an entry without such a partner contributes
nothing, so the number of entries is at most the minimum of those of `u1` and
`u2`. -/
theorem match_bin_op_matched_entries (E : Env V S) (u1 u2 : UNION V) (fn : UNION.BinOp V)
    (hal : u1.space.params = u2.space.params) (h1 : UNION.Inv E u1) (h2 : UNION.Inv E u2)
    (hfn : ∀ e1 ∈ u1.table, ∀ e2 ∈ u2.table, e2.data.dim.tin = e1.data.dim.tin →
      e2.data.dim.tout = e1.data.dim.tout →
      ∃ r b, fn (.ok e1.data) (.ok e2.data) = .ok r ∧ r.dim = e1.data.dim ∧
        PART.IS_ZERO E r = .ok b) :
    ∃ res, UNION.match_bin_op E (.ok u1) (.ok u2) fn = .ok res ∧
      res.table = u1.table.filterMap (UNION.matched_entry E u2 fn) ∧
      (∀ x, x ∈ res.table ↔
        ∃ e1 ∈ u1.table, ∃ e2 ∈ u2.table, e2.data.dim.tin = e1.data.dim.tin ∧
          e2.data.dim.tout = e1.data.dim.tout ∧
          fn (.ok e1.data) (.ok e2.data) = .ok x.data ∧
          PART.IS_ZERO E x.data = .ok false ∧ x.hash = e1.hash) ∧
      UNION.n_PARTS (.ok res) ≤ min (UNION.n_PARTS (.ok u1)) (UNION.n_PARTS (.ok u2)) := by
  have haux := UNION.match_bin_aux E fn u2 (if E.HAS_TYPE then u1.type else none)
    (isl_space_params u1.space) u1.table [] (by simpa [isl_space_params] using h1)
    (by simpa using hfn)
  have hres : UNION.match_bin_op E (.ok u1) (.ok u2) fn =
      .ok { ref := 1, type := if E.HAS_TYPE then u1.type else none,
            space := isl_space_params u1.space,
            table := u1.table.filterMap (UNION.matched_entry E u2 fn) } := by
    rw [UNION.match_bin_op_aligned E u1 u2 fn hal]
    simp only [UNION.alloc_same_size, UNION.alloc_same_size_on_space, UNION.alloc]
    simp only [List.filterMap_nil, List.nil_append] at haux
    rw [haux]
  have hmem : ∀ x, x ∈ u1.table.filterMap (UNION.matched_entry E u2 fn) ↔
      ∃ e1 ∈ u1.table, ∃ e2 ∈ u2.table, e2.data.dim.tin = e1.data.dim.tin ∧
        e2.data.dim.tout = e1.data.dim.tout ∧
        fn (.ok e1.data) (.ok e2.data) = .ok x.data ∧
        PART.IS_ZERO E x.data = .ok false ∧ x.hash = e1.hash := by
    intro x
    rw [List.mem_filterMap]
    constructor
    · rintro ⟨e1, he1, hx⟩
      obtain ⟨e2, he2, h⟩ := UNION.matched_entry_some E u2 fn e1 x hx
      exact ⟨e1, he1, e2, he2, h⟩
    · rintro ⟨e1, he1, e2, he2, htin, hout, hr, hz, hh⟩
      refine ⟨e1, he1, ?_⟩
      rw [UNION.matched_entry_of_mem E u2 h2 fn e1 e2 x.data
        ((h1.1 e1 he1).1.trans hal) he2 htin hout hr hz, ← hh]
  refine ⟨_, hres, rfl, hmem, ?_⟩
  simp only [UNION.n_PARTS]
  refine le_min (List.length_filterMap_le _ _) ?_
  have hinv := UNION.match_bin_op_inv E u1 u2 _ fn hres
  refine List.length_le_of_nodup_key_subset _ u2.table (fun x => x.data.dim.tin)
    (fun e => e.data.dim.tin) ?_ ?_
  · rw [List.Nodup, List.pairwise_map]
    exact hinv.2
  · intro x hx
    obtain ⟨e1, he1, e2, he2, htin, hout, hr, -, -⟩ := (hmem x).1 hx
    obtain ⟨r, b, hr2, hdim, -⟩ := hfn e1 he1 e2 he2 htin hout
    rw [hr] at hr2
    cases hr2
    exact ⟨e2, he2, by simp only [htin, hdim]⟩

/-- Witness of C12: the difference of a union with two entries and a union with
one entry over the domain of the first. -/
theorem match_bin_op_matched_entries_witness :
    ∃ res, UNION.match_bin_op intEnv (.ok pairN) (.ok (single 1 5 3)) (PART.sub intEnv) =
        .ok res ∧
      res.table = pairN.table.filterMap
        (UNION.matched_entry intEnv (single 1 5 3) (PART.sub intEnv)) ∧
      (∀ x, x ∈ res.table ↔
        ∃ e1 ∈ pairN.table, ∃ e2 ∈ (single 1 5 3).table,
          e2.data.dim.tin = e1.data.dim.tin ∧ e2.data.dim.tout = e1.data.dim.tout ∧
          PART.sub intEnv (.ok e1.data) (.ok e2.data) = .ok x.data ∧
          PART.IS_ZERO intEnv x.data = .ok false ∧ x.hash = e1.hash) ∧
      UNION.n_PARTS (.ok res) ≤
        min (UNION.n_PARTS (.ok pairN)) (UNION.n_PARTS (.ok (single 1 5 3))) :=
  match_bin_op_matched_entries intEnv pairN (single 1 5 3) (PART.sub intEnv) rfl
    (by
      refine ⟨?_, ?_⟩
      · intro e he
        simp only [pairN, List.mem_cons, List.mem_singleton, List.not_mem_nil, or_false] at he
        rcases he with rfl | rfl <;> exact ⟨rfl, rfl⟩
      · simp [pairN, spaceD])
    (single_inv 1 5 3)
    (by
      intro e1 he1 e2 he2 _ _
      simp only [pairN, List.mem_cons, List.mem_singleton, List.not_mem_nil, or_false] at he1
      simp only [single, List.mem_singleton] at he2
      subst he2
      rcases he1 with rfl | rfl <;> exact ⟨_, _, rfl, rfl, rfl⟩)

/-- C13: for unions `u1` and `u2` that satisfy their invariant (at most one entry
per domain tuple) and have the same parameters, over a payload whose structural
equality never fails and is symmetric, `plain_is_equal` gives the same answer
in both orders, whether or not the two pointers are the same; and
`plain_is_equal` of a union and itself is true. -/
theorem plain_is_equal_symm_refl (E : Env V S) (u1 u2 : UNION V)
    (herr : ∀ a b, ∃ r, E.plain_is_equal a b = .ok r)
    (hsym : ∀ a b, E.plain_is_equal a b = E.plain_is_equal b a)
    (h1 : UNION.Inv E u1) (h2 : UNION.Inv E u2) (hal : u1.space.params = u2.space.params) :
    (∀ same, UNION.plain_is_equal E same (.ok u1) (.ok u2) =
        UNION.plain_is_equal E same (.ok u2) (.ok u1)) ∧
      UNION.plain_is_equal E true (.ok u1) (.ok u1) = .ok true := by
  refine ⟨?_, rfl⟩
  intro same
  cases same with
  | true => rfl
  | false =>
    by_cases hlen : u1.table.length = u2.table.length
    · rw [UNION.plain_is_equal_aligned E herr u1 u2 hal hlen,
        UNION.plain_is_equal_aligned E herr u2 u1 hal.symm hlen.symm]
      congr 1
      rw [Bool.eq_iff_iff]
      exact ⟨UNION.all_matches_symm E hsym u1 u2 h1 h2 hal hlen,
        UNION.all_matches_symm E hsym u2 u1 h2 h1 hal.symm hlen.symm⟩
    · have hlen2 : ¬ u2.table.length = u1.table.length := fun h => hlen h.symm
      simp [UNION.plain_is_equal, hlen, hlen2]

/-- Witness of C13: a union with two entries and a union with one, then two unions
with the same entry. -/
theorem plain_is_equal_symm_refl_witness :
    ((∀ same, UNION.plain_is_equal intEnv same (.ok pairN) (.ok (single 1 5 1)) =
        UNION.plain_is_equal intEnv same (.ok (single 1 5 1)) (.ok pairN)) ∧
      UNION.plain_is_equal intEnv true (.ok pairN) (.ok pairN) = .ok true) ∧
    ((∀ same, UNION.plain_is_equal intEnv same (.ok (single 2 5 1)) (.ok (single 1 5 1)) =
        UNION.plain_is_equal intEnv same (.ok (single 1 5 1)) (.ok (single 2 5 1))) ∧
      UNION.plain_is_equal intEnv true (.ok (single 2 5 1)) (.ok (single 2 5 1)) = .ok true) :=
  ⟨plain_is_equal_symm_refl intEnv pairN (single 1 5 1) (fun a b => ⟨_, rfl⟩)
      (fun a b => congrArg Except.ok (decide_eq_decide.mpr eq_comm))
      (by
        refine ⟨?_, ?_⟩
        · intro e he
          simp only [pairN, List.mem_cons, List.mem_singleton, List.not_mem_nil, or_false] at he
          rcases he with rfl | rfl <;> exact ⟨rfl, rfl⟩
        · simp [pairN, spaceD])
      (single_inv 1 5 1) rfl,
    plain_is_equal_symm_refl intEnv (single 2 5 1) (single 1 5 1) (fun a b => ⟨_, rfl⟩)
      (fun a b => congrArg Except.ok (decide_eq_decide.mpr eq_comm)) (single_inv 2 5 1) (single_inv 1 5 1) rfl⟩

/-- C14: for every space, every non-zero part `p` and a payload whose structural
equality is reflexive: whenever the insertion of `p` with the public disjoint
insert into a zero union over the space succeeds, `plain_is_equal` of the result
of one such insertion and the result of another (two distinct objects, so the
pointers differ) returns true; the insertion does succeed, with one entry, when
`p` has the parameters of the space. -/
theorem plain_is_equal_of_same_insert (E : Env V S) (space : Space) (ty : Option Fold)
    (p : PART V) (hz : PART.IS_ZERO E p = .ok false)
    (hrefl : ∀ q, E.plain_is_equal q q = .ok true) :
    (∀ u, UNION.add_PARTS E (UNION.ZERO E space ty) (.ok p) = .ok u →
        UNION.plain_is_equal E false (.ok u) (.ok u) = .ok true) ∧
      (p.dim.params = space.params →
        ∃ u, UNION.add_PARTS E (UNION.ZERO E space ty) (.ok p) = .ok u ∧
          UNION.n_PARTS (.ok u) = 1) := by
  constructor
  · intro u hu
    obtain ⟨s0, hs0, hinv⟩ := UNION.add_PARTS_step_inv E _ _ _ hu
    have hz0 : UNION.Inv E s0 := by
      simp only [UNION.ZERO, UNION.alloc, Except.ok.injEq] at hs0
      subst hs0
      exact TableInv_nil E _
    exact UNION.plain_is_equal_aligned_true E u u rfl rfl
      (UNION.all_matches_refl E u u (hinv hz0) rfl (fun e _ => hrefl e.data))
  · intro hp
    refine ⟨{ ref := 1, type := if E.HAS_TYPE then ty else none, space := isl_space_params space,
              table := [{ hash := isl_space_get_domain_hash E p.dim, data := p }] }, ?_, rfl⟩
    have h := UNION.add_PARTS_wf E
      { ref := 1, type := if E.HAS_TYPE then ty else none, space := isl_space_params space,
        table := [] } p hz hp (Or.inl rfl)
    simp only [UNION.ZERO, UNION.alloc]
    rw [h]
    exact UNION.add_part_core_fresh E _ p true rfl

/-- Witness of C14: the part `3` inserted into zero unions over `spaceN`. -/
theorem plain_is_equal_of_same_insert_witness :
    (∀ u, UNION.add_PARTS intEnv (UNION.ZERO intEnv spaceN none)
          (.ok { dim := spaceD 5, val := 3 }) = .ok u →
        UNION.plain_is_equal intEnv false (.ok u) (.ok u) = .ok true) ∧
      ((spaceD 5).params = spaceN.params →
        ∃ u, UNION.add_PARTS intEnv (UNION.ZERO intEnv spaceN none)
            (.ok { dim := spaceD 5, val := 3 }) = .ok u ∧ UNION.n_PARTS (.ok u) = 1) :=
  plain_is_equal_of_same_insert intEnv spaceN none { dim := spaceD 5, val := 3 } (by decide)
    (by intro q; simp [intEnv])

/-- C15: for every union `u`, `scale_val` and `scale_down_val` with a value that is
one, and `mul_isl_int` with the integer one, return `u` itself: the same
object, with its reference count, type, space and entries unchanged (for
`mul_isl_int` also when `u` is the failed union). -/
theorem scale_by_one_returns_input (E : Env V S) (u : UNION V) (v : isl_val)
    (hv : isl_val_is_one v = true) :
    UNION.scale_val E (.ok u) (.ok v) = .ok u ∧
      UNION.scale_down_val E (.ok u) (.ok v) = .ok u ∧
      ∀ w, UNION.mul_isl_int E w 1 = w := by
  refine ⟨?_, ?_, ?_⟩
  · simp [UNION.scale_val, hv]
  · simp [UNION.scale_down_val, hv]
  · intro w
    simp [UNION.mul_isl_int]

/-- Witness of C15: a shared union holding a zero entry, scaled by the rational
one. -/
theorem scale_by_one_returns_input_witness :
    UNION.scale_val intEnv (.ok (single 2 5 0)) (.ok (.rat 1)) = .ok (single 2 5 0) ∧
      UNION.scale_down_val intEnv (.ok (single 2 5 0)) (.ok (.rat 1)) = .ok (single 2 5 0) ∧
      ∀ w, UNION.mul_isl_int intEnv w 1 = w :=
  scale_by_one_returns_input intEnv (single 2 5 0) (.rat 1) (by decide)

/-- C16: in a zero-default family, for every union `u`, `scale_val` with a value
that is zero and `mul_isl_int` with the integer zero return the zero union over
the space of `u`: a new union with no entry, the reference count `1`, the
parameter space of `u` and (in a family with a type) the type of `u`. -/
theorem scale_by_zero_is_zero_union (E : Env V S) (u : UNION V) (v : isl_val)
    (hdz : E.DEFAULT_IS_ZERO = true) (hv : isl_val_is_zero v = true) :
    UNION.scale_val E (.ok u) (.ok v) = UNION.ZERO E u.space u.type ∧
      UNION.mul_isl_int E (.ok u) 0 = UNION.ZERO E u.space u.type ∧
      UNION.ZERO E u.space u.type =
        .ok { ref := 1, type := if E.HAS_TYPE then u.type else none,
              space := isl_space_params u.space, table := [] } ∧
      UNION.n_PARTS (UNION.ZERO E u.space u.type) = 0 := by
  have h1 : isl_val_is_one v = false := by
    cases v <;> simp_all [isl_val_is_one, isl_val_is_zero]
  refine ⟨?_, ?_, rfl, rfl⟩
  · simp [UNION.scale_val, hv, h1, hdz]
  · simp [UNION.mul_isl_int, hdz]

/-- Witness of C16: a union with two entries scaled by the rational zero. -/
theorem scale_by_zero_is_zero_union_witness :
    UNION.scale_val intEnv (.ok pairN) (.ok (.rat 0)) = UNION.ZERO intEnv pairN.space pairN.type ∧
      UNION.mul_isl_int intEnv (.ok pairN) 0 = UNION.ZERO intEnv pairN.space pairN.type ∧
      UNION.ZERO intEnv pairN.space pairN.type =
        .ok { ref := 1, type := if intEnv.HAS_TYPE then pairN.type else none,
              space := isl_space_params pairN.space, table := [] } ∧
      UNION.n_PARTS (UNION.ZERO intEnv pairN.space pairN.type) = 0 :=
  scale_by_zero_is_zero_union intEnv pairN (.rat 0) rfl (by decide)

/-- C17: for every union `u`, `scale_down_val` with a value that is zero fails
with the invalid-input error ("cannot scale down by zero"). -/
theorem scale_down_by_zero_fails (E : Env V S) (u : UNION V) (v : isl_val)
    (hv : isl_val_is_zero v = true) :
    UNION.scale_down_val E (.ok u) (.ok v) = .error .invalid := by
  have h1 : isl_val_is_one v = false := by
    cases v <;> simp_all [isl_val_is_one, isl_val_is_zero]
  have h2 : isl_val_is_rat v = true := by
    cases v <;> simp_all [isl_val_is_rat, isl_val_is_zero]
  simp [UNION.scale_down_val, hv, h1, h2]

/-- Witness of C17: a union with two entries scaled down by the rational zero. -/
theorem scale_down_by_zero_fails_witness :
    UNION.scale_down_val intEnv (.ok pairN) (.ok (.rat 0)) = .error .invalid :=
  scale_down_by_zero_fails intEnv pairN (.rat 0) (by decide)

/-- C18, evaluated on the code: in the family with a fold type, the sum of a union
holding `1` and a union holding `-1` keeps an entry holding the zero element
(the wrong zero test of C1); with a second reference taken, scaling it by `-2`
(`scale_val`, `scale_down_val`, `mul_isl_int`) returns a union with the negated
type and no entry, although the entry of the union scaled by `-2` is a payload
(the zero payload over the same space): the copy-on-write reinsertion discarded
the entry before the traversal.  On the exclusively owned union with the same
table the entry is scaled in place, as the claim says. -/
theorem scale_negative_loses_zero_entry :
    UNION.copy (UNION.union_add_ foldEnv (.ok (singleF 1 .max 5 1))
        (.ok (singleF 1 .max 5 (-1)))) = .ok (singleF 2 .max 5 0) ∧
      UNION.scale_val foldEnv (.ok (singleF 2 .max 5 0)) (.ok (.rat (-2))) =
        .ok { ref := 1, type := some .min, space := spaceN, table := [] } ∧
      UNION.scale_down_val foldEnv (.ok (singleF 2 .max 5 0)) (.ok (.rat (-2))) =
        .ok { ref := 1, type := some .min, space := spaceN, table := [] } ∧
      UNION.mul_isl_int foldEnv (.ok (singleF 2 .max 5 0)) (-2) =
        .ok { ref := 1, type := some .min, space := spaceN, table := [] } ∧
      PART.scale_val foldEnv { dim := spaceD 5, val := 0 } (.rat (-2)) =
        .ok { dim := spaceD 5, val := 0 } ∧
      UNION.n_PARTS (.ok (singleF 2 .max 5 0)) = 1 ∧
      UNION.scale_val foldEnv (.ok (singleF 1 .max 5 0)) (.ok (.rat (-2))) =
        .ok (singleF 1 .min 5 0) := by
  decide

/-- The claim C18 where the wrong zero test has left no trace: for every union `u`
that is exclusively owned, or shared and well-formed (no stored entry is the
zero element), every rational `q` other than `0` and `1` and every integer `k`
other than `0` and `1`, when the payload operation succeeds on every entry of
`u`: `scale_val(u, q)`, `scale_down_val(u, q)` and `mul_isl_int(u, k)` return an
exclusively owned union over the space of `u` whose entries are the entries of
`u`, each scaled by the factor (for `mul_isl_int`, by the integer that the
callback reads through the address of `k`), and whose type is the negation of
the type of `u` when the family has a type and the factor is negative, and the
type of `u` otherwise (positive factor, or family without a type). -/
theorem scale_negates_type (E : Env V S) (u : UNION V) (q : ℚ) (k : Int)
    (hu : u.ref = 1 ∨ UNION.WF E u) (hq0 : q ≠ 0) (hq1 : q ≠ 1) (hk0 : k ≠ 0) (hk1 : k ≠ 1)
    (hsv : ∀ e ∈ u.table, ∃ p, PART.scale_val E e.data (.rat q) = .ok p)
    (hsd : ∀ e ∈ u.table, ∃ p, PART.scale_down_val E e.data (.rat q) = .ok p)
    (hmi : ∀ e ∈ u.table, ∃ p, PART.mul_isl_int E e.data (E.isl_int_deref k) = .ok p) :
    UNION.scale_val E (.ok u) (.ok (.rat q)) =
        .ok (UNION.scaled E u (decide (q < 0)) (fun p => PART.scale_val E p (.rat q))) ∧
      UNION.scale_down_val E (.ok u) (.ok (.rat q)) =
        .ok (UNION.scaled E u (decide (q < 0)) (fun p => PART.scale_down_val E p (.rat q))) ∧
      UNION.mul_isl_int E (.ok u) k =
        .ok (UNION.scaled E u (decide (k < 0))
          (fun p => PART.mul_isl_int E p (E.isl_int_deref k))) ∧
      (∀ f, (UNION.scaled E u true f).type =
          if E.HAS_TYPE then u.type.map isl_fold_type_negate else u.type) ∧
      (∀ f, (UNION.scaled E u false f).type = u.type) ∧
      (∀ neg f, (UNION.scaled E u neg f).table.length = u.table.length) := by
  refine ⟨?_, ?_, ?_, ?_, ?_, ?_⟩
  · have h := UNION.scale_tail E u hu (decide (q < 0)) (fun p => PART.scale_val E p (.rat q))
      (UNION.scale_val_entry E (.rat q))
      (fun pw p hp => by simp only [UNION.scale_val_entry]; simp only at hp; rw [hp]) hsv
    simp only [UNION.scale_val, isl_val_is_one, isl_val_is_zero, isl_val_is_rat, isl_val_is_neg,
      hq0, hq1, decide_False, Bool.and_false, Bool.not_true, Bool.false_eq_true, if_false]
    simpa using h
  · have h := UNION.scale_tail E u hu (decide (q < 0))
      (fun p => PART.scale_down_val E p (.rat q)) (UNION.scale_down_val_entry E (.rat q))
      (fun pw p hp => by simp only [UNION.scale_down_val_entry]; simp only at hp; rw [hp]) hsd
    simp only [UNION.scale_down_val, isl_val_is_one, isl_val_is_zero, isl_val_is_rat,
      isl_val_is_neg, hq0, hq1, decide_False, Bool.not_true, Bool.false_eq_true, if_false]
    simpa using h
  · have h := UNION.scale_tail E u hu (decide (k < 0))
      (fun p => PART.mul_isl_int E p (E.isl_int_deref k)) (UNION.mul_isl_int_entry E k)
      (fun pw p hp => by simp only [UNION.mul_isl_int_entry]; simp only at hp; rw [hp]) hmi
    simp only [UNION.mul_isl_int, hk0, hk1, decide_False, Bool.and_false, if_false]
    simpa using h
  · intro f
    simp [UNION.scaled]
  · intro f
    simp [UNION.scaled]
  · intro neg f
    simp [UNION.scaled, UNION.map_table]

/-- An instance of the claim C18: a shared well-formed union of type `max` holding
`4`, with the factors `-2` (rational) and `-3` (integer). -/
theorem scale_negates_type_witness :
    UNION.scale_val foldEnv (.ok (singleF 2 .max 5 4)) (.ok (.rat (-2))) =
        .ok (UNION.scaled foldEnv (singleF 2 .max 5 4) (decide ((-2 : ℚ) < 0))
          (fun p => PART.scale_val foldEnv p (.rat (-2)))) ∧
      UNION.scale_down_val foldEnv (.ok (singleF 2 .max 5 4)) (.ok (.rat (-2))) =
        .ok (UNION.scaled foldEnv (singleF 2 .max 5 4) (decide ((-2 : ℚ) < 0))
          (fun p => PART.scale_down_val foldEnv p (.rat (-2)))) ∧
      UNION.mul_isl_int foldEnv (.ok (singleF 2 .max 5 4)) (-3) =
        .ok (UNION.scaled foldEnv (singleF 2 .max 5 4) (decide ((-3 : Int) < 0))
          (fun p => PART.mul_isl_int foldEnv p (foldEnv.isl_int_deref (-3)))) ∧
      (∀ f, (UNION.scaled foldEnv (singleF 2 .max 5 4) true f).type =
          if foldEnv.HAS_TYPE then (singleF 2 .max 5 4).type.map isl_fold_type_negate
          else (singleF 2 .max 5 4).type) ∧
      (∀ f, (UNION.scaled foldEnv (singleF 2 .max 5 4) false f).type =
          (singleF 2 .max 5 4).type) ∧
      (∀ neg f, (UNION.scaled foldEnv (singleF 2 .max 5 4) neg f).table.length =
          (singleF 2 .max 5 4).table.length) :=
  scale_negates_type foldEnv (singleF 2 .max 5 4) (-2) (-3)
    (Or.inr ⟨⟨by intro e he; simp only [singleF, List.mem_singleton] at he; subst he;
                 exact ⟨rfl, rfl⟩,
              by simp [singleF]⟩,
             by intro e he; simp only [singleF, List.mem_singleton] at he; subst he; decide,
             rfl, by intro h; cases h⟩)
    (by decide) (by decide) (by decide) (by decide)
    (by intro e he; simp only [singleF, List.mem_singleton] at he; subst he; exact ⟨_, rfl⟩)
    (by intro e he; simp only [singleF, List.mem_singleton] at he; subst he; exact ⟨_, rfl⟩)
    (by intro e he; simp only [singleF, List.mem_singleton] at he; subst he; exact ⟨_, rfl⟩)

/-- C19, evaluated on the code: the sum of a union holding `1` and a union holding
`-1` keeps an entry holding the zero element (the wrong zero test of C1); with
a second reference taken (count `2`), `cow` returns a union with no entry, not
a copy of every entry of the union, which has one.  A shared union whose entry
is not the zero element is copied entry by entry, and the exclusively owned
union with the zero entry is returned as it is. -/
theorem cow_loses_zero_entry :
    UNION.copy (UNION.union_add_ intEnv (.ok (single 1 5 1)) (.ok (single 1 5 (-1)))) =
        .ok (single 2 5 0) ∧
      UNION.cow intEnv (.ok (single 2 5 0)) = .ok emptyN ∧
      UNION.n_PARTS (.ok emptyN) = 0 ∧ UNION.n_PARTS (.ok (single 2 5 0)) = 1 ∧
      UNION.cow intEnv (.ok (single 2 5 1)) = .ok (single 1 5 1) ∧
      UNION.cow intEnv (.ok (single 1 5 0)) = .ok (single 1 5 0) := by
  decide

/-- The claim C19 where the wrong zero test has left no trace: for every union `u`
that is exclusively owned, or shared and well-formed (no stored entry is the
zero element), `cow` succeeds and returns a union with the reference count `1`
and the space, the type and the entries of `u`; when the count of `u` is `1` the
result is `u` itself. -/
theorem cow_exclusive_copy (E : Env V S) (u : UNION V) (hu : u.ref = 1 ∨ UNION.WF E u) :
    UNION.cow E (.ok u) = .ok { u with ref := 1 } ∧
      (u.ref = 1 → UNION.cow E (.ok u) = .ok u) := by
  refine ⟨UNION.cow_with_wf E _ (UNION.InsCore_fuel E 3) u hu, ?_⟩
  intro h
  simp [UNION.cow, UNION.cow_with, h]

/-- An instance of the claim C19: a well-formed union with the count `3`, and an
exclusively owned union. -/
theorem cow_exclusive_copy_witness :
    UNION.cow intEnv (.ok (single 3 5 1)) = .ok { single 3 5 1 with ref := 1 } ∧
      UNION.cow intEnv (.ok (single 1 5 0)) = .ok (single 1 5 0) :=
  ⟨(cow_exclusive_copy intEnv (single 3 5 1) (Or.inr (single_wf 3 5 1 (by decide)))).1,
    (cow_exclusive_copy intEnv (single 1 5 0) (Or.inl rfl)).2 rfl⟩

/-- C20, evaluated on the code: the sum of a union holding `1` and a union holding
`-1` has one entry (so at most one entry per domain tuple), which holds the
zero element (the wrong zero test of C1); `dup` of it succeeds with a union
with no entry, not with the same number of entries and the same payload over
the domain.  A union whose entry is not the zero element is copied entry by
entry. -/
theorem dup_loses_zero_entry :
    UNION.union_add_ intEnv (.ok (single 1 5 1)) (.ok (single 1 5 (-1))) =
        .ok (single 1 5 0) ∧
      UNION.Inv intEnv (single 1 5 0) ∧
      UNION.dup intEnv (.ok (single 1 5 0)) = .ok emptyN ∧
      UNION.n_PARTS (.ok emptyN) = 0 ∧ UNION.n_PARTS (.ok (single 1 5 0)) = 1 ∧
      UNION.dup intEnv (.ok (single 1 5 1)) = .ok (single 1 5 1) :=
  ⟨by decide, single_inv 1 5 0, by decide, by decide, by decide, by decide⟩

/-- The claim C20 where the wrong zero test has left no trace: for every
well-formed union `u` (at most one entry per domain tuple and no stored entry is
the zero element), `dup` succeeds and returns a
union with the reference count `1` and the space, the type and the table of `u`:
the same number of entries and the same payload in every space. -/
theorem dup_deep_copy (E : Env V S) (u : UNION V) (hwf : UNION.WF E u) :
    UNION.dup E (.ok u) = .ok { u with ref := 1 } ∧
      UNION.n_PARTS (UNION.dup E (.ok u)) = UNION.n_PARTS (.ok u) ∧
      ∀ space, UNION.extract_PARTS E (UNION.dup E (.ok u)) space =
        UNION.extract_PARTS E (.ok u) space := by
  have h : UNION.dup E (.ok u) = .ok { u with ref := 1 } :=
    UNION.dup_with_wf E _ (UNION.InsCore_fuel E 3) u hwf
  refine ⟨h, ?_, ?_⟩
  · rw [h]
    rfl
  · intro space
    rw [h, UNION.extract_PARTS_congr E u { u with ref := 1 } rfl rfl space,
      UNION.extract_PARTS_congr E u u rfl rfl space]

/-- An instance of the claim C20: a well-formed union with one entry. -/
theorem dup_deep_copy_witness :
    UNION.dup intEnv (.ok (single 2 5 1)) = .ok { single 2 5 1 with ref := 1 } ∧
      UNION.n_PARTS (UNION.dup intEnv (.ok (single 2 5 1))) =
        UNION.n_PARTS (.ok (single 2 5 1)) ∧
      ∀ space, UNION.extract_PARTS intEnv (UNION.dup intEnv (.ok (single 2 5 1))) space =
        UNION.extract_PARTS intEnv (.ok (single 2 5 1)) space :=
  dup_deep_copy intEnv (single 2 5 1) (single_wf 2 5 1 (by decide))

/-- C21: for every union `u` and every dimension kind other than the parameter
kind, `drop_dims` and `set_dim_name` fail with the invalid-argument error and
`dim` signals the invalid-argument error and returns `0`.  With the parameter
kind, `dim` returns the number of parameters without an error, and `drop_dims`
and `set_dim_name` raise no error of their own: for a union that satisfies its
invariant, when the transform of the parameter space succeeds and the
transform and the zero test of every entry succeed, they return the union over
the transformed parameters that holds the transformed entries other than zero
elements. -/
theorem parameter_kind_required (E : Env V S) (u : UNION V) (type : isl_dim_type)
    (first n pos name : Nat) :
    (type ≠ .param →
        UNION.drop_dims E (.ok u) type first n = .error .invalid ∧
        UNION.set_dim_name E (.ok u) type pos name = .error .invalid ∧
        UNION.dim (.ok u) type = (0, some .invalid)) ∧
      UNION.dim (.ok u) .param = (u.space.params.length, none) ∧
      (∀ sp, UNION.Inv E u → isl_space_drop_dims u.space .param first n = .ok sp →
        (∀ e ∈ u.table, ∃ p b, PART.drop_dims E e.data .param first n = .ok p ∧
          PART.IS_ZERO E p = .ok b) →
        UNION.drop_dims E (.ok u) .param first n =
          .ok { ref := 1, type := if E.HAS_TYPE then u.type else none,
                space := isl_space_params sp,
                table := u.table.filterMap (UNION.collected_entry E
                  (fun pw => some (PART.drop_dims E pw .param first n))) }) ∧
      (∀ sp, UNION.Inv E u → isl_space_set_dim_name u.space .param pos name = .ok sp →
        (∀ e ∈ u.table, ∃ p b, PART.set_dim_name E e.data .param pos name = .ok p ∧
          PART.IS_ZERO E p = .ok b) →
        UNION.set_dim_name E (.ok u) .param pos name =
          .ok { ref := 1, type := if E.HAS_TYPE then u.type else none,
                space := isl_space_params sp,
                table := u.table.filterMap (UNION.collected_entry E
                  (fun pw => some (PART.set_dim_name E pw .param pos name))) }) := by
  refine ⟨?_, ?_, ?_, ?_⟩
  · intro ht
    simp [UNION.drop_dims, UNION.set_dim_name, UNION.dim, ht]
  · simp [UNION.dim, isl_space_dim]
  · intro sp hinv hsp hok
    have hs := isl_space_drop_dims_ok _ _ _ _ hsp
    have h := UNION.rebuild_params E u hinv sp
      (fun pw => PART.drop_dims E pw .param first n)
      (UNION.drop_dims_entry E .param first n)
      (by intro pw res x hadd; simp only at hadd; simp [UNION.drop_dims_entry, hadd])
      (by
        intro e he
        obtain ⟨p, b, hp, hz⟩ := hok e he
        have hd := isl_space_drop_dims_ok _ _ _ _ (PART.drop_dims_dim E e.data p first n hp)
        exact ⟨p, b, hp, by rw [hd.1, hs.1, (hinv.1 e he).1], hd.2.1, hz⟩)
    simp [UNION.drop_dims, hsp, h]
  · intro sp hinv hsp hok
    have hs := isl_space_set_dim_name_ok _ _ _ _ hsp
    have h := UNION.rebuild_params E u hinv sp
      (fun pw => PART.set_dim_name E pw .param pos name)
      (UNION.set_dim_name_entry E pos name)
      (by intro pw res x hadd; simp only at hadd; simp [UNION.set_dim_name_entry, hadd])
      (by
        intro e he
        obtain ⟨p, b, hp, hz⟩ := hok e he
        have hd := isl_space_set_dim_name_ok _ _ _ _
          (PART.set_dim_name_dim E e.data p pos name hp)
        exact ⟨p, b, hp, by rw [hd.1, hs.1, (hinv.1 e he).1], hd.2.1, hz⟩)
    simp [UNION.set_dim_name, hsp, h]

/-- Witness of C21: a union with two entries; the input kind for the failures,
the parameter `7` dropped, and renamed to `9`. -/
theorem parameter_kind_required_witness :
    (UNION.drop_dims intEnv (.ok pairN) .in_ 0 1 = .error .invalid ∧
        UNION.set_dim_name intEnv (.ok pairN) .in_ 0 9 = .error .invalid ∧
        UNION.dim (.ok pairN) .in_ = (0, some .invalid)) ∧
      UNION.dim (.ok pairN) .param = (pairN.space.params.length, none) ∧
      UNION.drop_dims intEnv (.ok pairN) .param 0 1 =
        .ok { ref := 1, type := if intEnv.HAS_TYPE then pairN.type else none,
              space := isl_space_params { params := [], tin := none, tout := none },
              table := pairN.table.filterMap (UNION.collected_entry intEnv
                (fun pw => some (PART.drop_dims intEnv pw .param 0 1))) } ∧
      UNION.set_dim_name intEnv (.ok pairN) .param 0 9 =
        .ok { ref := 1, type := if intEnv.HAS_TYPE then pairN.type else none,
              space := isl_space_params { params := [9], tin := none, tout := none },
              table := pairN.table.filterMap (UNION.collected_entry intEnv
                (fun pw => some (PART.set_dim_name intEnv pw .param 0 9))) } :=
  ⟨(parameter_kind_required intEnv pairN .in_ 0 1 0 9).1 (by decide),
    (parameter_kind_required intEnv pairN .in_ 0 1 0 9).2.1,
    (parameter_kind_required intEnv pairN .in_ 0 1 0 9).2.2.1 _ pairN_inv rfl
      (by
        intro e he
        simp only [pairN, List.mem_cons, List.mem_singleton, List.not_mem_nil, or_false] at he
        rcases he with rfl | rfl <;> exact ⟨_, _, rfl, rfl⟩),
    (parameter_kind_required intEnv pairN .in_ 0 1 0 9).2.2.2 _ pairN_inv rfl
      (by
        intro e he
        simp only [pairN, List.mem_cons, List.mem_singleton, List.not_mem_nil, or_false] at he
        rcases he with rfl | rfl <;> exact ⟨_, _, rfl, rfl⟩)⟩

/-- C22: for every union `u` and every model space whose parameters are those of
`u`, `align_params` returns `u` itself: the same entries, space, type and
reference count; the pointer returned is the object given (no new union is
built) and that object is left as it was (not released, no entry reinserted). -/
theorem align_params_same_parameters (E : Env V S) (u : UNION V) (model : Space)
    (hm : isl_space_match u.space model = true) :
    UNION.align_params E (.ok u) (.ok model) = .ok u ∧
      UNION.align_params_taken E u (.ok model) =
        { result := .ok u, same := true, object := some u } := by
  constructor
  · simp [UNION.align_params, UNION.align_params_with, hm]
  · simp [UNION.align_params_taken, hm]

/-- Witness of C22: a shared union aligned to a map space over its parameters. -/
theorem align_params_same_parameters_witness :
    UNION.align_params intEnv (.ok (single 2 5 1)) (.ok (spaceD 9)) = .ok (single 2 5 1) ∧
      UNION.align_params_taken intEnv (single 2 5 1) (.ok (spaceD 9)) =
        { result := .ok (single 2 5 1), same := true, object := some (single 2 5 1) } :=
  align_params_same_parameters intEnv (single 2 5 1) (spaceD 9) (by decide)

/-- C23: `add_part_generic` applied to a failed union fails for every part, the
zero part included.  Hence, for a table `pre ++ a :: post` that is traversed:
if the insertion of the entry `a` into the result built from `pre` fails, then
`dup`, `union_add_` (traversing its aligned second operand, inserting into its
aligned and exclusively owned first operand), `realign_domain`, `align_params`
(when the parameters differ) and `subtract_domain` fail as a whole: no union is
returned, neither with the entries of `pre` nor with those of `post`. -/
theorem insertion_failure_fails_operation (E : Env V S) :
    (∀ e part d, ∃ e1, UNION.add_part_generic E (.error e) part d = .error e1) ∧
      (∀ (u : UNION V) pre a post, u.table = pre ++ a :: post →
        (∃ e, UNION.add_PARTS E
          (pre.foldl (fun s x => UNION.add_PARTS E s (.ok x.data)) (UNION.alloc_same_size E u))
          (.ok a.data) = .error e) →
        ∃ e, UNION.dup E (.ok u) = .error e) ∧
      (∀ (u1 u2 b1 a1 a2 : UNION V) pre a post,
        UNION.align_params E (.ok u1) (.ok u2.space) = .ok b1 →
        UNION.align_params E (.ok u2) (.ok b1.space) = .ok a2 →
        UNION.cow E (.ok b1) = .ok a1 → a2.table = pre ++ a :: post →
        (∃ e, UNION.add_part_generic E
          (pre.foldl (fun s x => UNION.add_part_generic E s (.ok x.data) false) (.ok a1))
          (.ok a.data) false = .error e) →
        ∃ e, UNION.union_add_ E (.ok u1) (.ok u2) = .error e) ∧
      (∀ (u : UNION V) (r : isl_reordering) pre a post, u.table = pre ++ a :: post →
        (∃ e, UNION.add_PARTS E
          (pre.foldl (fun s x => UNION.add_PARTS E s (PART.realign_domain E x.data
              (isl_reordering_extend_space r (PART.get_domain_space x.data))))
            (UNION.alloc_same_size_on_space E u r.dim))
          (PART.realign_domain E a.data
            (isl_reordering_extend_space r (PART.get_domain_space a.data))) = .error e) →
        (∃ e, UNION.realign_domain E (.ok u) r = .error e) ∧
        (∀ model, isl_space_match u.space model = false →
          r = isl_parameter_alignment_reordering u.space (isl_space_params model) →
          ∃ e, UNION.align_params E (.ok u) (.ok model) = .error e)) ∧
      (∀ (u : UNION V) (uset : USet S) pre a post, u.table = pre ++ a :: post →
        (∃ e, UNION.add_PARTS E
          (pre.foldl (fun s x => UNION.add_PARTS E s (UNION.subtracted E uset x.data))
            (UNION.alloc_same_size E u))
          (UNION.subtracted E uset a.data) = .error e) →
        ∃ e, UNION.subtract_domain E (.ok u) (.ok uset) = .error e) := by
  have hadd : ∀ e part, ∃ e1, UNION.add_PARTS E (.error e) part = .error e1 :=
    fun e part => UNION.add_part_generic_with_failed E (UNION.add_PARTS_fuel E 3) e part true
  refine ⟨fun e part d => UNION.add_part_generic_with_failed E (UNION.add_PARTS E) e part d,
    ?_, ?_, ?_, ?_⟩
  · intro u pre a post ht hf
    have h : UNION.dup E (.ok u) = _ := UNION.dup_with_eq_foldl E (UNION.add_PARTS E) u
    rw [h, ht]
    exact foldl_failed_at (fun s x => UNION.add_PARTS E s (.ok x.data))
      (fun e x => hadd e _) pre post a _ hf
  · intro u1 u2 b1 a1 a2 pre a post h1 h2 h3 ht hf
    have hfe := UNION.foreach_PARTS_ok a2 (UNION.union_add_part E)
      (fun p s => UNION.add_part_generic E s (.ok p) false) (fun _ _ => rfl) (.ok a1)
    have hu : UNION.union_add_ E (.ok u1) (.ok u2) =
        a2.table.foldl (fun s x => UNION.add_part_generic E s (.ok x.data) false) (.ok a1) := by
      simp only [UNION.union_add_, UNION.get_space, Except.map, h1, h2, h3, hfe]
    rw [hu, ht]
    exact foldl_failed_at (fun s x => UNION.add_part_generic E s (.ok x.data) false)
      (fun e x => UNION.add_part_generic_with_failed E (UNION.add_PARTS E) e _ false)
      pre post a _ hf
  · intro u r pre a post ht hf
    have h : UNION.realign_domain E (.ok u) r = _ :=
      UNION.realign_domain_with_eq_foldl E (UNION.add_PARTS E) u r
    have hr : ∃ e, UNION.realign_domain E (.ok u) r = .error e := by
      rw [h, ht]
      exact foldl_failed_at (fun s x => UNION.add_PARTS E s (PART.realign_domain E x.data
          (isl_reordering_extend_space r (PART.get_domain_space x.data))))
        (fun e x => hadd e _) pre post a _ hf
    refine ⟨hr, ?_⟩
    intro model hm hrm
    have ha : UNION.align_params E (.ok u) (.ok model) = UNION.realign_domain E (.ok u) r := by
      simp [UNION.align_params, UNION.align_params_with, hm, hrm, UNION.realign_domain]
    rw [ha]
    exact hr
  · intro u uset pre a post ht hf
    rw [UNION.subtract_domain_eq_foldl, ht]
    exact foldl_failed_at (fun s x => UNION.add_PARTS E s (UNION.subtracted E uset x.data))
      (fun e x => hadd e _) pre post a _ hf

/-- Witness of C23: a table with two entries over the same domain tuple and
different ranges; the insertion of the second one fails in every traversal. -/
theorem insertion_failure_fails_operation_witness :
    (∃ e, UNION.dup intEnv (.ok twinN) = .error e) ∧
      (∃ e, UNION.union_add_ intEnv (.ok emptyN) (.ok twinN) = .error e) ∧
      ((∃ e, UNION.realign_domain intEnv (.ok twinN)
          (isl_parameter_alignment_reordering twinN.space (isl_space_params pairM.space)) =
            .error e) ∧
        (∃ e, UNION.align_params intEnv (.ok twinN) (.ok pairM.space) = .error e)) ∧
      (∃ e, UNION.subtract_domain intEnv (.ok twinN)
        (.ok { dim := spaceN, table := [] }) = .error e) :=
  ⟨(insertion_failure_fails_operation intEnv).2.1 twinN
      [{ hash := 2, data := { dim := spaceD 5, val := 1 } }]
      { hash := 2, data := { dim := spaceD 6, val := 2 } } [] rfl ⟨.invalid, by decide⟩,
    (insertion_failure_fails_operation intEnv).2.2.1 emptyN twinN emptyN emptyN twinN
      [{ hash := 2, data := { dim := spaceD 5, val := 1 } }]
      { hash := 2, data := { dim := spaceD 6, val := 2 } } [] (by decide) (by decide)
      (by decide) rfl ⟨.invalid, by decide⟩,
    ⟨((insertion_failure_fails_operation intEnv).2.2.2.1 twinN _
        [{ hash := 2, data := { dim := spaceD 5, val := 1 } }]
        { hash := 2, data := { dim := spaceD 6, val := 2 } } [] rfl ⟨.invalid, by decide⟩).1,
      ((insertion_failure_fails_operation intEnv).2.2.2.1 twinN _
        [{ hash := 2, data := { dim := spaceD 5, val := 1 } }]
        { hash := 2, data := { dim := spaceD 6, val := 2 } } [] rfl ⟨.invalid, by decide⟩).2
        pairM.space (by decide) rfl⟩,
    (insertion_failure_fails_operation intEnv).2.2.2.2 twinN { dim := spaceN, table := [] }
      [{ hash := 2, data := { dim := spaceD 5, val := 1 } }]
      { hash := 2, data := { dim := spaceD 6, val := 2 } } [] rfl ⟨.invalid, by decide⟩⟩

/-- C24: for a union `u` and a union of sets `uset` with the same parameters that
satisfy their invariants, and an operation `fn` that, on an entry of `u` and the
set of `uset` living in its domain space, succeeds with a payload over the space
of the entry whose zero test succeeds: `match_domain_op` succeeds, and its
entries are exactly the payloads `fn(p, s)` that are not the zero element, for
the entries `p` of `u` and the sets `s` of `uset` living in the domain space of
`p` (stored under the hash of `p`, in the order of `u`); an entry of `u` without
such a set has no entry over its domain in the result.  When `uset` is not a
parameter domain, `intersect_domain` and `gist` are `match_domain_op` with the
intersection and the gist of payloads. -/
theorem match_domain_op_matched_sets (E : Env V S) (u : UNION V) (uset : USet S)
    (fn : UNION.SetOp V S) (hal : isl_space_match u.space uset.dim = true)
    (hu : UNION.Inv E u) (hs : USet.Inv E uset)
    (hfn : ∀ e ∈ u.table, ∀ s ∈ uset.table, s.data.dim = PART.get_domain_space e.data →
      ∃ r b, fn e.data s.data = .ok r ∧ r.dim = e.data.dim ∧ PART.IS_ZERO E r = .ok b) :
    (∃ res, UNION.match_domain_op E (.ok u) (.ok uset) fn = .ok res ∧
      res.table = u.table.filterMap
        (UNION.collected_entry E (UNION.domain_matched E uset fn)) ∧
      (∀ x, x ∈ res.table ↔
        ∃ e ∈ u.table, ∃ s ∈ uset.table, s.data.dim = PART.get_domain_space e.data ∧
          fn e.data s.data = .ok x.data ∧ PART.IS_ZERO E x.data = .ok false ∧
          x.hash = e.hash) ∧
      (∀ e ∈ u.table, (∀ s ∈ uset.table, s.data.dim ≠ PART.get_domain_space e.data) →
        ∀ x ∈ res.table, x.data.dim.tin ≠ e.data.dim.tin)) ∧
      (isl_union_set_is_params (.ok uset) = .ok false →
        UNION.intersect_domain E (.ok u) (.ok uset) =
          UNION.match_domain_op E (.ok u) (.ok uset) (PART.intersect_domain E) ∧
        UNION.gist E (.ok u) (.ok uset) =
          UNION.match_domain_op E (.ok u) (.ok uset) (PART.gist E)) := by
  have hal2 : isl_space_match uset.dim u.space = true := by
    simp only [isl_space_match, beq_iff_eq] at hal ⊢
    exact hal.symm
  have haux := UNION.collect_aux E (UNION.domain_matched E uset fn)
    (UNION.match_domain_entry E uset fn)
    (by
      intro pw res hg
      unfold UNION.domain_matched at hg
      cases hf : isl_hash_table_find uset.table
          (isl_space_get_hash E (PART.get_domain_space pw))
          (fun set => UNION.set_has_dim set (PART.get_domain_space pw)) false with
      | none => simp [UNION.match_domain_entry, hf]
      | some ref =>
        cases ref with
        | fresh hh =>
          simp only [isl_hash_table_find] at hf
          split at hf <;> simp at hf
        | slot i s => simp [hf] at hg)
    (by
      intro pw r res x hg hadd
      unfold UNION.domain_matched at hg
      cases hf : isl_hash_table_find uset.table
          (isl_space_get_hash E (PART.get_domain_space pw))
          (fun set => UNION.set_has_dim set (PART.get_domain_space pw)) false with
      | none => simp [hf] at hg
      | some ref =>
        cases ref with
        | fresh hh => simp [hf] at hg
        | slot i s =>
          simp only [hf, Option.some.injEq] at hg
          subst hg
          simp [UNION.match_domain_entry, hf, hadd])
    (if E.HAS_TYPE then u.type else none) (isl_space_params u.space) u.table []
    (by simpa using hu.2)
    (by
      intro e he r hg
      have he1 : e ∈ u.table := by simpa using he
      obtain ⟨s, hs1, hd, rfl⟩ := (UNION.domain_matched_some E uset hs fn e.data r).1 hg
      obtain ⟨p, b, hp, hdim, hz⟩ := hfn e he1 s hs1 hd
      exact ⟨p, b, hp, by rw [hdim]; simpa [isl_space_params] using (hu.1 e he1).1,
        by rw [hdim], hz⟩)
  simp only [List.filterMap_nil, List.nil_append] at haux
  have hres : UNION.match_domain_op E (.ok u) (.ok uset) fn =
      .ok { ref := 1, type := if E.HAS_TYPE then u.type else none,
            space := isl_space_params u.space,
            table := u.table.filterMap
              (UNION.collected_entry E (UNION.domain_matched E uset fn)) } := by
    simp only [UNION.match_domain_op, isl_union_set_get_space, Except.map, UNION.align_params,
      UNION.align_params_with, hal, if_true, UNION.get_space, isl_union_set_align_params, hal2,
      UNION.alloc_same_size, UNION.alloc_same_size_on_space, UNION.alloc, haux]
  have hmem : ∀ x, x ∈ u.table.filterMap
        (UNION.collected_entry E (UNION.domain_matched E uset fn)) ↔
      ∃ e ∈ u.table, ∃ s ∈ uset.table, s.data.dim = PART.get_domain_space e.data ∧
        fn e.data s.data = .ok x.data ∧ PART.IS_ZERO E x.data = .ok false ∧
        x.hash = e.hash := by
    intro x
    rw [List.mem_filterMap]
    constructor
    · rintro ⟨e, he, hx⟩
      obtain ⟨hg, hz, hh⟩ := (UNION.collected_entry_some E _ e x).1 hx
      obtain ⟨s, hs1, hd, hr⟩ := (UNION.domain_matched_some E uset hs fn e.data _).1 hg
      obtain ⟨p, b, hp, hdim, -⟩ := hfn e he s hs1 hd
      have hxp : x.data = p := by
        rw [hp] at hr
        cases hr
        rfl
      refine ⟨e, he, s, hs1, hd, hr.symm, hz, ?_⟩
      rw [hh, isl_space_get_domain_hash, hxp, hdim, (hu.1 e he).1, (hu.1 e he).2]
    · rintro ⟨e, he, s, hs1, hd, hr, hz, hh⟩
      refine ⟨e, he, (UNION.collected_entry_some E _ e x).2 ⟨?_, hz, ?_⟩⟩
      · exact (UNION.domain_matched_some E uset hs fn e.data _).2 ⟨s, hs1, hd, hr.symm⟩
      · obtain ⟨p, b, hp, hdim, -⟩ := hfn e he s hs1 hd
        have hxp : x.data = p := by
          rw [hp] at hr
          cases hr
          rfl
        rw [hh, isl_space_get_domain_hash, hxp, hdim, (hu.1 e he).1, (hu.1 e he).2]
  refine ⟨⟨_, hres, rfl, hmem, ?_⟩, ?_⟩
  · intro e he hno x hx hxe
    obtain ⟨e1, he1, s, hs1, hd, hr, -, -⟩ := (hmem x).1 hx
    obtain ⟨p, b, hp, hdim, -⟩ := hfn e1 he1 s hs1 hd
    have hxp : x.data = p := by
      rw [hp] at hr
      cases hr
      rfl
    have : e1 = e := TableInv_unique E _ u.table hu e1 e he1 he (by rw [← hdim, ← hxp, hxe])
    subst this
    exact hno s hs1 hd
  · intro hp
    simp [UNION.intersect_domain, UNION.gist, hp]

/-- Witness of C24: a union with entries over the domain tuples `1` and `2` and a
union of sets with a set over the domain tuple `1` only, intersected. -/
theorem match_domain_op_matched_sets_witness :
    (∃ res, UNION.match_domain_op intEnv (.ok pairN) (.ok coverD)
          (PART.intersect_domain intEnv) = .ok res ∧
      res.table = pairN.table.filterMap (UNION.collected_entry intEnv
        (UNION.domain_matched intEnv coverD (PART.intersect_domain intEnv))) ∧
      (∀ x, x ∈ res.table ↔
        ∃ e ∈ pairN.table, ∃ s ∈ coverD.table, s.data.dim = PART.get_domain_space e.data ∧
          PART.intersect_domain intEnv e.data s.data = .ok x.data ∧
          PART.IS_ZERO intEnv x.data = .ok false ∧ x.hash = e.hash) ∧
      (∀ e ∈ pairN.table, (∀ s ∈ coverD.table, s.data.dim ≠ PART.get_domain_space e.data) →
        ∀ x ∈ res.table, x.data.dim.tin ≠ e.data.dim.tin)) ∧
      (UNION.intersect_domain intEnv (.ok pairN) (.ok coverD) =
          UNION.match_domain_op intEnv (.ok pairN) (.ok coverD) (PART.intersect_domain intEnv) ∧
        UNION.gist intEnv (.ok pairN) (.ok coverD) =
          UNION.match_domain_op intEnv (.ok pairN) (.ok coverD) (PART.gist intEnv)) :=
  ⟨(match_domain_op_matched_sets intEnv pairN coverD (PART.intersect_domain intEnv)
      (by decide) pairN_inv
      ⟨by intro e he; simp only [coverD, List.mem_singleton] at he; subst he; rfl,
        by simp [coverD]⟩
      (by intro e _ s _ _; exact ⟨_, _, rfl, rfl, rfl⟩)).1,
    (match_domain_op_matched_sets intEnv pairN coverD (PART.intersect_domain intEnv)
      (by decide) pairN_inv
      ⟨by intro e he; simp only [coverD, List.mem_singleton] at he; subst he; rfl,
        by simp [coverD]⟩
      (by intro e _ s _ _; exact ⟨_, _, rfl, rfl, rfl⟩)).2 (by decide)⟩

/-- C25: `coalesce` works in place.  When coalescing succeeds on every entry, the
call returns `u` itself with every payload replaced by its coalesced form.  When
the entries before `a` coalesce and `a` fails, the call fails with the error of
`a`, and the object, released once, holds the coalesced payloads before `a`, the
payload of `a` as it was and the entries after `a` untouched.  In both cases the
table keeps its hashes and spaces (hence its domains and its entry count). -/
theorem coalesce_in_place (E : Env V S) (u : UNION V) :
    ((∀ x ∈ u.table, ∃ p, PART.coalesce E x.data = .ok p) →
        UNION.coalesce E (.ok u) =
          .ok { u with table := UNION.map_table (PART.coalesce E) u.table } ∧
        UNION.coalesce_object E u =
          some { u with table := UNION.map_table (PART.coalesce E) u.table } ∧
        (UNION.map_table (PART.coalesce E) u.table).map Entry.key = u.table.map Entry.key) ∧
      (∀ pre a post e, u.table = pre ++ a :: post →
        (∀ x ∈ pre, ∃ p, PART.coalesce E x.data = .ok p) →
        PART.coalesce E a.data = .error e →
        UNION.coalesce E (.ok u) = .error e ∧
        UNION.coalesce_object E u =
          UNION.free { u with table := UNION.map_table (PART.coalesce E) pre ++ a :: post } ∧
        (UNION.map_table (PART.coalesce E) pre ++ a :: post).map Entry.key =
          u.table.map Entry.key) := by
  have hkeys : ∀ t : List (Entry (PART V)),
      (UNION.map_table (PART.coalesce E) t).map Entry.key = t.map Entry.key :=
    fun t => UNION.map_table_keys (PART.coalesce E) (PART.coalesce_dim E) t
  have hok : ∀ pw p, PART.coalesce E pw = .ok p →
      UNION.coalesce_entry E pw () = (.ok (), p, ()) := by
    intro pw p hp
    simp [UNION.coalesce_entry, hp]
  have herr : ∀ pw e, PART.coalesce E pw = .error e →
      UNION.coalesce_entry E pw () = (.error e, pw, ()) := by
    intro pw e hp
    simp [UNION.coalesce_entry, hp]
  constructor
  · intro hall
    have h := isl_hash_table_foreach_map (PART.coalesce E) (UNION.coalesce_entry E) hok
      u.table hall
    refine ⟨?_, ?_, hkeys _⟩
    · simp [UNION.coalesce, UNION.foreach_inplace, h]
    · simp [UNION.coalesce_object, UNION.foreach_inplace, h]
  · intro pre a post e ht hpre ha
    have h := isl_hash_table_foreach_abort (PART.coalesce E) (UNION.coalesce_entry E) hok herr
      pre post a e hpre ha
    refine ⟨?_, ?_, ?_⟩
    · simp [UNION.coalesce, UNION.foreach_inplace, ht, h]
    · simp [UNION.coalesce_object, UNION.foreach_inplace, ht, h]
    · rw [ht, List.map_append, List.map_append, hkeys pre]

/-- Witness of C25: a union holding `13`, which coalesces, and a shared union
whose second entry `-1` does not coalesce. -/
theorem coalesce_in_place_witness :
    (UNION.coalesce intEnv (.ok (single 2 5 13)) =
        .ok { single 2 5 13 with
              table := UNION.map_table (PART.coalesce intEnv) (single 2 5 13).table } ∧
      UNION.coalesce_object intEnv (single 2 5 13) =
        some { single 2 5 13 with
               table := UNION.map_table (PART.coalesce intEnv) (single 2 5 13).table } ∧
      (UNION.map_table (PART.coalesce intEnv) (single 2 5 13).table).map Entry.key =
        (single 2 5 13).table.map Entry.key) ∧
    (UNION.coalesce intEnv (.ok (tripleN 2)) = .error .unknown ∧
      UNION.coalesce_object intEnv (tripleN 2) =
        UNION.free { tripleN 2 with
          table := UNION.map_table (PART.coalesce intEnv) [entryN 1 13] ++
            entryN 2 (-1) :: [entryN 3 25] } ∧
      (UNION.map_table (PART.coalesce intEnv) [entryN 1 13] ++
          entryN 2 (-1) :: [entryN 3 25]).map Entry.key =
        (tripleN 2).table.map Entry.key) :=
  ⟨(coalesce_in_place intEnv (single 2 5 13)).1
      (by intro x hx; simp only [single, List.mem_singleton] at hx; subst hx; exact ⟨_, rfl⟩),
    (coalesce_in_place intEnv (tripleN 2)).2 [entryN 1 13] (entryN 2 (-1)) [entryN 3 25]
      .unknown rfl
      (by intro x hx; simp only [List.mem_singleton] at hx; subst hx; exact ⟨_, rfl⟩)
      (by decide)⟩

/-- C26: for a union `u` that satisfies its invariant and holds an entry `e`, and a
space `sp` with the domain tuple of `e` and a different range tuple:
`find_part_entry` without `reserve` returns the not-found marker, not an error,
and `extract_PARTS` returns the zero element over `sp` (with the parameters of
`u`, and the type of `u` in families with a type), not the payload of `e` and
not an error. -/
theorem find_part_entry_range_mismatch (E : Env V S) (u : UNION V) (e : Entry (PART V))
    (sp : Space) (hinv : UNION.Inv E u) (he : e ∈ u.table)
    (htin : sp.tin = e.data.dim.tin) (hout : sp.tout ≠ e.data.dim.tout) :
    UNION.find_part_entry E (.ok u) sp false = .ok none ∧
      UNION.extract_PARTS E (.ok u) sp =
        .ok (PART.ZERO E (UNION.extract_space u sp) (if E.HAS_TYPE then u.type else none)) ∧
      (UNION.extract_space u sp).tin = sp.tin ∧ (UNION.extract_space u sp).tout = sp.tout ∧
      (UNION.extract_space u sp).params = u.space.params := by
  have key : ∀ s : Space, s.tin = e.data.dim.tin → s.tout ≠ e.data.dim.tout →
      ∀ i x, isl_hash_table_lookup u.table (isl_space_get_domain_hash E s)
        (fun p => UNION.has_same_domain_space p s) = some (i, x) → ¬ x.data.dim.tout = s.tout := by
    intro s hs ho i x hl
    have h1 := isl_hash_table_lookup_some _ _ _ _ _ hl
    have hx : x ∈ u.table := List.getElem?_mem h1.1
    have hxe : x = e := TableInv_unique E _ u.table hinv x e hx he
      (((has_same_domain_space_iff _ _).1 h1.2.2).trans hs)
    rw [hxe]
    exact fun hc => ho hc.symm
  have ht := UNION.extract_space_tuples u sp
  refine ⟨?_, ?_, ht.1, ht.2.1, ht.2.2⟩
  · rw [UNION.find_part_entry_ok]
    cases hl : isl_hash_table_lookup u.table (isl_space_get_domain_hash E sp)
        (fun p => UNION.has_same_domain_space p sp) with
    | none => simp
    | some r =>
      obtain ⟨i, x⟩ := r
      simp [key sp htin hout i x hl]
  · rw [UNION.extract_PARTS_eq]
    cases hl : isl_hash_table_lookup u.table
        (isl_space_get_domain_hash E (UNION.extract_space u sp))
        (fun p => UNION.has_same_domain_space p (UNION.extract_space u sp)) with
    | none => rfl
    | some r =>
      obtain ⟨i, x⟩ := r
      have := key (UNION.extract_space u sp) (ht.1.trans htin) (by rw [ht.2.1]; exact hout) i x hl
      simp [this]

/-- Witness of C26: the union holds a payload over the domain tuple `1` with the
range tuple `5`; the lookup is for the range tuple `6`. -/
theorem find_part_entry_range_mismatch_witness :
    UNION.find_part_entry intEnv (.ok (single 1 5 3)) (spaceD 6) false = .ok none ∧
      UNION.extract_PARTS intEnv (.ok (single 1 5 3)) (spaceD 6) =
        .ok (PART.ZERO intEnv (UNION.extract_space (single 1 5 3) (spaceD 6))
          (if intEnv.HAS_TYPE then (single 1 5 3).type else none)) ∧
      (UNION.extract_space (single 1 5 3) (spaceD 6)).tin = (spaceD 6).tin ∧
      (UNION.extract_space (single 1 5 3) (spaceD 6)).tout = (spaceD 6).tout ∧
      (UNION.extract_space (single 1 5 3) (spaceD 6)).params = (single 1 5 3).space.params :=
  find_part_entry_range_mismatch intEnv (single 1 5 3)
    { hash := 2, data := { dim := spaceD 5, val := 3 } } (spaceD 6) (single_inv 1 5 3)
    (by simp [single]) rfl (by decide)

/-- C27: `plain_is_equal` only keeps its operands: for all unions `u1` and `u2`
to which the caller holds a reference (reference counts at least `1`), whether
or not the pointers are the same, and on every path (identity, different entry
counts, no realignment, realignment or failed realignment of either operand, an
entry without partner, a failing payload comparison), both objects are, after
the call, exactly as before: the same reference count, space, type and table.
The pointers the call works on are those of the function itself. -/
theorem plain_is_equal_keeps_operands (E : Env V S) (same : Bool) (u1 u2 : UNION V)
    (h1 : 0 < u1.ref) (h2 : 0 < u2.ref) :
    UNION.plain_is_equal_objects E same u1 u2 = (some u1, some u2) ∧
      (∀ c model, (UNION.align_params_taken E c (.ok model)).result =
        UNION.align_params E (.ok c) (.ok model)) := by
  constructor
  · unfold UNION.plain_is_equal_objects
    by_cases hs : same = true
    · simp [hs]
    · by_cases hl : u1.table.length = u2.table.length
      · simp only [hs, hl, ne_eq, not_true_eq_false, if_false, Bool.false_eq_true]
        have r1 := UNION.align_params_taken_released E u1 h1
          (UNION.get_space (.ok { u2 with ref := u2.ref + 1 }))
        have s1 := UNION.align_params_taken_same E { u1 with ref := u1.ref + 1 }
          (UNION.get_space (.ok { u2 with ref := u2.ref + 1 }))
        generalize UNION.align_params_taken E { u1 with ref := u1.ref + 1 }
          (UNION.get_space (.ok { u2 with ref := u2.ref + 1 })) = t1 at r1 s1 ⊢
        have r2 := UNION.align_params_taken_released E u2 h2 (UNION.get_space t1.result)
        have s2 := UNION.align_params_taken_same E { u2 with ref := u2.ref + 1 }
          (UNION.get_space t1.result)
        generalize UNION.align_params_taken E { u2 with ref := u2.ref + 1 }
          (UNION.get_space t1.result) = t2 at r2 s2 ⊢
        cases hr1 : t1.result with
        | error e1 =>
          simp only
          rw [r1 _ (fun hsame => by rw [s1 hsame] at hr1; cases hr1), r2 t2.result s2]
        | ok a1 =>
          cases hr2 : t2.result with
          | error e2 =>
            simp only
            rw [r1 _ (fun hsame => by rw [s1 hsame] at hr1; exact hr1.symm ▸ rfl),
              r2 _ (fun hsame => by rw [s2 hsame] at hr2; cases hr2)]
          | ok a2 =>
            simp only [UNION.foreach_inplace]
            have hfr := isl_hash_table_foreach_frame (UNION.plain_is_equal_entry E)
              (UNION.plain_is_equal_entry_frame E) a1.table
              { u2 := a2, is_equal := .ok true }
            rcases hf : isl_hash_table_foreach (UNION.plain_is_equal_entry E) a1.table
              { u2 := a2, is_equal := .ok true } with ⟨st, tb, d⟩
            rw [hf] at hfr
            simp only at hfr
            subst hfr
            simp only
            rw [r1 _ (fun hsame => by rw [s1 hsame] at hr1; cases hr1; rfl),
              r2 _ (fun hsame => by rw [s2 hsame] at hr2; cases hr2; rfl)]
      · simp [hs, hl]
  · intro c model
    by_cases hm : isl_space_match c.space model = true
    · simp [UNION.align_params_taken, UNION.align_params, UNION.align_params_with, hm]
    · simp [UNION.align_params_taken, hm]

/-- Witness of C27: two unions with two entries each over different parameters,
so that the first operand is realigned. -/
theorem plain_is_equal_keeps_operands_witness :
    UNION.plain_is_equal_objects intEnv false pairN pairM = (some pairN, some pairM) ∧
      (∀ c model, (UNION.align_params_taken intEnv c (.ok model)).result =
        UNION.align_params intEnv (.ok c) (.ok model)) :=
  plain_is_equal_keeps_operands intEnv false pairN pairM (by decide) (by decide)
